import Mathlib

/-!
# pclsync: key vault (pcloudcrypto.c) and read page cache (ppagecache.c)

A shallow embedding of the parts of the two cores that the checked properties speak about.
C integers are natural numbers (wrap-around is written out where it matters), byte buffers
are lists of naturals, pointers that multiplex an error code are a sum type, and everything
that lives outside these files (RSA, AES, base32, the SQL store, sockets) enters as an
explicit argument.
-/

namespace Pclsync

/-! ## psynclib.h : return codes -/

def PSYNC_CRYPTO_SETUP_SUCCESS : Nat := 0
def PSYNC_CRYPTO_SETUP_CANT_CONNECT : Nat := 2
def PSYNC_CRYPTO_SETUP_NOT_LOGGED_IN : Nat := 3
def PSYNC_CRYPTO_SETUP_ALREADY_SETUP : Nat := 4
def PSYNC_CRYPTO_SETUP_UNKNOWN_ERROR : Nat := 5

def PSYNC_CRYPTO_START_SUCCESS : Nat := 0
def PSYNC_CRYPTO_START_ALREADY_STARTED : Nat := 1
def PSYNC_CRYPTO_START_CANT_CONNECT : Nat := 2
def PSYNC_CRYPTO_START_NOT_LOGGED_IN : Nat := 3
def PSYNC_CRYPTO_START_NOT_SETUP : Nat := 4
def PSYNC_CRYPTO_START_UNKNOWN_KEY_FORMAT : Nat := 5
def PSYNC_CRYPTO_START_BAD_PASSWORD : Nat := 6
def PSYNC_CRYPTO_START_KEYS_DONT_MATCH : Nat := 7
def PSYNC_CRYPTO_START_UNKNOWN_ERROR : Nat := 8

def PSYNC_CRYPTO_STOP_SUCCESS : Nat := 0
def PSYNC_CRYPTO_STOP_NOT_STARTED : Nat := 1

def PSYNC_CRYPTO_SUCCESS : Int := 0
def PSYNC_CRYPTO_NOT_STARTED : Int := -1
def PSYNC_CRYPTO_RSA_ERROR : Int := -2
def PSYNC_CRYPTO_FOLDER_NOT_FOUND : Int := -3
def PSYNC_CRYPTO_FILE_NOT_FOUND : Int := -4
def PSYNC_CRYPTO_INVALID_KEY : Int := -5
def PSYNC_CRYPTO_CANT_CONNECT : Int := -6
def PSYNC_CRYPTO_FOLDER_NOT_ENCRYPTED : Int := -7
def PSYNC_CRYPTO_INTERNAL_ERROR : Int := -8

/-! ## pcloudcrypto.h : sizes and type codes (the header is not among the sources) -/

/-- Modelled from the spec: the salt of the private key blob is 64 bytes
(`PSYNC_CRYPTO_PBKDF2_SALT_LEN`, declared in the missing pcloudcrypto.h). -/
def PSYNC_CRYPTO_PBKDF2_SALT_LEN : Nat := 64

/-- Modelled from the spec: the iteration count of the only recognized key version is 20000
(`PSYNC_CRYPTO_PASS_TO_KEY_ITERATIONS`, declared in the missing pcloudcrypto.h). -/
def PSYNC_CRYPTO_PASS_TO_KEY_ITERATIONS : Nat := 20000

/-- Modelled from the spec: the AES key of a SymKey is 32 bytes (`PSYNC_AES256_KEY_SIZE`, from the
missing pssl.h). -/
def PSYNC_AES256_KEY_SIZE : Nat := 32

/-- Modelled from the spec: the HMAC key of a SymKey is 64 bytes
(`PSYNC_CRYPTO_HMAC_SHA512_KEY_LEN`, from the missing pcrypto.h). -/
def PSYNC_CRYPTO_HMAC_SHA512_KEY_LEN : Nat := 64

/-- Modelled from the spec: flags bit `IS_DIR = 1` (`PSYNC_CRYPTO_SYM_FLAG_ISDIR`, declared in the
missing pcloudcrypto.h). -/
def PSYNC_CRYPTO_SYM_FLAG_ISDIR : Nat := 1

/-- The three one-word type codes of pcloudcrypto.h. Their numeric values are not in the sources
and are taken as parameters; each is a `uint32_t`. -/
structure TypeCodes where
  PSYNC_CRYPTO_TYPE_RSA4096_64BYTESALT_20000IT : Nat
  PSYNC_CRYPTO_PUB_TYPE_RSA4096 : Nat
  PSYNC_CRYPTO_SYM_AES256_1024BIT_HMAC : Nat

/-- Every type code fits its `uint32_t` field. -/
def TypeCodes.fits (tc : TypeCodes) : Prop :=
  tc.PSYNC_CRYPTO_TYPE_RSA4096_64BYTESALT_20000IT < 2 ^ 32 ∧
  tc.PSYNC_CRYPTO_PUB_TYPE_RSA4096 < 2 ^ 32 ∧
  tc.PSYNC_CRYPTO_SYM_AES256_1024BIT_HMAC < 2 ^ 32

/-! ## Byte layout of the three `*_ver1` structs -/

/-- The four bytes of a `uint32_t` field as stored in memory (least significant first). -/
def store_u32 (n : Nat) : List Nat :=
  [n % 256, n / 256 % 256, n / 65536 % 256, n / 16777216 % 256]

/-- Value of `*((uint32_t *)(buf+off))`; a byte beyond the end of the buffer reads as 0. -/
def load_u32 (buf : List Nat) (off : Nat) : Nat :=
  buf.getD off 0 + 256 * buf.getD (off + 1) 0 + 65536 * buf.getD (off + 2) 0 +
    16777216 * buf.getD (off + 3) 0

/-- Value of `offsetof(pub_key_ver1, key)`: the two words `type` and `flags`. -/
def offsetof_pub_key_ver1_key : Nat := 8

/-- Value of `offsetof(priv_key_ver1, salt)`. -/
def offsetof_priv_key_ver1_salt : Nat := 8

/-- Value of `offsetof(priv_key_ver1, key)`. -/
def offsetof_priv_key_ver1_key : Nat := 8 + PSYNC_CRYPTO_PBKDF2_SALT_LEN

/-- Value of `sizeof(sym_key_ver1)`. -/
def sizeof_sym_key_ver1 : Nat := 8 + PSYNC_AES256_KEY_SIZE + PSYNC_CRYPTO_HMAC_SHA512_KEY_LEN

/-- The private blob that `psync_cloud_crypto_setup_upload` fills in before base64 encoding. -/
def setup_upload_priv (tc : TypeCodes) (rsapriv salt : List Nat) : List Nat :=
  store_u32 tc.PSYNC_CRYPTO_TYPE_RSA4096_64BYTESALT_20000IT ++ store_u32 0 ++
    salt.take PSYNC_CRYPTO_PBKDF2_SALT_LEN ++ rsapriv

/-- The public blob that `psync_cloud_crypto_setup_upload` fills in before base64 encoding. -/
def setup_upload_pub (tc : TypeCodes) (rsapub : List Nat) : List Nat :=
  store_u32 tc.PSYNC_CRYPTO_PUB_TYPE_RSA4096 ++ store_u32 0 ++ rsapub

/-- Out-parameters of `psync_cloud_crypto_download_keys`. -/
structure DownloadedKeys where
  rsapriv : List Nat
  rsapub : List Nat
  salt : List Nat
  saltlen : Nat
  iterations : Nat
deriving DecidableEq, Repr

/-- The two `switch` statements of `psync_cloud_crypto_download_keys`, run on the base64-decoded
`publickey` and `privatekey` fields: the return code and, on success, the out-parameters. -/
def download_keys_parse (tc : TypeCodes) (rsaprivstruct rsapubstruct : List Nat) :
    Nat × Option DownloadedKeys :=
  if load_u32 rsapubstruct 0 = tc.PSYNC_CRYPTO_PUB_TYPE_RSA4096 then
    if offsetof_pub_key_ver1_key ≥ rsapubstruct.length then
      (PSYNC_CRYPTO_START_UNKNOWN_KEY_FORMAT, none)
    else
      let rsapub := rsapubstruct.drop offsetof_pub_key_ver1_key
      if load_u32 rsaprivstruct 0 = tc.PSYNC_CRYPTO_TYPE_RSA4096_64BYTESALT_20000IT then
        if offsetof_priv_key_ver1_key ≥ rsaprivstruct.length then
          (PSYNC_CRYPTO_START_UNKNOWN_KEY_FORMAT, none)
        else
          (PSYNC_CRYPTO_START_SUCCESS, some {
            rsapriv := rsaprivstruct.drop offsetof_priv_key_ver1_key
            rsapub := rsapub
            salt := (rsaprivstruct.drop offsetof_priv_key_ver1_salt).take
              PSYNC_CRYPTO_PBKDF2_SALT_LEN
            saltlen := PSYNC_CRYPTO_PBKDF2_SALT_LEN
            iterations := PSYNC_CRYPTO_PASS_TO_KEY_ITERATIONS })
      else
        (PSYNC_CRYPTO_START_UNKNOWN_KEY_FORMAT, none)
  else
    (PSYNC_CRYPTO_START_UNKNOWN_KEY_FORMAT, none)

/-! ## External collaborators of the key vault -/

/-- The SSL / crypto back end (pssl.h, pcrypto.h): handle types and the primitives the vault
calls. `none` stands for `PSYNC_INVALID_RSA`, `PSYNC_INVALID_SYM_KEY` and
`PSYNC_INVALID_ENC_SYM_KEY`. -/
structure Backend where
  Pub : Type
  Priv : Type
  TextEncoder : Type
  TextDecoder : Type
  SectorCodec : Type
  psync_ssl_rsa_load_public : List Nat → Option Pub
  psync_ssl_rsa_load_private : List Nat → Option Priv
  /-- Arguments: password, key length, salt, salt length, iterations. -/
  psync_ssl_gen_symmetric_key_from_pass : List Nat → Nat → List Nat → Nat → Nat → List Nat
  /-- Arguments: the AES key and the data: create the CTR coder from the key and run
  `psync_crypto_aes256_ctr_encode_decode_inplace` on the data at offset 0. -/
  psync_crypto_aes256_ctr_encode_decode : List Nat → List Nat → List Nat
  psync_ssl_rsa_encrypt_symmetric_key : Option Pub → List Nat → Option (List Nat)
  psync_ssl_rsa_decrypt_symmetric_key : Option Priv → List Nat → Option (List Nat)
  psync_crypto_aes256_text_encoder_create : List Nat → TextEncoder
  psync_crypto_aes256_text_decoder_create : List Nat → TextDecoder
  psync_crypto_aes256_sector_encoder_decoder_create : List Nat → SectorCodec

/-- Modelled from the spec: the IV that follows the 32-byte AES key in the PBKDF2 output is 16
bytes (`PSYNC_AES256_BLOCK_SIZE`, from the missing pssl.h). -/
def PSYNC_AES256_BLOCK_SIZE : Nat := 16

/-- Modelled from the spec: the CACHE_MANAGER (pcache.c is not among the sources). `get` returns
and removes the entry of the key; the vault keeps one typed table per key prefix. -/
def psync_cache_get {α : Type} (c : List (Nat × α)) (id : Nat) : Option α × List (Nat × α) :=
  match c.find? (fun e => e.1 == id) with
  | some e => (some e.2, c.eraseP (fun e => e.1 == id))
  | none => (none, c)

/-- Modelled from the spec: the CACHE_MANAGER `add` inserts the object; an entry that already
exists under the key is released. -/
def psync_cache_add {α : Type} (c : List (Nat × α)) (id : Nat) (v : α) : List (Nat × α) :=
  (id, v) :: c.filter (fun e => e.1 != id)

/-- The file-scope state of pcloudcrypto.c together with the cache-manager tables it uses
(prefixes `FKEY`, `DKEY`, `FLDE`, `FLDD`, `SEEN`). -/
structure Vault (B : Backend) where
  crypto_started_l : Nat
  crypto_pubkey : Option B.Pub
  crypto_privkey : Option B.Priv
  crypto_started_un : Nat
  cache_FKEY : List (Nat × List Nat)
  cache_DKEY : List (Nat × List Nat)
  cache_FLDE : List (Nat × B.TextEncoder)
  cache_FLDD : List (Nat × B.TextDecoder)
  cache_SEEN : List (Nat × B.SectorCodec)

/-- The static initializers of pcloudcrypto.c and an empty cache. -/
def Vault.init (B : Backend) : Vault B :=
  { crypto_started_l := 0, crypto_pubkey := none, crypto_privkey := none, crypto_started_un := 0,
    cache_FKEY := [], cache_DKEY := [], cache_FLDE := [], cache_FLDD := [], cache_SEEN := [] }

/-- Modelled from the spec: `psync_cache_clean_all` releases every entry of the cache manager. -/
def psync_cache_clean_all {B : Backend} (s : Vault B) : Vault B :=
  { s with cache_FKEY := [], cache_DKEY := [], cache_FLDE := [], cache_FLDD := [],
           cache_SEEN := [] }

/-- One round of an API call loop: no connection from the pool, a send that failed, or an
answer. -/
inductive ApiAttempt (R : Type) where
  | no_api
  | send_failed
  | answered (res : R)

/-- The `while (1)` loop that every API call of pcloudcrypto.c opens with; `tries` is the C
variable, the round played is the one numbered `tries`, `none` is the `CANT_CONNECT` return. The
first argument bounds the rounds (six suffice, the loop leaves when `++tries>5`). -/
def api_call_loop {R : Type} (att : Nat → ApiAttempt R) : Nat → Nat → Option R
  | 0, _ => none
  | fuel + 1, tries =>
    match att tries with
    | .no_api => none
    | .send_failed => if tries + 1 > 5 then none else api_call_loop att fuel (tries + 1)
    | .answered res => some res

/-- Answer of `crypto_getuserkeys`: the result code and the base64-decoded key fields. -/
structure UserKeysAnswer where
  result : Nat
  privatekey : List Nat
  publickey : List Nat

def psync_cloud_crypto_download_keys (tc : TypeCodes) (att : Nat → ApiAttempt UserKeysAnswer) :
    Nat × Option DownloadedKeys :=
  match api_call_loop att 6 0 with
  | none => (PSYNC_CRYPTO_START_CANT_CONNECT, none)
  | some res =>
    if res.result ≠ 0 then
      if res.result = 2111 then (PSYNC_CRYPTO_START_NOT_SETUP, none)
      else if res.result = 1000 then (PSYNC_CRYPTO_START_NOT_LOGGED_IN, none)
      else (PSYNC_CRYPTO_START_UNKNOWN_ERROR, none)
    else download_keys_parse tc res.privatekey res.publickey

def crypto_keys_match {B : Backend} (s : Vault B) (rand_weak : List Nat) : Bool :=
  match B.psync_ssl_rsa_encrypt_symmetric_key s.crypto_pubkey rand_weak with
  | none => false
  | some enckey =>
    match B.psync_ssl_rsa_decrypt_symmetric_key s.crypto_privkey enckey with
    | none => false
    | some deckey => rand_weak.length == deckey.length && rand_weak == deckey

/-- What `psync_cloud_crypto_start` reads from outside the vault: how often `psync_sql_trylock`
fails before it succeeds, the four `setting` rows, the rounds of the key download and the 64
bytes of `psync_ssl_rand_weak`. -/
structure StartEnv where
  trylock_failures : Nat
  crypto_private_key : Option (List Nat)
  crypto_public_key : Option (List Nat)
  crypto_private_salt : Option (List Nat)
  crypto_private_iter : Option Nat
  getuserkeys : Nat → ApiAttempt UserKeysAnswer
  rand_weak : List Nat

/-- Number of rows the `SELECT ... FROM setting` of `psync_cloud_crypto_start` returns. -/
def StartEnv.rowcnt (e : StartEnv) : Nat :=
  (if e.crypto_private_key.isSome then 1 else 0) + (if e.crypto_public_key.isSome then 1 else 0) +
  (if e.crypto_private_salt.isSome then 1 else 0) + (if e.crypto_private_iter.isSome then 1 else 0)

/-- The key set `psync_cloud_crypto_start` works with: the four `setting` rows when all are
there, else the result of `psync_cloud_crypto_download_keys` (rows found only in part are
freed). -/
def crypto_start_load_keys (tc : TypeCodes) (e : StartEnv) : Nat × Option DownloadedKeys :=
  if e.rowcnt < 4 then psync_cloud_crypto_download_keys tc e.getuserkeys
  else (PSYNC_CRYPTO_START_SUCCESS, some {
    rsapriv := e.crypto_private_key.getD [], rsapub := e.crypto_public_key.getD [],
    salt := e.crypto_private_salt.getD [], saltlen := (e.crypto_private_salt.getD []).length,
    iterations := e.crypto_private_iter.getD 0 })

/-- The buffer `rsaprivdec` of `psync_cloud_crypto_start`: the private blob ciphertext decoded
with the AES key derived from the password. -/
def crypto_start_rsaprivdec (B : Backend) (password : List Nat) (k : DownloadedKeys) : List Nat :=
  B.psync_crypto_aes256_ctr_encode_decode
    (B.psync_ssl_gen_symmetric_key_from_pass password
      (PSYNC_AES256_KEY_SIZE + PSYNC_AES256_BLOCK_SIZE) k.salt k.saltlen k.iterations)
    k.rsapriv

/-- Body of `psync_cloud_crypto_start` after the write lock and the SQL lock are held and
`crypto_started_l` was found clear. (The final `REPLACE INTO setting` of a downloaded key set
touches only the SQL store and is left out.) -/
def crypto_start_locked {B : Backend} (tc : TypeCodes) (e : StartEnv) (password : List Nat)
    (s : Vault B) : Nat × Vault B :=
  match crypto_start_load_keys tc e with
  | (ret, none) => (ret, s)
  | (_, some k) =>
    let s1 := { s with crypto_pubkey := B.psync_ssl_rsa_load_public k.rsapub }
    if s1.crypto_pubkey.isNone then (PSYNC_CRYPTO_START_UNKNOWN_KEY_FORMAT, s1)
    else
      let s2 := { s1 with
        crypto_privkey := B.psync_ssl_rsa_load_private (crypto_start_rsaprivdec B password k) }
      if s2.crypto_privkey.isNone then
        (PSYNC_CRYPTO_START_BAD_PASSWORD, { s2 with crypto_pubkey := none })
      else if !crypto_keys_match s2 e.rand_weak then
        (PSYNC_CRYPTO_START_KEYS_DONT_MATCH,
          { s2 with crypto_pubkey := none, crypto_privkey := none })
      else
        (PSYNC_CRYPTO_START_SUCCESS, { s2 with crypto_started_l := 1, crypto_started_un := 1 })

/-- The `retry:` loop of `psync_cloud_crypto_start`: every round takes the write lock and tests
`crypto_started_l`; a failed `psync_sql_trylock` drops the lock and goes round again. -/
def crypto_start_retry {B : Backend} (tc : TypeCodes) (e : StartEnv) (password : List Nat) :
    Nat → Vault B → Nat × Vault B
  | 0, s =>
    if s.crypto_started_l ≠ 0 then (PSYNC_CRYPTO_START_ALREADY_STARTED, s)
    else crypto_start_locked tc e password s
  | n + 1, s =>
    if s.crypto_started_l ≠ 0 then (PSYNC_CRYPTO_START_ALREADY_STARTED, s)
    else crypto_start_retry tc e password n s

def psync_cloud_crypto_start {B : Backend} (tc : TypeCodes) (e : StartEnv) (password : List Nat)
    (s : Vault B) : Nat × Vault B :=
  crypto_start_retry tc e password e.trylock_failures s

def psync_cloud_crypto_stop {B : Backend} (s : Vault B) : Nat × Vault B :=
  let s1 := { s with crypto_started_un := 0 }
  if s1.crypto_started_l = 0 then (PSYNC_CRYPTO_STOP_NOT_STARTED, s1)
  else
    (PSYNC_CRYPTO_STOP_SUCCESS,
      psync_cache_clean_all
        { s1 with crypto_started_l := 0, crypto_pubkey := none, crypto_privkey := none })

/-! ## Key getters -/

/-- A returned pointer that may carry a negated error code (`err_to_ptr`) or, on the file path,
the sentinel `PSYNC_CRYPTO_UNLOADED_SECTOR_ENCODER`. -/
inductive PtrResult (α : Type) where
  | error (code : Int)
  | unloaded
  | ptr (v : α)
deriving DecidableEq

/-- Where the encrypted key of an id comes from when the plaintext key is not cached: the row of
`cryptofolderkey` / `cryptofilekey` if there is one, and what the download
(`crypto_getfolderkey` / `crypto_getfilekey`) would return. -/
structure EncKeySource where
  row : Option (List Nat)
  download : Except Int (List Nat)

def psync_crypto_get_folder_enc_key (src : EncKeySource) : PtrResult (List Nat) :=
  match src.row with
  | some ckey => .ptr ckey
  | none =>
    match src.download with
    | .error code => .error code
    | .ok key => .ptr key

def psync_crypto_get_file_enc_key (src : EncKeySource) (nonetwork : Bool) :
    PtrResult (List Nat) :=
  match src.row with
  | some ckey => .ptr ckey
  | none =>
    if nonetwork then .unloaded
    else
      match src.download with
      | .error code => .error code
      | .ok key => .ptr key

def psync_crypto_get_folder_symkey_locked {B : Backend} (s : Vault B) (folderid : Nat)
    (src : EncKeySource) : PtrResult (List Nat) × Vault B :=
  match psync_cache_get s.cache_FKEY folderid with
  | (some symkey, c) => (.ptr symkey, { s with cache_FKEY := c })
  | (none, c) =>
    let s1 := { s with cache_FKEY := c }
    match psync_crypto_get_folder_enc_key src with
    | .error code => (.error code, s1)
    | .unloaded => (.unloaded, s1)
    | .ptr enckey =>
      match B.psync_ssl_rsa_decrypt_symmetric_key s1.crypto_privkey enckey with
      | none => (.error PSYNC_CRYPTO_INVALID_KEY, s1)
      | some symkey => (.ptr symkey, s1)

/-- In the C code the sentinel is tested as `nonetwork && enckey==UNLOADED`;
`psync_crypto_get_file_enc_key` returns the sentinel only when `nonetwork` is set. -/
def psync_crypto_get_file_symkey_locked {B : Backend} (s : Vault B) (fileid : Nat)
    (nonetwork : Bool) (src : EncKeySource) : PtrResult (List Nat) × Vault B :=
  match psync_cache_get s.cache_DKEY fileid with
  | (some symkey, c) => (.ptr symkey, { s with cache_DKEY := c })
  | (none, c) =>
    let s1 := { s with cache_DKEY := c }
    match psync_crypto_get_file_enc_key src nonetwork with
    | .error code => (.error code, s1)
    | .unloaded => (.unloaded, s1)
    | .ptr enckey =>
      match B.psync_ssl_rsa_decrypt_symmetric_key s1.crypto_privkey enckey with
      | none => (.error PSYNC_CRYPTO_INVALID_KEY, s1)
      | some symkey => (.ptr symkey, s1)

def psync_crypto_release_folder_symkey_locked {B : Backend} (s : Vault B) (folderid : Nat)
    (key : List Nat) : Vault B :=
  { s with cache_FKEY := psync_cache_add s.cache_FKEY folderid key }

def psync_crypto_release_file_symkey_locked {B : Backend} (s : Vault B) (fileid : Nat)
    (key : List Nat) : Vault B :=
  { s with cache_DKEY := psync_cache_add s.cache_DKEY fileid key }

/-- Field `type` of the `sym_key_ver1` that the key bytes are cast to. -/
def skv1_type (symkey : List Nat) : Nat := load_u32 symkey 0

/-- Field `flags` of the `sym_key_ver1` that the key bytes are cast to. -/
def skv1_flags (symkey : List Nat) : Nat := load_u32 symkey 4

/-- The two `memcpy` of `psync_crypto_sym_key_ver1_to_sym_key`: `aeskey` followed by `hmackey`. -/
def psync_crypto_sym_key_ver1_to_sym_key (symkey : List Nat) : List Nat :=
  (symkey.drop 8).take PSYNC_AES256_KEY_SIZE ++
    (symkey.drop (8 + PSYNC_AES256_KEY_SIZE)).take PSYNC_CRYPTO_HMAC_SHA512_KEY_LEN

def psync_crypto_get_folder_encoder_locked {B : Backend} (tc : TypeCodes) (s : Vault B)
    (folderid : Nat) (src : EncKeySource) : PtrResult B.TextEncoder × Vault B :=
  match psync_crypto_get_folder_symkey_locked s folderid src with
  | (.error code, s1) => (.error code, s1)
  | (.unloaded, s1) => (.unloaded, s1)
  | (.ptr symkey, s1) =>
    if skv1_type symkey = tc.PSYNC_CRYPTO_SYM_AES256_1024BIT_HMAC then
      if symkey.length ≠ sizeof_sym_key_ver1 then (.error PSYNC_CRYPTO_INVALID_KEY, s1)
      else if skv1_flags symkey &&& PSYNC_CRYPTO_SYM_FLAG_ISDIR = 0 then
        (.error PSYNC_CRYPTO_INVALID_KEY, s1)
      else
        let realkey := psync_crypto_sym_key_ver1_to_sym_key symkey
        (.ptr (B.psync_crypto_aes256_text_encoder_create realkey),
          psync_crypto_release_folder_symkey_locked s1 folderid symkey)
    else (.error PSYNC_CRYPTO_INVALID_KEY, s1)

def psync_crypto_get_folder_decoder_locked {B : Backend} (tc : TypeCodes) (s : Vault B)
    (folderid : Nat) (src : EncKeySource) : PtrResult B.TextDecoder × Vault B :=
  match psync_crypto_get_folder_symkey_locked s folderid src with
  | (.error code, s1) => (.error code, s1)
  | (.unloaded, s1) => (.unloaded, s1)
  | (.ptr symkey, s1) =>
    if skv1_type symkey = tc.PSYNC_CRYPTO_SYM_AES256_1024BIT_HMAC then
      if symkey.length ≠ sizeof_sym_key_ver1 then (.error PSYNC_CRYPTO_INVALID_KEY, s1)
      else
        let realkey := psync_crypto_sym_key_ver1_to_sym_key symkey
        (.ptr (B.psync_crypto_aes256_text_decoder_create realkey),
          psync_crypto_release_folder_symkey_locked s1 folderid symkey)
    else (.error PSYNC_CRYPTO_INVALID_KEY, s1)

def psync_crypto_get_file_encoder_locked {B : Backend} (tc : TypeCodes) (s : Vault B)
    (fileid : Nat) (nonetwork : Bool) (src : EncKeySource) :
    PtrResult B.SectorCodec × Vault B :=
  match psync_crypto_get_file_symkey_locked s fileid nonetwork src with
  | (.error code, s1) => (.error code, s1)
  | (.unloaded, s1) => (.unloaded, s1)
  | (.ptr symkey, s1) =>
    if skv1_type symkey = tc.PSYNC_CRYPTO_SYM_AES256_1024BIT_HMAC then
      if symkey.length ≠ sizeof_sym_key_ver1 then (.error PSYNC_CRYPTO_INVALID_KEY, s1)
      else if skv1_flags symkey &&& PSYNC_CRYPTO_SYM_FLAG_ISDIR ≠ 0 then
        (.error PSYNC_CRYPTO_INVALID_KEY, s1)
      else
        let realkey := psync_crypto_sym_key_ver1_to_sym_key symkey
        (.ptr (B.psync_crypto_aes256_sector_encoder_decoder_create realkey),
          psync_crypto_release_file_symkey_locked s1 fileid symkey)
    else (.error PSYNC_CRYPTO_INVALID_KEY, s1)

/-! ## File names -/

/-- Length that `strlen` reports for a buffer: the bytes before the first NUL. -/
def strlen (buf : List Nat) : Nat := (buf.takeWhile (fun b => b != 0)).length

/-- The text coder and base32 primitives (pcrypto.h, plibs.h) that the file-name functions call,
for one encoder and one decoder handle. `none` is a NULL return. -/
structure NameCodec where
  psync_crypto_aes256_encode_text : List Nat → List Nat
  psync_crypto_aes256_decode_text : List Nat → Option (List Nat)
  psync_base32_encode : List Nat → List Nat
  psync_base32_decode : List Nat → Option (List Nat)

/-- The returned `char *` of `psync_cloud_crypto_encode_filename`: the base32 buffer. -/
def psync_cloud_crypto_encode_filename (c : NameCodec) (name : List Nat) : List Nat :=
  let filenameenc := c.psync_crypto_aes256_encode_text (name.take (strlen name))
  c.psync_base32_encode filenameenc

def psync_cloud_crypto_decode_filename (c : NameCodec) (name : List Nat) : Option (List Nat) :=
  match c.psync_base32_decode (name.take (strlen name)) with
  | none => none
  | some filenameenc => c.psync_crypto_aes256_decode_text filenameenc

/-! ## ppagecache.c : constants, types and file-scope state -/

/-- Constants of psettings.h and the table schema of pdatabase.h (neither is among the sources),
as parameters. -/
structure Settings where
  PSYNC_FS_PAGE_SIZE : Nat
  PSYNC_FS_MEMORY_CACHE : Nat
  PSYNC_FS_FILESTREAMS_CNT : Nat
  PSYNC_FS_MIN_READAHEAD_START : Nat
  PSYNC_FS_MIN_READAHEAD_RAND : Nat
  PSYNC_FS_MAX_READAHEAD : Nat
  PSYNC_FS_MAX_READAHEAD_SEC : Nat
  /-- Whether table `pagecache` has a unique index over `(hash, pageid)`, the constraint that
  makes `UPDATE OR IGNORE` skip a row. -/
  pagecache_unique_index : Bool

def CACHE_PAGES (cfg : Settings) : Nat := cfg.PSYNC_FS_MEMORY_CACHE / cfg.PSYNC_FS_PAGE_SIZE

def CACHE_HASH (cfg : Settings) : Nat := CACHE_PAGES cfg / 2

def PAGE_WAITER_HASH : Nat := 1024

def PAGE_TYPE_FREE : Nat := 0

def PAGE_TYPE_READ : Nat := 1

/-- Value of `EIO` in errno.h. -/
def EIO : Int := 5

/-- Value of `ENOTCONN` in errno.h. -/
def ENOTCONN : Int := 107

/-- The sum is a `uint64_t` sum. -/
def pagehash_by_hash_and_pageid (cfg : Settings) (hash pageid : Nat) : Nat :=
  (hash + pageid) % 2 ^ 64 % CACHE_HASH cfg

/-- The sum is a `uint64_t` sum. -/
def waiterhash_by_hash_and_pageid (hash pageid : Nat) : Nat :=
  (hash + pageid) % 2 ^ 64 % PAGE_WAITER_HASH

/-- A page of the memory pool. `page` is the pointer to its data, kept as the index of the page
in the slab; the two list nodes are the positions of the page in the lists that hold it. -/
structure psync_cache_page_t where
  page : Nat
  hash : Nat
  pageid : Nat
  lastuse : Nat
  size : Nat
  usecnt : Nat
  flushpageid : Nat
  type : Nat
deriving DecidableEq, Repr

/-- A wait entry; `waiters` holds the waiters as indices into the waiter heap of the state. -/
structure psync_page_wait_t where
  waiters : List Nat
  hash : Nat
  pageid : Nat
  fileid : Nat
deriving DecidableEq, Repr

/-- A waiter. `buff` is the destination pointer, kept as offset into the buffer of the reader. -/
structure psync_page_waiter_t where
  buff : Nat
  pageidx : Nat
  rsize : Nat
  size : Nat
  off : Nat
  error : Int
  ready : Nat
deriving DecidableEq, Repr

structure psync_request_range_t where
  offset : Nat
  length : Nat
deriving DecidableEq, Repr

/-- A request; `of_hash` is `request->of->hash`. -/
structure psync_request_t where
  ranges : List psync_request_range_t
  of_hash : Nat
  fileid : Nat
  hash : Nat
deriving DecidableEq, Repr

/-- A row of table `pagecache(id, hash, pageid, type, lastuse, usecnt, size)`. -/
structure pagecache_row where
  id : Nat
  hash : Option Nat
  pageid : Option Nat
  type : Nat
  lastuse : Nat
  usecnt : Nat
  size : Nat
deriving DecidableEq, Repr

/-- The file-scope state of ppagecache.c, the rows of table `pagecache` and the heap of waiters.
The access-update ring (`cachepages_to_update`, `mark_pagecache_used`) is not part of the
model. -/
structure PageCache where
  cache_hash : Nat → List psync_cache_page_t
  cache_pages_in_hash : Nat
  cache_pages_free : Nat
  free_pages : List psync_cache_page_t
  wait_page_hash : Nat → List psync_page_wait_t
  waiters : List psync_page_waiter_t
  pagecache : List pagecache_row
  free_db_pages : Nat
  db_cache_in_pages : Nat
  db_cache_max_page : Nat
  flushchacherun : Nat
  local_full : Nat

/-- A `uint32_t` counter decremented by `n`. -/
def sub_u32 (x n : Nat) : Nat := (x + 2 ^ 32 - n % 2 ^ 32) % 2 ^ 32

/-- A `uint32_t` counter incremented by `n`. -/
def add_u32 (x n : Nat) : Nat := (x + n) % 2 ^ 32

/-- A `uint64_t` sum. -/
def add_u64 (a b : Nat) : Nat := (a + b) % 2 ^ 64

/-- A `uint64_t` difference. -/
def sub_u64 (a b : Nat) : Nat := (a + 2 ^ 64 - b % 2 ^ 64) % 2 ^ 64

/-- A `uint64_t` product. -/
def mul_u64 (a b : Nat) : Nat := a * b % 2 ^ 64

/-- Modelled from the spec: `psync_list_sort` (plist.c is not among the sources) sorts a list by
the comparator; equal elements keep their order. -/
def psync_list_sort {α : Type} (cmp : α → α → Int) (l : List α) : List α :=
  l.insertionSort (fun a b => cmp a b ≤ 0)

/-! ## Flush cycle -/

def cmp_flush_pages (page1 page2 : psync_cache_page_t) : Int :=
  if page1.hash < page2.hash then -1
  else if page1.hash > page2.hash then 1
  else if page1.pageid < page2.pageid then -1
  else if page1.pageid > page2.pageid then 1
  else 0

def cmp_discard_pages (page1 page2 : psync_cache_page_t) : Int :=
  if page1.lastuse < page2.lastuse then -1
  else if page1.lastuse > page2.lastuse then 1
  else 0

/-- What a flush cycle reads from outside: size of the pagefile and free space (`none` is the
error return -1), the `minlocalfreespace` setting, the time, whether the n-th `pwrite` of the
cycle and the `fsync` succeed, the value of the final `psync_sql_commit_transaction()`. -/
structure FlushEnv where
  filesize : Option Nat
  freespace : Option Nat
  minlocal : Nat
  ctime : Nat
  pwrite_ok : Nat → Bool
  sync_ok : Bool
  commit_ret : Int

/-- Value of `SELECT MAX(id) FROM pagecache` (0 on an empty table). -/
def pagecache_max_id (rows : List pagecache_row) : Nat :=
  rows.foldl (fun m r => max m r.id) 0

/-- Value of `SELECT COUNT(*) FROM pagecache WHERE type=PAGE_TYPE_FREE`. -/
def pagecache_count_free (rows : List pagecache_row) : Nat :=
  (rows.filter (fun r => r.type == PAGE_TYPE_FREE)).length

/-- The function `check_disk_full`; the sizes are `int64_t` values that are not negative, the
products, sums and differences are formed in `uint64_t`. -/
def check_disk_full (cfg : Settings) (env : FlushEnv) (s : PageCache) : Nat × PageCache :=
  let s := { s with db_cache_max_page := pagecache_max_id s.pagecache }
  match env.filesize with
  | none => (0, s)
  | some filesize =>
    if filesize ≥ mul_u64 s.db_cache_max_page cfg.PSYNC_FS_PAGE_SIZE then (0, s)
    else
      match env.freespace with
      | none => (0, { s with local_full := 0 })
      | some freespace =>
        if sub_u64 (add_u64 env.minlocal (mul_u64 s.db_cache_max_page cfg.PSYNC_FS_PAGE_SIZE))
            filesize ≤ freespace then
          (0, { s with local_full := 0 })
        else
          let maxpage :=
            if env.minlocal ≥ freespace then filesize / cfg.PSYNC_FS_PAGE_SIZE
            else sub_u64 (add_u64 filesize freespace) env.minlocal / cfg.PSYNC_FS_PAGE_SIZE
          let rows := s.pagecache.filter (fun r => !(r.id > maxpage))
          (1, { s with local_full := 1, pagecache := rows,
                       free_db_pages := pagecache_count_free rows,
                       db_cache_max_page := maxpage })

/-- The `READ` pages of the memory hash in the order of the two nested loops of `flush_pages`. -/
def collect_read_pages (cfg : Settings) (s : PageCache) : List psync_cache_page_t :=
  (List.range (CACHE_HASH cfg)).flatMap
    (fun i => (s.cache_hash i).filter (fun page => page.type == PAGE_TYPE_READ))

/-- Effect of `psync_list_del(&page->list)` for a page that sits in the memory hash: the page
with this data pointer leaves its bucket. -/
def cache_hash_del (cfg : Settings) (s : PageCache) (page : psync_cache_page_t) : PageCache :=
  let h := pagehash_by_hash_and_pageid cfg page.hash page.pageid
  { s with cache_hash :=
      Function.update s.cache_hash h ((s.cache_hash h).filter (fun p => p.page != page.page)) }

/-- The loop of the disk-full branch of `flush_pages` over the sorted pages; `i` counts the
pages discarded so far. -/
def discard_pages (cfg : Settings) : List psync_cache_page_t → Nat → PageCache → PageCache
  | [], _, s => s
  | page :: rest, i, s =>
    let s := cache_hash_del cfg s page
    let s := { s with free_pages := page :: s.free_pages,
                      cache_pages_in_hash := sub_u32 s.cache_pages_in_hash 1 }
    if i + 1 ≥ CACHE_PAGES cfg / 2 then s else discard_pages cfg rest (i + 1) s

/-- Ids of the rows that `SELECT id FROM pagecache WHERE type=PAGE_TYPE_FREE ORDER BY id LIMIT ?`
returns. -/
def select_free_ids (rows : List pagecache_row) (limit : Nat) : List Nat :=
  (((rows.filter (fun r => r.type == PAGE_TYPE_FREE)).map (fun r => r.id)).insertionSort
    (fun a b => a ≤ b)).take limit

/-- The slot assignment loop of `flush_pages`: each page of the sorted list takes the next id
(`flushpageid` is a `uint32_t`); the pages for which no row is left are unlinked from the flush
list. The flush list holds the pages themselves, so the value written to `flushpageid` is
recorded in the list element. -/
def assign_flush_slots : List psync_cache_page_t → List Nat → List psync_cache_page_t
  | [], _ => []
  | _ :: _, [] => []
  | page :: rest, id :: ids =>
    { page with flushpageid := id % 2 ^ 32 } :: assign_flush_slots rest ids

/-- Effect of `UPDATE OR IGNORE pagecache SET hash=?, pageid=?, type=PAGE_TYPE_READ, lastuse=?,
usecnt=?, size=? WHERE id=?` for a page: the rows after it and `psync_sql_affected_rows()`. -/
def update_or_ignore_page (cfg : Settings) (rows : List pagecache_row)
    (page : psync_cache_page_t) : List pagecache_row × Nat :=
  let conflict := cfg.pagecache_unique_index &&
    rows.any (fun r => r.id != page.flushpageid && r.hash == some page.hash &&
      r.pageid == some page.pageid)
  if conflict || !rows.any (fun r => r.id == page.flushpageid) then (rows, 0)
  else
    (rows.map (fun r =>
      if r.id = page.flushpageid then
        { r with hash := some page.hash, pageid := some page.pageid, type := PAGE_TYPE_READ,
                 lastuse := page.lastuse, usecnt := page.usecnt, size := page.size }
      else r), 1)

/-- The loop of `flush_pages` that moves the written pages to the table and to the free list;
the accumulator holds the state, `updates` and `pagecnt`. (The commit every 64 updates only
splits the transaction.) -/
def flush_move_pages (cfg : Settings) :
    List psync_cache_page_t → PageCache × Nat × Nat → PageCache × Nat × Nat
  | [], acc => acc
  | page :: rest, (s, updates, pagecnt) =>
    let s := cache_hash_del cfg s page
    let r := update_or_ignore_page cfg s.pagecache page
    let s := { s with pagecache := r.1, cache_pages_free := add_u32 s.cache_pages_free 1 }
    let acc : PageCache × Nat × Nat :=
      if r.2 ≠ 0 then
        ({ s with free_db_pages := sub_u32 s.free_db_pages 1 }, updates + 1, pagecnt + 1)
      else (s, updates, pagecnt)
    let s := acc.1
    flush_move_pages cfg rest ({ s with free_pages := page :: s.free_pages }, acc.2.1, acc.2.2)

/-- The memory hash after `page->flushpageid=row[0]` for the pages of the flush list. -/
def store_flushpageids (s : PageCache) (flushl : List psync_cache_page_t) : PageCache :=
  { s with cache_hash := fun i =>
      (s.cache_hash i).map (fun p =>
        match flushl.find? (fun q => q.page == p.page) with
        | some q => q
        | none => p) }

/-- The rows that the `INSERT INTO pagecache (type) VALUES (PAGE_TYPE_FREE)` loop of
`flush_pages` appends: `i` rows whose ids follow the largest id. -/
def insert_free_rows (rows : List pagecache_row) (i : Nat) : List pagecache_row :=
  rows ++ (List.range i).map (fun k =>
    { id := pagecache_max_id rows + 1 + k, hash := none, pageid := none, type := PAGE_TYPE_FREE,
      lastuse := 0, usecnt := 0, size := 0 })

/-- Second half of `flush_pages`, from `psync_sql_start_transaction()` on. -/
def flush_pages_commit (cfg : Settings) (env : FlushEnv) (diskfull : Nat)
    (pages_to_flush : List psync_cache_page_t) (s : PageCache) : Int × PageCache :=
  let r1 : PageCache × Nat :=
    if s.db_cache_max_page < s.db_cache_in_pages ∧ s.cache_pages_in_hash ≠ 0 ∧ diskfull = 0 then
      let i := min (s.db_cache_in_pages - s.db_cache_max_page)
        (min (CACHE_PAGES cfg) s.cache_pages_in_hash)
      ({ s with pagecache := insert_free_rows s.pagecache i,
                free_db_pages := add_u32 s.free_db_pages i,
                db_cache_max_page := s.db_cache_max_page + i }, 1)
    else (s, 0)
  let r2 : PageCache × Nat :=
    if pages_to_flush ≠ [] then
      let m := flush_move_pages cfg pages_to_flush (r1.1, r1.2, 0)
      ({ m.1 with cache_pages_in_hash := sub_u32 m.1.cache_pages_in_hash m.2.2 }, m.2.1)
    else r1
  let s := { r2.1 with flushchacherun := 0 }
  if r2.2 ≠ 0 then (env.commit_ret, s) else (0, s)

/-- One flush cycle, `flush_pages`: the disk check, the choice of the memory pages to write, the
write and the sync of the pagefile (their results come from `env`), and the commit of the rows.
The argument `nosleep` of the source only decides whether the cycle waits before the sync and is
left out, as are the start of the cleaning thread and the write of the pending access updates. -/
def flush_pages (cfg : Settings) (env : FlushEnv) (s : PageCache) : Int × PageCache :=
  let d := check_disk_full cfg env s
  let diskfull := d.1
  let s := d.2
  let s :=
    if diskfull ≠ 0 ∧ s.free_pages.isEmpty ∧ s.free_db_pages = 0 then
      discard_pages cfg (psync_list_sort cmp_discard_pages (collect_read_pages cfg s)) 0 s
    else s
  if s.cache_pages_in_hash ≠ 0 then
    let pages := collect_read_pages cfg s
    let pagecnt := pages.length
    let s := { s with cache_pages_in_hash := pagecnt }
    let pages_to_flush := assign_flush_slots (psync_list_sort cmp_flush_pages pages)
      (select_free_ids s.pagecache pagecnt)
    let s := store_flushpageids s pages_to_flush
    if !(List.range pages_to_flush.length).all env.pwrite_ok then (-1, s)
    else if !env.sync_ok then (-1, s)
    else flush_pages_commit cfg env diskfull pages_to_flush s
  else flush_pages_commit cfg env diskfull [] s

/-! ## Page pool -/

/-- The argument `rounds` lists the flush cycles that run while the free list is empty (the C
code flushes and sleeps until a page is free); `none` when the list is still empty after them.
Starting the background flush thread is recorded in `flushchacherun` only. -/
def psync_pagecache_get_free_page (cfg : Settings) (rounds : List FlushEnv) (s : PageCache) :
    Option (psync_cache_page_t × PageCache) :=
  let s :=
    if s.cache_pages_free ≤ CACHE_PAGES cfg * 10 / 100 ∧ s.flushchacherun = 0 then
      { s with flushchacherun := 1 }
    else s
  let rec wait_free : List FlushEnv → PageCache → Option (psync_cache_page_t × PageCache)
    | rounds, s =>
      match s.free_pages with
      | page :: rest =>
        some (page, { s with free_pages := rest, cache_pages_free := sub_u32 s.cache_pages_free 1 })
      | [] =>
        match rounds with
        | [] => none
        | env :: rounds => wait_free rounds (flush_pages cfg env s).2
  wait_free rounds s

def psync_pagecache_return_free_page_locked (s : PageCache) (page : psync_cache_page_t) :
    PageCache :=
  { s with free_pages := page :: s.free_pages, cache_pages_free := add_u32 s.cache_pages_free 1 }

def psync_pagecache_return_free_page (s : PageCache) (page : psync_cache_page_t) : PageCache :=
  psync_pagecache_return_free_page_locked s page

/-! ## Wait index and network fill -/

/-- The test `pw->hash==hash && pw->pageid==pageid` of the look-up loops over a bucket. -/
def wait_match (hash pageid : Nat) (pw : psync_page_wait_t) : Bool :=
  pw.hash == hash && pw.pageid == pageid

/-- Number of bytes `psync_pagecache_send_page_wait_page` copies for a waiter (`pwt->rsize`). -/
def send_page_wait_rsize (page_size off size : Nat) : Nat :=
  if off + size > page_size then
    if off ≥ page_size then 0 else page_size - off
  else size

/-- Effect of `psync_list_del(&pw->list)` for the entry that a look-up loop has found: the first
entry of bucket `h` that matches the key leaves the bucket. -/
def wait_hash_del (s : PageCache) (h hash pageid : Nat) : PageCache :=
  { s with
    wait_page_hash :=
      Function.update s.wait_page_hash h ((s.wait_page_hash h).eraseP (wait_match hash pageid)) }

/-- A waiter of the heap was handed the error `err`. -/
def waiter_has_error (s : PageCache) (id : Nat) (err : Int) : Prop :=
  ∃ w, s.waiters[id]? = some w ∧ w.error = err ∧ w.ready = 1

/-- Updates one waiter of the heap. -/
def set_waiter (s : PageCache) (id : Nat) (f : psync_page_waiter_t → psync_page_waiter_t) :
    PageCache :=
  { s with waiters := s.waiters.modify f id }

/-- The entry `pw` is the first one of bucket `h` that matches its key; `psync_list_del` takes it
out of the bucket and every waiter gets its bytes. Returns the page with its new `usecnt`. -/
def psync_pagecache_send_page_wait_page (s : PageCache) (h : Nat) (pw : psync_page_wait_t)
    (page : psync_cache_page_t) : PageCache × psync_cache_page_t :=
  let s := wait_hash_del s h pw.hash pw.pageid
  pw.waiters.foldl (fun (acc : PageCache × psync_cache_page_t) id =>
      (set_waiter acc.1 id (fun pwt =>
          { pwt with rsize := send_page_wait_rsize acc.2.size pwt.off pwt.size, error := 0,
                     ready := 1 }),
        { acc.2 with usecnt := add_u32 acc.2.usecnt 1 }))
    (s, page)

/-- The tail of the page loop of `psync_pagecache_read_range_from_sock` (and `_from_api`) once
the page is filled: wake the waiters of the page, then link the page into the memory hash. -/
def fill_page (cfg : Settings) (s : PageCache) (page : psync_cache_page_t) : PageCache :=
  let h := waiterhash_by_hash_and_pageid page.hash page.pageid
  let r : PageCache × psync_cache_page_t :=
    match (s.wait_page_hash h).find? (wait_match page.hash page.pageid) with
    | some pw => psync_pagecache_send_page_wait_page s h pw page
    | none => (s, page)
  let s := r.1
  let b := pagehash_by_hash_and_pageid cfg page.hash page.pageid
  { s with cache_hash := Function.update s.cache_hash b (s.cache_hash b ++ [r.2]),
           cache_pages_in_hash := add_u32 s.cache_pages_in_hash 1 }

/-- What the content server connection delivers for one range: the return value of
`psync_http_next_request` and those of `psync_http_request_readall`, page by page. -/
structure SockRange where
  next_request : Int
  readall : List Int
deriving DecidableEq, Repr

/-- The page loop of `psync_pagecache_read_range_from_sock`, pages `i .. len-1`; a page for
which the socket script holds no value reads as a failure. `none`: no free page came. -/
def read_range_pages (cfg : Settings) (rounds : List FlushEnv) (tm : Nat)
    (request : psync_request_t) (first_page_id : Nat) (sock : SockRange) :
    Nat → Nat → PageCache → Option (Int × PageCache)
  | 0, _, s => some (0, s)
  | n + 1, i, s =>
    match psync_pagecache_get_free_page cfg rounds s with
    | none => none
    | some (page, s) =>
      let rb := sock.readall.getD i (-1)
      if rb ≤ 0 then some (-1, psync_pagecache_return_free_page s page)
      else
        let page := { page with hash := request.of_hash, pageid := first_page_id + i,
                                lastuse := tm, size := rb.toNat, usecnt := 0,
                                type := PAGE_TYPE_READ }
        read_range_pages cfg rounds tm request first_page_id sock n (i + 1)
          (fill_page cfg s page)

def psync_pagecache_read_range_from_sock (cfg : Settings) (rounds : List FlushEnv) (tm : Nat)
    (request : psync_request_t) (range : psync_request_range_t) (sock : SockRange)
    (s : PageCache) : Option (Int × PageCache) :=
  let first_page_id := range.offset / cfg.PSYNC_FS_PAGE_SIZE
  let len := range.length / cfg.PSYNC_FS_PAGE_SIZE
  if sock.next_request ≠ 0 then
    if sock.next_request = 410 ∨ sock.next_request = 404 ∨ sock.next_request = -1 then
      some (1, s)
    else some (-1, s)
  else read_range_pages cfg rounds tm request first_page_id sock len 0 s

/-- Removes the first entry of bucket `h` that matches the key of `pw` and hands the error to
its waiters. -/
def psync_pagecache_send_error_page_wait (s : PageCache) (h : Nat) (pw : psync_page_wait_t)
    (err : Int) : PageCache :=
  let s := wait_hash_del s h pw.hash pw.pageid
  pw.waiters.foldl
    (fun acc id => set_waiter acc id (fun pwt => { pwt with error := err, ready := 1 })) s

/-- The loop of `psync_pagecache_send_range_error` over the pages `i .. len-1` of the range. -/
def send_range_error_pages (request : psync_request_t) (first_page_id : Nat) (err : Int) :
    Nat → Nat → PageCache → PageCache
  | 0, _, s => s
  | n + 1, i, s =>
    let h := waiterhash_by_hash_and_pageid request.of_hash (first_page_id + i)
    let s :=
      match (s.wait_page_hash h).find? (wait_match request.of_hash (first_page_id + i)) with
      | some pw => psync_pagecache_send_error_page_wait s h pw err
      | none => s
    send_range_error_pages request first_page_id err n (i + 1) s

def psync_pagecache_send_range_error (cfg : Settings) (range : psync_request_range_t)
    (request : psync_request_t) (err : Int) (s : PageCache) : PageCache :=
  send_range_error_pages request (range.offset / cfg.PSYNC_FS_PAGE_SIZE) err
    (range.length / cfg.PSYNC_FS_PAGE_SIZE) 0 s

def psync_pagecache_send_error (cfg : Settings) (request : psync_request_t) (err : Int)
    (s : PageCache) : PageCache :=
  request.ranges.foldl (fun s range => psync_pagecache_send_range_error cfg range request err s) s

/-- One pass of `psync_pagecache_read_unmodified_thread` from the label `retry` on, as the
environment plays it: the flush cycles that the flush thread completes before the pass, whether
`get_urls_for_request` gives a URL bundle, whether a content server connection is obtained, for
every range whether `psync_http_request` succeeds and what the socket delivers, the flush
cycles a page allocation may need and the time. -/
structure SockTry where
  flushes_before : List FlushEnv
  urls : Bool
  connect : Bool
  request_ok : List Bool
  ranges : List SockRange
  rounds : List FlushEnv
  tm : Nat

/-- The loop `psync_list_for_each_element(range, ...) if ((err=psync_pagecache_read_range_from_sock(...)))`
of the thread: reads the ranges in turn and stops at the first non-zero return. -/
def read_ranges_from_sock (cfg : Settings) (t : SockTry) (request : psync_request_t) :
    List psync_request_range_t → Nat → PageCache → Option (Int × PageCache)
  | [], _, s => some (0, s)
  | range :: rest, k, s =>
    match psync_pagecache_read_range_from_sock cfg t.rounds t.tm request range
        (t.ranges.getD k { next_request := -2, readall := [] }) s with
    | none => none
    | some (err, s) =>
      if err ≠ 0 then some (err, s) else read_ranges_from_sock cfg t request rest (k + 1) s

/-- The thread `psync_pagecache_read_unmodified_thread` for a request that is served by a
content server connection (the URL bundle comes from `get_urls_for_request` without a read
through the API, the branches that borrow an API connection are not taken). The list holds one
`SockTry` per pass through `retry`; `none`: the list is used up or no free page came. -/
def psync_pagecache_read_unmodified_thread (cfg : Settings) (online : Bool)
    (request : psync_request_t) (tries_played : List SockTry) (s : PageCache) :
    Option PageCache :=
  if !online then some (psync_pagecache_send_error cfg request (-ENOTCONN) s)
  else
    let rec retry : List SockTry → Nat → PageCache → Option PageCache
      | [], _, _ => none
      | t :: later, tries, s =>
        let s := t.flushes_before.foldl (fun s env => (flush_pages cfg env s).2) s
        if !t.urls then some (psync_pagecache_send_error cfg request (- EIO) s)
        else if request.ranges.isEmpty then some s
        else if !t.connect then some (psync_pagecache_send_error cfg request (- EIO) s)
        else if !(List.range request.ranges.length).all (fun k => t.request_ok.getD k false) then
          if tries < 5 then retry later (tries + 1) s
          else some (psync_pagecache_send_error cfg request (- EIO) s)
        else
          match read_ranges_from_sock cfg t request request.ranges 0 s with
          | none => none
          | some (err, s) =>
            if err = 0 then some s
            else if err = 1 ∧ tries < 5 then retry later (tries + 1) s
            else some (psync_pagecache_send_error cfg request (- EIO) s)
    retry tries_played 0 s

/-! ## Tier look-ups -/

/-- The test `page->type==PAGE_TYPE_READ && page->hash==hash && page->pageid==pageid`. -/
def page_match (hash pageid : Nat) (page : psync_cache_page_t) : Bool :=
  page.type == PAGE_TYPE_READ && page.hash == hash && page.pageid == pageid

/-- The `WHERE type=PAGE_TYPE_READ AND hash=? AND pageid=?` clause. -/
def row_match (hash pageid : Nat) (r : pagecache_row) : Bool :=
  r.type == PAGE_TYPE_READ && r.hash == some hash && r.pageid == some pageid

def has_page_in_cache_by_hash (cfg : Settings) (s : PageCache) (hash pageid : Nat) : Nat :=
  if (s.cache_hash (pagehash_by_hash_and_pageid cfg hash pageid)).any (page_match hash pageid)
  then 1 else 0

def has_page_in_memory_by_hash (cfg : Settings) (s : PageCache) (hash pageid : Nat) : Nat :=
  if (s.cache_hash (pagehash_by_hash_and_pageid cfg hash pageid)).any (page_match hash pageid)
  then 1 else 0

def has_page_in_db (s : PageCache) (hash pageid : Nat) : Nat :=
  if s.pagecache.any (row_match hash pageid) then 1 else 0

/-- The flag array of `has_pages_in_db` (the `psync_file_readahead` hints are left out). -/
def has_pages_in_db (s : PageCache) (hash pageid pagecnt : Nat) : List Nat :=
  (List.range pagecnt).map (fun i => has_page_in_db s hash (pageid + i))

/-- Number of bytes `check_page_in_memory_by_hash` and `check_page_in_database_by_hash` copy
from a page of valid size `page_size`. -/
def check_page_copy_size (page_size size off : Nat) : Nat :=
  if size + off > page_size then
    if off > page_size then 0 else page_size - off
  else size

/-- Returns `ret` (`none` is -1) and the state with the use statistics of the page updated; the
loop runs over the whole bucket, a later match recomputes `size` from the value left by an
earlier one. -/
def check_page_in_memory_by_hash (cfg : Settings) (tm : Nat) (s : PageCache)
    (hash pageid size off : Nat) : Option Nat × PageCache :=
  let h := pagehash_by_hash_and_pageid cfg hash pageid
  let r := (s.cache_hash h).foldl
    (fun (acc : Option Nat × Nat × List psync_cache_page_t) page =>
      if page_match hash pageid page then
        let page :=
          if tm > page.lastuse + 5 then
            { page with usecnt := add_u32 page.usecnt 1, lastuse := tm }
          else page
        let size := check_page_copy_size page.size acc.2.1 off
        (some size, size, acc.2.2 ++ [page])
      else (acc.1, acc.2.1, acc.2.2 ++ [page]))
    (none, size, [])
  (r.1, { s with cache_hash := Function.update s.cache_hash h r.2.2 })

/-- Returns `ret` (`none` is -1); `pread_ok` tells whether the read of the pagefile delivers the
bytes. On a failed read the row is set back to `FREE`. The note of the access that the source
takes after a good read (`mark_pagecache_used`) is left out. -/
def check_page_in_database_by_hash (pread_ok : Bool) (s : PageCache)
    (hash pageid size off : Nat) : Option Nat × PageCache :=
  match s.pagecache.find? (row_match hash pageid) with
  | none => (none, s)
  | some row =>
    let size := check_page_copy_size row.size size off
    if !pread_ok then
      (none, { s with pagecache := s.pagecache.map (fun r =>
        if r.id = row.id then { r with type := PAGE_TYPE_FREE, pageid := none, hash := none }
        else r) })
    else (some size, s)

/-! ## Read of an unmodified file -/

def offset_round_down_to_page (cfg : Settings) (offset : Nat) : Nat :=
  offset &&& (2 ^ 64 - 1 - (cfg.PSYNC_FS_PAGE_SIZE - 1))

def size_round_up_to_page (cfg : Settings) (size : Nat) : Nat :=
  ((sub_u64 size 1 ||| (cfg.PSYNC_FS_PAGE_SIZE - 1)) + 1) % 2 ^ 64

/-- The values `copyoff`, `copysize` and `pbuff` (as offset into `buf`) that the page loop of
`psync_pagecache_read_unmodified_locked` computes for page `i`. -/
def page_segment (cfg : Settings) (size pageoff pagecnt i : Nat) : Nat × Nat × Nat :=
  if i = 0 then
    (pageoff,
      if size > cfg.PSYNC_FS_PAGE_SIZE - pageoff then cfg.PSYNC_FS_PAGE_SIZE - pageoff else size,
      0)
  else if i = pagecnt - 1 then
    (0,
      if (size + pageoff) &&& (cfg.PSYNC_FS_PAGE_SIZE - 1) = 0 then cfg.PSYNC_FS_PAGE_SIZE
      else (size + pageoff) &&& (cfg.PSYNC_FS_PAGE_SIZE - 1),
      i * cfg.PSYNC_FS_PAGE_SIZE - pageoff)
  else (0, cfg.PSYNC_FS_PAGE_SIZE, i * cfg.PSYNC_FS_PAGE_SIZE - pageoff)

/-- The tail of both registration loops for a page that gets a new wait entry: the page
extends the current range if it follows it, else it opens a new range at the tail of the list.
`range` is the pointer of the C code, kept as index into the list (`none` is NULL). -/
def add_page_to_ranges (cfg : Settings) (ranges : List psync_request_range_t)
    (range : Option Nat) (pageid : Nat) : List psync_request_range_t × Option Nat :=
  let fresh : List psync_request_range_t × Option Nat :=
    (ranges ++ [{ offset := pageid * cfg.PSYNC_FS_PAGE_SIZE, length := cfg.PSYNC_FS_PAGE_SIZE }],
      some ranges.length)
  match range with
  | none => fresh
  | some k =>
    match ranges.get? k with
    | none => fresh
    | some r =>
      if r.offset + r.length = pageid * cfg.PSYNC_FS_PAGE_SIZE then
        (ranges.modify (fun r => { r with length := r.length + cfg.PSYNC_FS_PAGE_SIZE }) k, range)
      else fresh

/-- Adds the waiter `id` to the first entry of the bucket that matches the key. -/
def attach_waiter (hash pageid id : Nat) : List psync_page_wait_t → List psync_page_wait_t
  | [] => []
  | pw :: rest =>
    if wait_match hash pageid pw then { pw with waiters := pw.waiters ++ [id] } :: rest
    else pw :: attach_waiter hash pageid id rest

/-- State of the page loop of `psync_pagecache_read_unmodified_locked`: the page cache, the
variable `size`, the list `waiting` (indices into the waiter heap), the ranges of the request
with the `range` pointer, and the copies made into `buf` so far (offset and length). -/
structure ReadLoop where
  s : PageCache
  size : Nat
  waiting : List Nat
  ranges : List psync_request_range_t
  range : Option Nat
  copies : List (Nat × Nat)

/-- The part of the page loop of `psync_pagecache_read_unmodified_locked` that runs for a page
found in neither tier: a waiter is allocated and queued on `waiting`; if the page has a wait
entry the waiter is attached to it (label `found`), else a new entry is appended to the bucket,
the page is added to the ranges of the request and the waiter is attached to the new entry. -/
def register_waiter (cfg : Settings) (hash fileid first_page_id i copyoff copysize pbuff : Nat)
    (st : ReadLoop) : ReadLoop :=
  let s := st.s
  let id := s.waiters.length
  let pwt : psync_page_waiter_t :=
    { buff := pbuff, pageidx := i, rsize := 0, size := copysize, off := copyoff, error := 0,
      ready := 0 }
  let s := { s with waiters := s.waiters ++ [pwt] }
  let h := waiterhash_by_hash_and_pageid hash (first_page_id + i)
  let st := { st with waiting := st.waiting ++ [id] }
  if (s.wait_page_hash h).any (wait_match hash (first_page_id + i)) then
    let bucket := attach_waiter hash (first_page_id + i) id (s.wait_page_hash h)
    { st with s := { s with wait_page_hash := Function.update s.wait_page_hash h bucket } }
  else
    let pw : psync_page_wait_t :=
      { waiters := [id], hash := hash, pageid := first_page_id + i, fileid := fileid }
    let bucket := s.wait_page_hash h ++ [pw]
    let r := add_page_to_ranges cfg st.ranges st.range (first_page_id + i)
    { st with
      s := { s with wait_page_hash := Function.update s.wait_page_hash h bucket }
      ranges := r.1
      range := r.2 }

/-- The page loop of `psync_pagecache_read_unmodified_locked`, pages `i .. pagecnt-1`.
`pread_ok` tells for every page whether a read of the pagefile delivers its bytes. -/
def read_register_pages (cfg : Settings) (tm : Nat) (pread_ok : Nat → Bool)
    (hash fileid first_page_id pageoff pagecnt : Nat) : Nat → Nat → ReadLoop → ReadLoop
  | 0, _, st => st
  | n + 1, i, st =>
    let seg := page_segment cfg st.size pageoff pagecnt i
    let copyoff := seg.1
    let copysize := seg.2.1
    let pbuff := seg.2.2
    let m := check_page_in_memory_by_hash cfg tm st.s hash (first_page_id + i) copysize copyoff
    let d : Option Nat × PageCache :=
      match m.1 with
      | none =>
        check_page_in_database_by_hash (pread_ok i) m.2 hash (first_page_id + i) copysize copyoff
      | some rb => (some rb, m.2)
    match d.1 with
    | some rb =>
      let st := { st with s := d.2, copies := st.copies ++ [(pbuff, rb)] }
      if rb = copysize then
        read_register_pages cfg tm pread_ok hash fileid first_page_id pageoff pagecnt n (i + 1) st
      else
        { st with size := if i ≠ 0 then i * cfg.PSYNC_FS_PAGE_SIZE + rb - pageoff else rb }
    | none =>
      read_register_pages cfg tm pread_ok hash fileid first_page_id pageoff pagecnt n (i + 1)
        (register_waiter cfg hash fileid first_page_id i copyoff copysize pbuff
          { st with s := d.2 })

/-- The part of the loop of the readahead routine that runs for a page found in neither tier:
nothing if the page has a wait entry, else a new entry without waiters is appended to the
bucket and the page is added to the ranges of the request. -/
def readahead_register_page (cfg : Settings) (hash fileid pageid : Nat) (st : ReadLoop) :
    ReadLoop :=
  let h := waiterhash_by_hash_and_pageid hash pageid
  if (st.s.wait_page_hash h).any (wait_match hash pageid) then st
  else
    let pw : psync_page_wait_t :=
      { waiters := [], hash := hash, pageid := pageid, fileid := fileid }
    let bucket := st.s.wait_page_hash h ++ [pw]
    let r := add_page_to_ranges cfg st.ranges st.range pageid
    { st with
      s := { st.s with wait_page_hash := Function.update st.s.wait_page_hash h bucket }
      ranges := r.1
      range := r.2 }

/-- The registration loop of `psync_pagecache_read_unmodified_readahead`, pages
`i .. pagecnt-1` of the window that starts at `first_page_id`; `pages_in_db` is the flag array
of `has_pages_in_db`. -/
def readahead_register_pages (cfg : Settings) (hash fileid first_page_id : Nat)
    (pages_in_db : List Nat) : Nat → Nat → ReadLoop → ReadLoop
  | 0, _, st => st
  | n + 1, i, st =>
    let next := readahead_register_pages cfg hash fileid first_page_id pages_in_db n (i + 1)
    if pages_in_db.getD i 0 ≠ 0 then next st
    else if has_page_in_cache_by_hash cfg st.s hash (first_page_id + i) ≠ 0 then next st
    else next (readahead_register_page cfg hash fileid (first_page_id + i) st)

/-- A stream descriptor of an open file (pfs.h is not among the sources; the fields are the ones
that ppagecache.c reads and writes). -/
structure psync_file_stream_t where
  id : Nat
  frompage : Nat
  topage : Nat
  length : Nat
  requestedto : Nat
  lastuse : Nat
deriving DecidableEq, Repr

/-- The fields of `psync_openfile_t` that ppagecache.c reads and writes. -/
structure psync_openfile_t where
  initialsize : Nat
  hash : Nat
  remotefileid : Nat
  streams : List psync_file_stream_t
  laststreamid : Nat
  currentspeed : Nat
  runningreads : Nat
deriving DecidableEq, Repr

/-- The first loop of the readahead routine over the streams from index `i` on: the index of the
first stream that the read continues, and `found`, the number of streams before it that were
used within the last two seconds. -/
def match_stream (frompageoff ctime : Nat) :
    List psync_file_stream_t → Nat → Nat → Option Nat × Nat
  | [], _, found => (none, found)
  | st :: rest, i, found =>
    if st.frompage ≤ frompageoff ∧ st.topage + 2 ≥ frompageoff then (some i, found)
    else
      match_stream frompageoff ctime rest (i + 1)
        (if (st.lastuse : Int) ≥ (ctime : Int) - 2 then found + 1 else found)

/-- The second loop: index of the stream with the smallest `id` (the first of them), starting
from `min = ~0` and `streamid = 0`. -/
def oldest_stream : List psync_file_stream_t → Nat → Nat → Nat → Nat
  | [], _, _, streamid => streamid
  | st :: rest, i, min, streamid =>
    if st.id < min then oldest_stream rest (i + 1) st.id i
    else oldest_stream rest (i + 1) min streamid

/-- The readahead size after the alignment step taken when the read itself opened no range. -/
def align_readahead (readahead offset size : Nat) : Nat :=
  if readahead ≥ 8192 * 1024 then
    sub_u64 (sub_u64 ((readahead + offset + size) / (4 * 1024 * 1024) * (4 * 1024 * 1024)) offset)
      size
  else if readahead ≥ 2048 * 1024 then
    sub_u64 (sub_u64 ((readahead + offset + size) / (1024 * 1024) * (1024 * 1024)) offset) size
  else if readahead ≥ 512 * 1024 then
    sub_u64 (sub_u64 ((readahead + offset + size) / (256 * 1024) * (256 * 1024)) offset) size
  else if readahead ≥ 128 * 1024 then
    sub_u64 (sub_u64 ((readahead + offset + size) / (64 * 1024) * (64 * 1024)) offset) size
  else readahead

/-- The first part of `psync_pagecache_read_unmodified_readahead`, up to the call of
`has_pages_in_db`: the open file with its streams updated and the window of pages to look at
(`first_page_id` and `pagecnt`), `none` where the routine returns early. `range` tells whether
the `range` pointer is set. -/
def readahead_window (cfg : Settings) (ctime : Nat) (of : psync_openfile_t)
    (offset size : Nat) (range : Bool) (initialsize : Nat) :
    psync_openfile_t × Option (Nat × Nat) :=
  if offset + size ≥ initialsize then (of, none)
  else
    let frompageoff := offset / cfg.PSYNC_FS_PAGE_SIZE
    let topageoff := (offset + size + cfg.PSYNC_FS_PAGE_SIZE - 1) / cfg.PSYNC_FS_PAGE_SIZE - 1
    let m := match_stream frompageoff ctime of.streams 0 0
    let found := m.2
    let r : psync_openfile_t × Nat × Nat :=
      match m.1 with
      | some k =>
        ({ of with
            laststreamid := of.laststreamid + 1
            streams := of.streams.modify (fun x =>
              { x with id := of.laststreamid + 1, frompage := frompageoff, topage := topageoff,
                       length := x.length + size, lastuse := ctime }) k },
          k, (of.streams.getD k ⟨0, 0, 0, 0, 0, 0⟩).length)
      | none =>
        let k := oldest_stream of.streams 0 (2 ^ 64 - 1) 0
        ({ of with
            laststreamid := of.laststreamid + 1
            streams := of.streams.modify (fun x =>
              { x with id := of.laststreamid + 1, frompage := frompageoff, topage := topageoff,
                       length := size, requestedto := 0, lastuse := ctime }) k },
          k,
          if found = 1 ∧ of.currentspeed * 4 > 0 ∧ range then
            size_round_up_to_page cfg (of.currentspeed * 4)
          else 0)
    let of := r.1
    let streamid := r.2.1
    let readahead := r.2.2
    if of.runningreads ≥ 6 ∧ !range then (of, none)
    else
      let a : psync_openfile_t × Nat :=
        if offset = 0 ∧ size < cfg.PSYNC_FS_MIN_READAHEAD_START ∧
            readahead < cfg.PSYNC_FS_MIN_READAHEAD_START - size then
          (of, cfg.PSYNC_FS_MIN_READAHEAD_START - size)
        else if offset = cfg.PSYNC_FS_MIN_READAHEAD_START / 2 ∧
            readahead = cfg.PSYNC_FS_MIN_READAHEAD_START / 2 then
          let streams := of.streams.modify (fun x => { x with length := x.length + offset })
            streamid
          ({ of with streams := streams }, cfg.PSYNC_FS_MIN_READAHEAD_START / 2 * 3)
        else if offset ≠ 0 ∧ size < cfg.PSYNC_FS_MIN_READAHEAD_RAND ∧
            readahead < cfg.PSYNC_FS_MIN_READAHEAD_RAND - size then
          (of, cfg.PSYNC_FS_MIN_READAHEAD_RAND - size)
        else (of, readahead)
      let of := a.1
      let readahead := a.2
      let readahead :=
        if readahead > cfg.PSYNC_FS_MAX_READAHEAD then cfg.PSYNC_FS_MAX_READAHEAD else readahead
      let readahead :=
        if of.currentspeed * cfg.PSYNC_FS_MAX_READAHEAD_SEC > cfg.PSYNC_FS_MIN_READAHEAD_START ∧
            readahead > of.currentspeed * cfg.PSYNC_FS_MAX_READAHEAD_SEC then
          size_round_up_to_page cfg (of.currentspeed * cfg.PSYNC_FS_MAX_READAHEAD_SEC)
        else readahead
      let readahead := if !range then align_readahead readahead offset size else readahead
      let readahead :=
        if offset + size + readahead > initialsize then
          size_round_up_to_page cfg (initialsize - offset - size)
        else readahead
      let stream := of.streams.getD streamid ⟨0, 0, 0, 0, 0, 0⟩
      let rto := if (stream.lastuse : Int) < (ctime : Int) - 30 then 0 else stream.requestedto
      let of :=
        if rto < offset + size + readahead then
          let streams := of.streams.modify
            (fun x => { x with requestedto := offset + size + readahead }) streamid
          { of with streams := streams }
        else of
      if rto > offset + size ∧ rto > offset + size + readahead then (of, none)
      else
        let first_page_id :=
          if rto > offset + size then rto / cfg.PSYNC_FS_PAGE_SIZE
          else (offset + size) / cfg.PSYNC_FS_PAGE_SIZE
        let pagecnt :=
          if rto > offset + size then (offset + size + readahead - rto) / cfg.PSYNC_FS_PAGE_SIZE
          else readahead / cfg.PSYNC_FS_PAGE_SIZE
        (of, some (first_page_id, pagecnt))

def psync_pagecache_read_unmodified_readahead (cfg : Settings) (ctime : Nat)
    (of : psync_openfile_t) (offset size : Nat) (st : ReadLoop) (fileid hash initialsize : Nat) :
    psync_openfile_t × ReadLoop :=
  let w := readahead_window cfg ctime of offset size st.range.isSome initialsize
  match w.2 with
  | none => (w.1, st)
  | some (first_page_id, pagecnt) =>
    (w.1, readahead_register_pages cfg hash fileid first_page_id
      (has_pages_in_db st.s hash first_page_id pagecnt) pagecnt 0 st)

/-- What `psync_pagecache_read_unmodified_locked` reads from outside while it registers: the
time and, for every page of the read, whether a read of the pagefile delivers its bytes. -/
structure ReadEnv where
  tm : Nat
  pread_ok : Nat → Bool

/-- Where `psync_pagecache_read_unmodified_locked` stands when the registration is done:
`returned` holds the return value if the function has returned already; else it blocks on the
waiters of `waiting`. `request` is the request handed to a new fetch thread, if any, and
`copies` lists the copies made into `buf` so far (offset and length). -/
structure ReadStart where
  s : PageCache
  of : psync_openfile_t
  returned : Option Int
  request : Option psync_request_t
  waiting : List Nat
  size : Nat
  pageoff : Nat
  copies : List (Nat × Nat)

/-- `psync_pagecache_read_unmodified_locked` up to the point where it returns or starts to wait
for its waiters. -/
def read_unmodified_start (cfg : Settings) (env : ReadEnv) (of : psync_openfile_t)
    (size offset : Nat) (s : PageCache) : ReadStart :=
  let initialsize := of.initialsize
  let hash := of.hash
  let fileid := of.remotefileid
  if offset ≥ initialsize then
    { s := s, of := of, returned := some 0, request := none, waiting := [], size := size,
      pageoff := 0, copies := [] }
  else
    let size := if offset + size > initialsize then initialsize - offset else size
    let poffset := offset_round_down_to_page cfg offset
    let pageoff := offset - poffset
    let psize := size_round_up_to_page cfg (size + pageoff)
    let pagecnt := psize / cfg.PSYNC_FS_PAGE_SIZE
    let first_page_id := poffset / cfg.PSYNC_FS_PAGE_SIZE
    let st := read_register_pages cfg env.tm env.pread_ok hash fileid first_page_id pageoff
      pagecnt pagecnt 0
      { s := s, size := size, waiting := [], ranges := [], range := none, copies := [] }
    let r := psync_pagecache_read_unmodified_readahead cfg env.tm of poffset psize st fileid hash
      initialsize
    let st := r.2
    let request : Option psync_request_t :=
      if st.ranges.isEmpty then none
      else some { ranges := st.ranges, of_hash := hash, fileid := fileid, hash := hash }
    { s := st.s, of := r.1,
      returned := if !st.ranges.isEmpty ∧ st.waiting.isEmpty then some (st.size : Int) else none,
      request := request, waiting := st.waiting, size := st.size, pageoff := pageoff,
      copies := st.copies }

/-- The loop of `psync_pagecache_read_unmodified_locked` over its waiters once they are ready;
`ret` is the C variable. -/
def read_wait_loop (cfg : Settings) (pageoff : Nat) : List psync_page_waiter_t → Int → Int
  | [], ret => ret
  | pwt :: rest, ret =>
    let pos : Int := (pwt.pageidx * cfg.PSYNC_FS_PAGE_SIZE + pwt.rsize - pageoff : Nat)
    let ret : Int :=
      if pwt.error ≠ 0 then pwt.error
      else if pwt.rsize < pwt.size ∧ ret ≥ 0 then
        if pwt.rsize ≠ 0 then
          if pwt.pageidx ≠ 0 then pos else (pwt.rsize : Int)
        else
          if pwt.pageidx ≠ 0 then
            if pos < ret then pos else ret
          else (pwt.rsize : Int)
      else ret
    read_wait_loop cfg pageoff rest ret

/-- The rest of `psync_pagecache_read_unmodified_locked`, run on the state in which the reader
wakes up: the return value, `none` while a waiter of the read is not ready. -/
def read_unmodified_finish (cfg : Settings) (r : ReadStart) (s : PageCache) : Option Int :=
  match r.returned with
  | some ret => some ret
  | none =>
    let pwts := r.waiting.filterMap (fun id => s.waiters.get? id)
    if pwts.all (fun pwt => pwt.ready != 0) then
      some (read_wait_loop cfg r.pageoff pwts (r.size : Int))
    else none

/-- The copies into `buf` (offset and length) that a read has received when its waiters are
ready: those made while it registered and one for every waiter that was given a page. -/
def read_unmodified_copies (r : ReadStart) (s : PageCache) : List (Nat × Nat) :=
  r.copies ++ (r.waiting.filterMap (fun id => s.waiters.get? id)).filterMap (fun pwt =>
    if pwt.ready ≠ 0 ∧ pwt.error = 0 then some (pwt.buff, pwt.rsize) else none)

/-- Whether byte `k` of `buf` lies in one of the copies. -/
def byte_copied (copies : List (Nat × Nat)) (k : Nat) : Bool :=
  copies.any (fun c => decide (c.1 ≤ k ∧ k < c.1 + c.2))

/-! ## Promotion after an upload -/

def psync_pagecache_add_page_if_not_exists (cfg : Settings) (s : PageCache)
    (page : psync_cache_page_t) (hash pageid : Nat) : PageCache :=
  let h1 := pagehash_by_hash_and_pageid cfg hash pageid
  let h2 := waiterhash_by_hash_and_pageid hash pageid
  let hasit := (s.cache_hash h1).any (page_match hash pageid)
  let hasit := hasit || (s.wait_page_hash h2).any (wait_match hash pageid)
  let hasit := hasit || (has_page_in_db s hash pageid != 0)
  if hasit then psync_pagecache_return_free_page_locked s page
  else
    { s with cache_hash := Function.update s.cache_hash h1 (s.cache_hash h1 ++ [page]),
             cache_pages_in_hash := add_u32 s.cache_pages_in_hash 1 }

/-- Effect of the statement `UPDATE OR IGNORE pagecache SET hash=? WHERE hash=? AND pageid=? AND
type=?` that `psync_pagecache_modify_to_cache` runs for a page without written bytes. -/
def rename_old_page (cfg : Settings) (s : PageCache) (hash oldhash pageid : Nat) : PageCache :=
  let conflict := cfg.pagecache_unique_index &&
    s.pagecache.any (fun r => r.hash == some hash && r.pageid == some pageid)
  if conflict then s
  else
    { s with pagecache := s.pagecache.map (fun r =>
        if row_match oldhash pageid r then { r with hash := some hash } else r) }

/-! ## pcloudcrypto.c : error messages, folder creation, key upload -/

/-- Conversion of a wider integer to `int` (32 bits, two's complement). -/
def to_int (x : Int) : Int := (x + 2 ^ 31) % 2 ^ 32 - 2 ^ 31

/-- The table `crypto_errors`. -/
def crypto_errors : List String :=
  ["Success.",
   "Encryption is not started.",
   "Unexpected RSA encryption error.",
   "Folder not found.",
   "Invalid key.",
   "Can not connect to server.",
   "Folder is not encrypted."]

def PSYNC_CRYPTO_API_ERR_INTERNAL : Int := -511

/-- The two thread-local variables that hold the last API error. -/
structure ApiErr where
  crypto_api_errno : Int
  crypto_api_err : String

/-- The return value of `set_err` and the message stored through `err` (`none`: nothing is
stored). The argument `err` tells whether the pointer is non-NULL. `ARRAY_SIZE` (plibs.h, not
among the sources) is the element count as a `size_t`, so the test compares `-ret` as an unsigned
64-bit value. -/
def set_err (api : ApiErr) (ret : Int) (err : Bool) : Int × Option String :=
  if ret = PSYNC_CRYPTO_API_ERR_INTERNAL then
    (api.crypto_api_errno, if err then some api.crypto_api_err else none)
  else
    (ret,
      if err then
        if ((- ret) % 2 ^ 64).toNat < crypto_errors.length then
          some (crypto_errors.getD (- ret).toNat "")
        else some "Unkown error."
      else none)

/-- The message that `set_crypto_err_msg` leaves in the 128-byte buffer `crypto_api_err`: at most
127 bytes of the `error` field of the answer. -/
def set_crypto_err_msg (error : String) : String := String.mk (error.data.take 127)

/-- Answer of `createfolder`: the result code, the `error` text and the `folderid` of the
metadata. -/
structure CreateFolderAnswer where
  result : Nat
  error : String
  folderid : Nat

/-- What `psync_cloud_crypto_mkdir` reads from outside the vault: the result of
`psync_ssl_rsa_encrypt_data` for the new key (`none` is `PSYNC_INVALID_ENC_SYM_KEY`), the `flags`
of the row of the parent in table `folder` (`none`: no row), the flag bit
`PSYNC_FOLDER_FLAG_ENCRYPTED` (pfolder.h is not among the sources), the result of
`psync_crypto_get_name_encoded_locked` (an error code or the encoded name), the thread-local API
error left by an earlier call, and the rounds of the `createfolder` call. -/
structure MkdirEnv where
  encsym : Option (List Nat)
  folder_flags : Option Nat
  PSYNC_FOLDER_FLAG_ENCRYPTED : Nat
  encname : Except Int (List Nat)
  api_err : ApiErr
  createfolder : Nat → ApiAttempt CreateFolderAnswer

/-- Result of a function that returns a code and has the out-parameters `err` and `newfolderid`
(`none`: the parameter is not written). -/
structure MkdirResult where
  ret : Int
  err : Option String
  newfolderid : Option Nat
deriving DecidableEq, Repr

/-- Returns the code, the message stored through `err` and the name `*ename` on success. -/
def get_name_for_enc_folder_locked (e : MkdirEnv) (err : Bool) :
    Int × Option String × Option (List Nat) :=
  match e.encname with
  | .error code => ((set_err e.api_err code err).1, (set_err e.api_err code err).2, none)
  | .ok encname => (PSYNC_CRYPTO_SUCCESS, none, some encname)

def get_name_for_folder_locked (e : MkdirEnv) (folderid : Nat) (name : List Nat) (err : Bool) :
    Int × Option String × Option (List Nat) :=
  if folderid = 0 then (PSYNC_CRYPTO_SUCCESS, none, some name)
  else
    match e.folder_flags with
    | none =>
      ((set_err e.api_err PSYNC_CRYPTO_FOLDER_NOT_FOUND err).1,
        (set_err e.api_err PSYNC_CRYPTO_FOLDER_NOT_FOUND err).2, none)
    | some flags =>
      if flags &&& e.PSYNC_FOLDER_FLAG_ENCRYPTED ≠ 0 then get_name_for_enc_folder_locked e err
      else (PSYNC_CRYPTO_SUCCESS, none, some name)

/-- The function `psync_cloud_crypto_send_mkdir`; `none` is the run in which an API error meets a
NULL `err` (the store `*err=crypto_api_err` is not guarded). The changes of the database on
success are left out. -/
def psync_cloud_crypto_send_mkdir (e : MkdirEnv) (err newfolderid : Bool) :
    Option MkdirResult :=
  match api_call_loop e.createfolder 6 0 with
  | none =>
    some { ret := (set_err e.api_err PSYNC_CRYPTO_CANT_CONNECT err).1,
           err := (set_err e.api_err PSYNC_CRYPTO_CANT_CONNECT err).2, newfolderid := none }
  | some res =>
    if res.result ≠ 0 then
      if err then
        some { ret := to_int res.result, err := some (set_crypto_err_msg res.error),
               newfolderid := none }
      else none
    else
      some { ret := PSYNC_CRYPTO_SUCCESS, err := none,
             newfolderid := if newfolderid then some res.folderid else none }

/-- The function `psync_cloud_crypto_mkdir`; `err` and `newfolderid` tell whether the two
pointers are non-NULL. The changes of the cache-manager tables made while the name is encoded are
left out. -/
def psync_cloud_crypto_mkdir {B : Backend} (s : Vault B) (e : MkdirEnv) (folderid : Nat)
    (name : List Nat) (err newfolderid : Bool) : Option MkdirResult :=
  if s.crypto_started_un = 0 then
    some { ret := (set_err e.api_err PSYNC_CRYPTO_NOT_STARTED err).1,
           err := (set_err e.api_err PSYNC_CRYPTO_NOT_STARTED err).2, newfolderid := none }
  else if s.crypto_started_l = 0 then
    some { ret := (set_err e.api_err PSYNC_CRYPTO_NOT_STARTED err).1,
           err := (set_err e.api_err PSYNC_CRYPTO_NOT_STARTED err).2, newfolderid := none }
  else
    let r := get_name_for_folder_locked e folderid name err
    if r.1 ≠ 0 then some { ret := r.1, err := r.2.1, newfolderid := none }
    else
      match e.encsym with
      | none =>
        some { ret := (set_err e.api_err PSYNC_CRYPTO_RSA_ERROR err).1,
               err := (set_err e.api_err PSYNC_CRYPTO_RSA_ERROR err).2, newfolderid := none }
      | some _ => psync_cloud_crypto_send_mkdir e err newfolderid

/-- The function `psync_crypto_mkdir` of psynclib.c; `offline` is the value of
`psync_status_is_offline()`. -/
def psync_crypto_mkdir {B : Backend} (offline : Bool) (s : Vault B) (e : MkdirEnv)
    (folderid : Nat) (name : List Nat) (err newfolderid : Bool) : Option MkdirResult :=
  if offline then some { ret := PSYNC_CRYPTO_CANT_CONNECT, err := none, newfolderid := none }
  else psync_cloud_crypto_mkdir s e folderid name err newfolderid

/-- Number of `send_command` calls that the loop `api_call_loop` makes. -/
def api_call_sends {R : Type} (att : Nat → ApiAttempt R) : Nat → Nat → Nat
  | 0, _ => 0
  | fuel + 1, tries =>
    match att tries with
    | .no_api => 0
    | .send_failed => if tries + 1 > 5 then 1 else 1 + api_call_sends att fuel (tries + 1)
    | .answered _ => 1

/-- Answer of `crypto_setuserkeys`. -/
structure SetUserKeysAnswer where
  result : Nat
  cryptoexpires : Nat

/-- Returns the code and the value stored in `*cryptoexpires` (`none`: nothing is stored). -/
def psync_cloud_crypto_setup_do_upload (att : Nat → ApiAttempt SetUserKeysAnswer) :
    Nat × Option Nat :=
  match api_call_loop att 6 0 with
  | none => (PSYNC_CRYPTO_SETUP_CANT_CONNECT, none)
  | some res =>
    if res.result = 0 then (PSYNC_CRYPTO_SETUP_SUCCESS, some res.cryptoexpires)
    else if res.result = 1000 then (PSYNC_CRYPTO_SETUP_NOT_LOGGED_IN, none)
    else if res.result = 2110 then (PSYNC_CRYPTO_SETUP_ALREADY_SETUP, none)
    else (PSYNC_CRYPTO_SETUP_UNKNOWN_ERROR, none)

/-! ## psynclib.c : version strings and password quality -/

/-- The loop of `psync_parse_version` over the bytes of the string (the end of the list is the
terminating NUL); `bits` is the width of `unsigned long`. A byte that is neither a dot nor a
digit is skipped. -/
def parse_version_loop (bits : Nat) : List Nat → Nat → Nat → Nat
  | [], cv, cm => (cv + cm) % 2 ^ bits
  | ch :: rest, cv, cm =>
    if ch = 46 then parse_version_loop bits rest ((cv + cm) * 100 % 2 ^ bits) 0
    else if ch = 0 then (cv + cm) % 2 ^ bits
    else if 48 ≤ ch ∧ ch ≤ 57 then
      parse_version_loop bits rest cv ((cm * 10 + ch - 48) % 2 ^ bits)
    else parse_version_loop bits rest cv cm

def psync_parse_version (bits : Nat) (currentversion : List Nat) : Nat :=
  parse_version_loop bits currentversion 0 0

/-- The function `psync_password_quality` on the value `score` of `psync_password_score` (the
scoring function is not among the sources). -/
def psync_password_quality (score : Nat) : Int :=
  if score < 2 ^ 30 then 0
  else if score < 2 ^ 40 then 1
  else 2

/-- The function `psync_password_quality10000` on the value `score` of `psync_password_score`;
the quotients are `uint64_t` values, converted to `int` on return. -/
def psync_password_quality10000 (score : Nat) : Int :=
  if score < 2 ^ 30 then to_int ((score / (2 ^ 30 / 10000 + 1) : Nat) : Int)
  else if score < 2 ^ 40 then
    to_int ((((score - 2 ^ 30) / ((2 ^ 40 - 2 ^ 30) / 10000 + 1) + 10000) % 2 ^ 64 : Nat) : Int)
  else if score ≥ 2 ^ 45 - 2 ^ 40 then 29999
  else
    to_int ((((score - 2 ^ 40) / ((2 ^ 45 - 2 ^ 40) / 10000 + 1) + 20000) % 2 ^ 64 : Nat) : Int)

/-! ## ppagecache.c : ageing of the disk cache -/

/-- The struct `pagecache_entry`; `lastuse` is a `time_t`, `id` and `usecnt` are `uint32_t`. -/
structure pagecache_entry where
  lastuse : Int
  id : Nat
  usecnt : Nat
deriving DecidableEq, Repr

def pagecache_entry_cmp_lastuse (e1 e2 : pagecache_entry) : Int :=
  to_int (e1.lastuse - e2.lastuse)

def pagecache_entry_cmp_usecnt_lastuse2 (e1 e2 : pagecache_entry) : Int :=
  if e1.usecnt ≥ 2 ∧ e2.usecnt < 2 then 1
  else if e2.usecnt ≥ 2 ∧ e1.usecnt < 2 then -1
  else to_int (e1.lastuse - e2.lastuse)

def pagecache_entry_cmp_usecnt_lastuse4 (e1 e2 : pagecache_entry) : Int :=
  if e1.usecnt ≥ 4 ∧ e2.usecnt < 4 then 1
  else if e2.usecnt ≥ 4 ∧ e1.usecnt < 4 then -1
  else to_int (e1.lastuse - e2.lastuse)

def pagecache_entry_cmp_usecnt_lastuse8 (e1 e2 : pagecache_entry) : Int :=
  if e1.usecnt ≥ 8 ∧ e2.usecnt < 8 then 1
  else if e2.usecnt ≥ 8 ∧ e1.usecnt < 8 then -1
  else to_int (e1.lastuse - e2.lastuse)

def pagecache_entry_cmp_usecnt_lastuse16 (e1 e2 : pagecache_entry) : Int :=
  if e1.usecnt ≥ 16 ∧ e2.usecnt < 16 then 1
  else if e2.usecnt ≥ 16 ∧ e1.usecnt < 16 then -1
  else to_int (e1.lastuse - e2.lastuse)

def PSYNC_FS_CACHE_LRU_PERCENT : Nat := 40

def PSYNC_FS_CACHE_LRU2_PERCENT : Nat := 25

def PSYNC_FS_CACHE_LRU4_PERCENT : Nat := 15

def PSYNC_FS_CACHE_LRU8_PERCENT : Nat := 10

def PSYNC_FS_CACHE_LRU16_PERCENT : Nat := 5

/-- Modelled from the spec: `qsort` of the C library sorts the array exactly by the comparator
(an element goes before the first one that it does not compare greater than). -/
def qsort {α : Type} (cmp : α → α → Int) (l : List α) : List α :=
  l.insertionSort (fun a b => cmp a b ≤ 0)

/-- One step `qsort(entries, cnt, ..., cmp); cnt-=percent*ocnt/100;` of `clean_cache`: the first
`cnt` elements of the array are sorted, the rest stays in place. -/
def clean_cache_step (cmp : pagecache_entry → pagecache_entry → Int) (percent ocnt : Nat)
    (st : List pagecache_entry × Nat) : List pagecache_entry × Nat :=
  (qsort cmp (st.1.take st.2) ++ st.1.drop st.2, sub_u64 st.2 (mul_u64 percent ocnt / 100))

/-- The five sorting steps of `clean_cache` on the loaded array: the array and the variable `cnt`
as they are when the deleting loop starts. -/
def clean_cache_sort (entries : List pagecache_entry) : List pagecache_entry × Nat :=
  let ocnt := entries.length
  let st := clean_cache_step pagecache_entry_cmp_lastuse PSYNC_FS_CACHE_LRU_PERCENT ocnt
    (entries, ocnt)
  let st := clean_cache_step pagecache_entry_cmp_usecnt_lastuse2 PSYNC_FS_CACHE_LRU2_PERCENT ocnt st
  let st := clean_cache_step pagecache_entry_cmp_usecnt_lastuse4 PSYNC_FS_CACHE_LRU4_PERCENT ocnt st
  let st := clean_cache_step pagecache_entry_cmp_usecnt_lastuse8 PSYNC_FS_CACHE_LRU8_PERCENT ocnt st
  clean_cache_step pagecache_entry_cmp_usecnt_lastuse16 PSYNC_FS_CACHE_LRU16_PERCENT ocnt st

/-- The entries `entries[0] .. entries[cnt-1]` that the deleting loop of `clean_cache` runs
over. -/
def clean_cache_erased (entries : List pagecache_entry) : List pagecache_entry :=
  (clean_cache_sort entries).1.take (clean_cache_sort entries).2

/-- The statement `UPDATE pagecache SET type=FREE, hash=NULL, pageid=NULL WHERE id=?` followed by
`free_db_pages++`. -/
def clean_cache_free_row (s : PageCache) (id : Nat) : PageCache :=
  { s with
    pagecache := s.pagecache.map (fun r =>
      if r.id = id then { r with type := PAGE_TYPE_FREE, hash := none, pageid := none } else r)
    free_db_pages := add_u32 s.free_db_pages 1 }

/-- The part of `clean_cache` that follows the loading of the array `entries`: the five sorts
and the deleting loop (the batches of 256 differ only in their transactions). -/
def clean_cache_sweep (s : PageCache) (entries : List pagecache_entry) : PageCache :=
  (clean_cache_erased entries).foldl (fun s e => clean_cache_free_row s e.id) s

/-- States of the vault that the program can be in between two calls: the static initial
state, then `start` and `stop` with any environment, and any change of the cache-manager tables
(getters, releases, expiry). -/
inductive Vault.Reachable {B : Backend} : Vault B → Prop where
  | init : Vault.Reachable (Vault.init B)
  | start (tc : TypeCodes) (e : StartEnv) (password : List Nat) (s : Vault B) :
      Vault.Reachable s → Vault.Reachable (psync_cloud_crypto_start tc e password s).2
  | stop (s : Vault B) : Vault.Reachable s → Vault.Reachable (psync_cloud_crypto_stop s).2
  | cache (s : Vault B) (fkey dkey : List (Nat × List Nat)) (flde : List (Nat × B.TextEncoder))
      (fldd : List (Nat × B.TextDecoder)) (seen : List (Nat × B.SectorCodec)) :
      Vault.Reachable s →
      Vault.Reachable { s with cache_FKEY := fkey, cache_DKEY := dkey, cache_FLDE := flde,
                               cache_FLDD := fldd, cache_SEEN := seen }

/-- A small back end on which the definitions can be evaluated: keys are byte strings, the RSA
parsers accept a buffer that starts with the byte 48, the password-derived coder adds the first
password byte to every data byte modulo 256, RSA encryption appends the public key and
decryption needs the same bytes as private key. -/
def toyBackend : Backend where
  Pub := List Nat
  Priv := List Nat
  TextEncoder := List Nat
  TextDecoder := List Nat
  SectorCodec := List Nat
  psync_ssl_rsa_load_public := fun b => if b.head? = some 48 then some b else none
  psync_ssl_rsa_load_private := fun b => if b.head? = some 48 then some b else none
  psync_ssl_gen_symmetric_key_from_pass := fun password _ salt _ _ => password ++ salt
  psync_crypto_aes256_ctr_encode_decode := fun key data =>
    data.map (fun b => (b + key.headD 0) % 256)
  psync_ssl_rsa_encrypt_symmetric_key := fun pub key => pub.map (fun p => key ++ p)
  psync_ssl_rsa_decrypt_symmetric_key := fun priv enckey =>
    match priv with
    | none => none
    | some p => if p.isSuffixOf enckey then some (enckey.take (enckey.length - p.length)) else none
  psync_crypto_aes256_text_encoder_create := fun key => key
  psync_crypto_aes256_text_decoder_create := fun key => key
  psync_crypto_aes256_sector_encoder_decoder_create := fun key => key

/-- Type codes used when the definitions are evaluated on concrete inputs. -/
def toyCodes : TypeCodes where
  PSYNC_CRYPTO_TYPE_RSA4096_64BYTESALT_20000IT := 1
  PSYNC_CRYPTO_PUB_TYPE_RSA4096 := 1
  PSYNC_CRYPTO_SYM_AES256_1024BIT_HMAC := 1

/-- A name codec on which the file-name functions can be evaluated: the text coder reverses the
bytes, base32 text is the bytes moved up by 65. -/
def toyNameCodec : NameCodec where
  psync_crypto_aes256_encode_text := fun n => n.reverse
  psync_crypto_aes256_decode_text := fun n => some n.reverse
  psync_base32_encode := fun d => d.map (fun b => b + 65)
  psync_base32_decode := fun t => some (t.map (fun b => b - 65))

/-- The three conditions under which a decrypted key is a valid file key. -/
def is_file_key (tc : TypeCodes) (symkey : List Nat) : Prop :=
  skv1_type symkey = tc.PSYNC_CRYPTO_SYM_AES256_1024BIT_HMAC ∧ symkey.length = 104 ∧
    skv1_flags symkey &&& PSYNC_CRYPTO_SYM_FLAG_ISDIR = 0

/-- The vault is stopped: both started flags clear and both key handles invalid. -/
def Vault.stopped {B : Backend} (s : Vault B) : Prop :=
  s.crypto_started_l = 0 ∧ s.crypto_started_un = 0 ∧ s.crypto_pubkey = none ∧
    s.crypto_privkey = none

/-- The vault is started: both started flags set and both key handles valid. -/
def Vault.started {B : Backend} (s : Vault B) : Prop :=
  s.crypto_started_l = 1 ∧ s.crypto_started_un = 1 ∧ s.crypto_pubkey.isSome = true ∧
    s.crypto_privkey.isSome = true

/-- A started vault of the small back end: public and private key are the bytes 48, 9. -/
def toyVault : Vault toyBackend :=
  { Vault.init toyBackend with
    crypto_started_l := 1, crypto_started_un := 1, crypto_pubkey := some [48, 9],
    crypto_privkey := some [48, 9] }

/-- A well-formed file key: recognized type, flags 0 (`IS_DIR` clear), 32 + 64 key bytes. -/
def toyFileKey : List Nat := store_u32 1 ++ store_u32 0 ++ List.replicate 96 7

/-- The `cryptofolderkey` / `cryptofilekey` row that holds `toyFileKey` encrypted for
`toyVault`. -/
def toyFileKeySource : EncKeySource :=
  { row := some (toyFileKey ++ [48, 9]), download := .error PSYNC_CRYPTO_CANT_CONNECT }

/-- A local key store for `psync_cloud_crypto_start`: the private key 48, 6 encoded under a
password that starts with the byte 1, and the public key 48, 6. -/
def toyStartEnv : StartEnv :=
  { trylock_failures := 2
    crypto_private_key := some [47, 5]
    crypto_public_key := some [48, 6]
    crypto_private_salt := some (List.replicate 64 1)
    crypto_private_iter := some 20000
    getuserkeys := fun _ => .no_api
    rand_weak := List.replicate 64 3 }

/-! ## Predicates on the wait index -/

/-- The key of a wait entry. -/
def wait_key (pw : psync_page_wait_t) : Nat × Nat := (pw.hash, pw.pageid)

/-- The wait index is well formed: every entry sits in the bucket of its key and no bucket holds
two entries with the same key, so that there is at most one wait entry per `(hash, page_id)`. -/
def WaitIndexOk (s : PageCache) : Prop :=
  ∀ h, (∀ pw ∈ s.wait_page_hash h, waiterhash_by_hash_and_pageid pw.hash pw.pageid = h) ∧
    ((s.wait_page_hash h).map wait_key).Nodup

/-- Number of wait entries for `(hash, pageid)` in the whole index. -/
def wait_entries (s : PageCache) (hash pageid : Nat) : Nat :=
  ((List.range PAGE_WAITER_HASH).map
    (fun h => (s.wait_page_hash h).countP (wait_match hash pageid))).sum

/-- The page has a wait entry (in the bucket where the look-up loops search it). -/
def has_wait_entry (s : PageCache) (hash pageid : Nat) : Prop :=
  ∃ pw ∈ s.wait_page_hash (waiterhash_by_hash_and_pageid hash pageid),
    pw.hash = hash ∧ pw.pageid = pageid

/-- The first byte of page `p` lies in one of the ranges. -/
def ranges_cover (cfg : Settings) (ranges : List psync_request_range_t) (p : Nat) : Prop :=
  ∃ r ∈ ranges, r.offset ≤ p * cfg.PSYNC_FS_PAGE_SIZE ∧
    p * cfg.PSYNC_FS_PAGE_SIZE < r.offset + r.length

/-- The entry `pw` continues the entry `pw0`: same key and file, and the waiters of `pw0` come
first in the list of `pw`. -/
def continues_entry (pw0 pw : psync_page_wait_t) : Prop :=
  pw.hash = pw0.hash ∧ pw.pageid = pw0.pageid ∧ pw.fileid = pw0.fileid ∧
    pw0.waiters <+: pw.waiters

/-- The waiter `id` of the heap is attached to a wait entry of the page it waits for, page
`first_page_id + pageidx` of the file version `hash`. -/
def waiter_attached (s : PageCache) (hash first_page_id id : Nat) : Prop :=
  ∃ w, s.waiters[id]? = some w ∧
    ∃ pw ∈ s.wait_page_hash (waiterhash_by_hash_and_pageid hash (first_page_id + w.pageidx)),
      pw.hash = hash ∧ pw.pageid = first_page_id + w.pageidx ∧ id ∈ pw.waiters

/-- What a stretch of the registration does to the wait index, the waiter heap, the waiter list
of the reader and the ranges of the request, from `st0` to `st`: the index stays well formed,
every entry is continued, the heap only grows, a page that had a wait entry is covered by no
new range, and every new waiter of the reader is attached to an entry of its page. -/
structure RegStep (cfg : Settings) (hash first_page_id : Nat) (st0 st : ReadLoop) : Prop where
  ok : WaitIndexOk st0.s → WaitIndexOk st.s
  entries_kept : ∀ h, ∀ pw0 ∈ st0.s.wait_page_hash h,
    ∃ pw ∈ st.s.wait_page_hash h, continues_entry pw0 pw
  heap_kept : st0.s.waiters <+: st.s.waiters
  no_new_request : ∀ p, has_wait_entry st0.s hash p → ranges_cover cfg st.ranges p →
    ranges_cover cfg st0.ranges p
  attached : ∀ id ∈ st.waiting, id ∈ st0.waiting ∨ waiter_attached st.s hash first_page_id id

/-! ## Concrete inputs for the page cache -/

/-- Pages of 4096 bytes, a memory pool of 8 pages; the argument tells whether table `pagecache`
has the unique index over `(hash, pageid)`. -/
def toySettings (unique_index : Bool) : Settings :=
  { PSYNC_FS_PAGE_SIZE := 4096, PSYNC_FS_MEMORY_CACHE := 8 * 4096, PSYNC_FS_FILESTREAMS_CNT := 2,
    PSYNC_FS_MIN_READAHEAD_START := 65536, PSYNC_FS_MIN_READAHEAD_RAND := 16384,
    PSYNC_FS_MAX_READAHEAD := 1048576, PSYNC_FS_MAX_READAHEAD_SEC := 12,
    pagecache_unique_index := unique_index }

/-- A free page of the slab. -/
def toyFreePage (k : Nat) : psync_cache_page_t :=
  { page := k, hash := 0, pageid := 0, lastuse := 0, size := 0, usecnt := 0, flushpageid := 0,
    type := PAGE_TYPE_FREE }

/-- A `FREE` row of table `pagecache`. -/
def toyFreeRow (id : Nat) : pagecache_row :=
  { id := id, hash := none, pageid := none, type := PAGE_TYPE_FREE, lastuse := 0, usecnt := 0,
    size := 0 }

/-- The state that `psync_pagecache_init` leaves with these settings and a pagefile of four
slots: all 8 pages free, both hashes empty, four `FREE` rows. -/
def toyPageCache : PageCache :=
  { cache_hash := fun _ => [], cache_pages_in_hash := 0, cache_pages_free := 8,
    free_pages := (List.range 8).map toyFreePage, wait_page_hash := fun _ => [], waiters := [],
    pagecache := [1, 2, 3, 4].map toyFreeRow, free_db_pages := 4, db_cache_in_pages := 4,
    db_cache_max_page := 4, flushchacherun := 0, local_full := 0 }

/-- A flush cycle in which the pagefile covers every slot and all writes succeed. -/
def toyFlushEnv : FlushEnv :=
  { filesize := some (4 * 4096 + 4096), freespace := some 1000000, minlocal := 0, ctime := 20,
    pwrite_ok := fun _ => true, sync_ok := true, commit_ret := 0 }

/-- A request for the pages 0 and 2 of the file version with hash 7, as two ranges. -/
def toyRequest : psync_request_t :=
  { ranges := [⟨0, 4096⟩, ⟨8192, 4096⟩], of_hash := 7, fileid := 3, hash := 7 }

/-- A pass of the fetch thread in which the connection delivers `first` for the first range and
`second` for the second one, after the flush cycles `flushes`. -/
def toyTry (flushes : List FlushEnv) (first second : SockRange) : SockTry :=
  { flushes_before := flushes, urls := true, connect := true, request_ok := [true, true],
    ranges := [first, second], rounds := [], tm := 10 }

/-- The fetch of `toyRequest` that reads page 0, gets the status 404 for the second range and
retries; the flush thread completes one cycle before the second pass, which reads both
ranges. -/
def toyRetryRun (unique_index : Bool) : Option PageCache :=
  psync_pagecache_read_unmodified_thread (toySettings unique_index) true toyRequest
    [toyTry [] ⟨0, [4096]⟩ ⟨404, []⟩, toyTry [toyFlushEnv] ⟨0, [4096]⟩ ⟨0, [4096]⟩] toyPageCache

/-- The disk tier holds page 0 of the old file version with hash 5 in slot 1. -/
def toyOldVersionOnDisk : PageCache :=
  { toyPageCache with
    pagecache := { toyFreeRow 1 with hash := some 5, pageid := some 0, type := PAGE_TYPE_READ,
                                     size := 4096 } :: [2, 3, 4].map toyFreeRow
    free_db_pages := 3 }

/-- After the upload of the new version with hash 7 a reader fetches its pages 0 and 2 from the
network, then the promotion task renames the unchanged page 0 of the old version. -/
def toyRenameRun (unique_index : Bool) : Option PageCache :=
  (psync_pagecache_read_unmodified_thread (toySettings unique_index) true toyRequest
    [toyTry [] ⟨0, [4096]⟩ ⟨0, [4096]⟩] toyOldVersionOnDisk).map
    (fun s => rename_old_page (toySettings unique_index) s 7 5 0)

/-- An open file of three pages, version hash 7, that was not read before. -/
def toyOpenFile : psync_openfile_t :=
  { initialsize := 12288, hash := 7, remotefileid := 3,
    streams := [⟨0, 0, 0, 0, 0, 0⟩, ⟨0, 0, 0, 0, 0, 0⟩], laststreamid := 0, currentspeed := 0,
    runningreads := 0 }

/-- The memory tier holds page 1 of the file version with hash 7 in full. -/
def toyPage1Cached : PageCache :=
  fill_page (toySettings true)
    { toyPageCache with free_pages := (List.range 7).map (fun k => toyFreePage (k + 1)),
                        cache_pages_free := 7 }
    { toyFreePage 0 with hash := 7, pageid := 1, lastuse := 10, size := 4096,
                         type := PAGE_TYPE_READ }

/-- A read of the whole file (12288 bytes at offset 0) while only page 1 is cached: the read
registers waiters for the pages 0 and 2 and hands a request to a fetch thread. -/
def toyRead : ReadStart :=
  read_unmodified_start (toySettings true) ⟨11, fun _ => true⟩ toyOpenFile 12288 0 toyPage1Cached

/-- The read `toyRead` played to its end with a fetch thread whose connection delivers `first`
for page 0 and `second` for page 2: the return value, whether byte 100 of the buffer was
copied, the error of the waiter of page 2 and whether page 2 is in the memory tier. -/
def toyReadOutcome (first second : SockRange) : Option (Int × Bool × Int × Nat) :=
  match toyRead.request with
  | none => none
  | some request =>
    match psync_pagecache_read_unmodified_thread (toySettings true) true request
        [toyTry [] first second] toyRead.s with
    | none => none
    | some s =>
      match read_unmodified_finish (toySettings true) toyRead s with
      | none => none
      | some ret =>
        some (ret, byte_copied (read_unmodified_copies toyRead s) 100,
          (s.waiters.getD 1 ⟨0, 0, 0, 0, 0, 0, 0⟩).error,
          has_page_in_memory_by_hash (toySettings true) s 7 2)

/-- A second read of the same bytes that arrives while the pages 0 and 2 of `toyRead` are still
awaited. -/
def toySecondRead : ReadStart :=
  read_unmodified_start (toySettings true) ⟨12, fun _ => true⟩ toyRead.of 12288 0 toyRead.s

/-- The state in which the fetch thread of `toyRead` stands when the read of its first range
has failed. -/
def toyFailedState : PageCache :=
  match read_ranges_from_sock (toySettings true) (toyTry [] ⟨0, [-1]⟩ ⟨0, [4096]⟩) toyRequest
      toyRequest.ranges 0 toyRead.s with
  | some r => r.2
  | none => toyRead.s

/-! ## Definitions for the properties of psynclib.c, the ageing sweep and the read path -/

/-- The number that a string of decimal digits (bytes 48 to 57) denotes. -/
def decimal_value (ds : List Nat) : Nat := ds.foldl (fun acc d => acc * 10 + (d - 48)) 0

/-- The entries `entries[0] .. entries[cnt-1]` of a step of `clean_cache`, the ones that the
next sort runs over. -/
def clean_cache_candidates (st : List pagecache_entry × Nat) : List pagecache_entry :=
  st.1.take st.2

/-- The comparators of `clean_cache` with the threshold of the use count as a parameter;
threshold 0 is the comparison by `lastuse` alone. -/
def pagecache_entry_cmp_threshold (k : Nat) (e1 e2 : pagecache_entry) : Int :=
  if e1.usecnt ≥ k ∧ e2.usecnt < k then 1
  else if e2.usecnt ≥ k ∧ e1.usecnt < k then -1
  else to_int (e1.lastuse - e2.lastuse)

/-- The order that the comparator with threshold `k` stands for: entries used fewer than `k`
times first, and the older entry first within each of the two groups. -/
def entry_le (k : Nat) (a b : pagecache_entry) : Prop :=
  if a.usecnt ≥ k ∧ b.usecnt < k then False
  else if b.usecnt ≥ k ∧ a.usecnt < k then True
  else a.lastuse ≤ b.lastuse

instance entry_le_decidable (k : Nat) : DecidableRel (entry_le k) := fun a b => by
  unfold entry_le
  exact inferInstance

/-- No two `lastuse` values of the list differ by `2^31` or more. -/
def lastuse_close (entries : List pagecache_entry) : Prop :=
  ∀ a ∈ entries, ∀ b ∈ entries, a.lastuse - b.lastuse < 2 ^ 31

/-- Twenty-one loaded entries with the ids 1 to 21 in the order of their last use; the oldest
one was never used again, the others were used 16 times. -/
def toyEntries : List pagecache_entry :=
  (List.range 21).map (fun (i : Nat) =>
    { lastuse := 1000 + (i : Int), id := i + 1, usecnt := if i = 0 then 0 else 16 })

/-- A table whose rows 1 to 21 hold the pages of `toyEntries`. -/
def toyAgedCache : PageCache :=
  { toyPageCache with
    pagecache := toyEntries.map (fun e =>
      { id := e.id, hash := some 7, pageid := some e.id, type := PAGE_TYPE_READ,
        lastuse := e.lastuse.toNat, usecnt := e.usecnt, size := 4096 })
    free_db_pages := 0 }

/-- The number of bytes of a page of valid size `page_size` that a reader who wants `size` bytes
from the in-page offset `off` is due: the overlap of the wanted bytes with the valid ones. -/
def delivered_bytes (page_size off size : Nat) : Nat :=
  if off < page_size then min size (page_size - off) else 0

/-- A state for the three delivery paths: the memory tier holds the short last page 2 of the
file version with hash 7 (100 valid bytes), slot 1 of the disk tier holds the short page 0 of
the version with hash 9, and the waiter 0 of a reader waits for 200 bytes from offset 50 of page
5 of the version with hash 7. -/
def toyDelivery : PageCache :=
  { toyPageCache with
    cache_hash := Function.update (fun _ => [])
      (pagehash_by_hash_and_pageid (toySettings true) 7 2)
      [{ toyFreePage 0 with hash := 7, pageid := 2, lastuse := 10, size := 100,
                            type := PAGE_TYPE_READ }]
    pagecache := { toyFreeRow 1 with hash := some 9, pageid := some 0, type := PAGE_TYPE_READ,
                                     size := 100 } :: [2, 3, 4].map toyFreeRow
    wait_page_hash := Function.update (fun _ => []) (waiterhash_by_hash_and_pageid 7 5)
      [{ waiters := [0], hash := 7, pageid := 5, fileid := 3 }]
    waiters := [{ buff := 0, pageidx := 0, rsize := 0, size := 200, off := 50, error := 0,
                  ready := 0 }] }

/-- The boundary that `psync_pagecache_read_unmodified_readahead` aligns the end of a readahead
of at least 128 KiB to: 4 MiB from 8 MiB on, 1 MiB from 2 MiB on, 256 KiB from 512 KiB on, else
64 KiB. -/
def readahead_boundary (readahead : Nat) : Nat :=
  if readahead ≥ 8192 * 1024 then 4 * 1024 * 1024
  else if readahead ≥ 2048 * 1024 then 1024 * 1024
  else if readahead ≥ 512 * 1024 then 256 * 1024
  else 64 * 1024

/-- An open file of 4 MiB with a stream that has read the pages 0 and 1 and 128 KiB in all. -/
def toyStreamingFile : psync_openfile_t :=
  { initialsize := 4194304, hash := 7, remotefileid := 3,
    streams := [⟨1, 0, 1, 131072, 0, 19⟩, ⟨0, 0, 0, 0, 0, 0⟩], laststreamid := 1,
    currentspeed := 0, runningreads := 0 }

/-! ## Definitions for the properties of the flush cycle, the page pool, the key getters and
the promotion after an upload -/

/-- The order that `cmp_flush_pages` stands for: by `hash`, then by `pageid`. -/
def flush_le (a b : psync_cache_page_t) : Prop :=
  a.hash < b.hash ∨ (a.hash = b.hash ∧ a.pageid ≤ b.pageid)

/-- A flush cycle that finds the disk full: the pagefile holds one page, 1000 bytes are free and
nothing has to stay free. -/
def toyFullDisk : FlushEnv :=
  { filesize := some 4096, freespace := some 1000, minlocal := 0, ctime := 30,
    pwrite_ok := fun _ => true, sync_ok := true, commit_ret := 0 }

/-- Three pages of the memory tier in the order of the hash walk: the pages 2 and 0 of the file
version with hash 7 and page 9 of the version with hash 5. -/
def toyReadPages : List psync_cache_page_t :=
  [{ toyFreePage 0 with hash := 7, pageid := 2, lastuse := 10, size := 4096,
                        type := PAGE_TYPE_READ },
   { toyFreePage 1 with hash := 7, pageid := 0, lastuse := 11, size := 4096,
                        type := PAGE_TYPE_READ },
   { toyFreePage 2 with hash := 5, pageid := 9, lastuse := 12, size := 4096,
                        type := PAGE_TYPE_READ }]

/-- A table with the `FREE` rows 3 and 1 and the `READ` row 2. -/
def toyMixedRows : List pagecache_row :=
  [toyFreeRow 3,
   { toyFreeRow 2 with hash := some 5, pageid := some 0, type := PAGE_TYPE_READ, size := 4096 },
   toyFreeRow 1]

/-- The invariant of the page pool: the counter `cache_pages_free` equals the number of pages on
the free list. -/
def free_count_ok (s : PageCache) : Prop := s.cache_pages_free = s.free_pages.length

/-- The memory tier is full and so is the disk tier: the eight pages of the slab hold the pages
0 to 7 of the file version with hash 7, the free list is empty and the four rows of the table
hold pages of the version with hash 5. -/
def toyFullMemory : PageCache :=
  (List.range 8).foldl
    (fun s k => fill_page (toySettings true) s
      { toyFreePage k with hash := 7, pageid := k, lastuse := 10 + k, size := 4096,
                           type := PAGE_TYPE_READ })
    { toyPageCache with
      cache_pages_free := 0, free_pages := [],
      pagecache := [1, 2, 3, 4].map (fun id =>
        { toyFreeRow id with hash := some 5, pageid := some id, type := PAGE_TYPE_READ,
                             size := 4096 }),
      free_db_pages := 0 }

/-- Rows that `SELECT id, lastuse, usecnt, type FROM pagecache WHERE id>? ORDER BY id LIMIT
10000` returns when the parameter is bound to `i`. -/
def select_rows_after (rows : List pagecache_row) (i : Nat) : List pagecache_row :=
  ((rows.filter (fun r => r.id > i)).insertionSort (fun a b => a.id ≤ b.id)).take 10000

/-- Conversion of a `uint64_t` column to `time_t` (64 bits, two's complement). -/
def to_time_t (x : Nat) : Int := ((x : Int) + 2 ^ 63) % 2 ^ 64 - 2 ^ 63

/-- The inner loop of the loading loop of `clean_cache` over the rows of one query. The array
`entries` is filled from index 0, so the variable `i` is the number of entries held. -/
def clean_cache_load_rows (cnt : Nat) :
    List pagecache_row → List pagecache_entry → List pagecache_entry
  | [], entries => entries
  | row :: rest, entries =>
    if entries.length ≥ cnt then entries
    else if row.type ≠ PAGE_TYPE_READ then clean_cache_load_rows cnt rest entries
    else
      clean_cache_load_rows cnt rest
        (entries ++ [{ lastuse := to_time_t row.lastuse, id := row.id % 2 ^ 32,
                       usecnt := row.usecnt % 2 ^ 32 }])

/-- The loop `while (i<cnt)` of `clean_cache`, one query per round, for at most `fuel` rounds;
`none` when the loop is still running after them. -/
def clean_cache_load_loop (rows : List pagecache_row) (cnt : Nat) :
    Nat → List pagecache_entry → Option (List pagecache_entry)
  | 0, entries => if entries.length < cnt then none else some entries
  | fuel + 1, entries =>
    if entries.length < cnt then
      clean_cache_load_loop rows cnt fuel
        (clean_cache_load_rows cnt (select_rows_after rows entries.length) entries)
    else some entries

/-- The loading of the array `entries` in `clean_cache`: `cnt` is `SELECT COUNT(*) FROM
pagecache`, the array starts empty. -/
def clean_cache_load (rows : List pagecache_row) (fuel : Nat) : Option (List pagecache_entry) :=
  clean_cache_load_loop rows rows.length fuel []

/-- A table with the `FREE` row 1 and the `READ` rows 2 and 3. -/
def toyLeadingFreeRows : List pagecache_row :=
  [toyFreeRow 1,
   { toyFreeRow 2 with hash := some 5, pageid := some 0, type := PAGE_TYPE_READ, size := 4096 },
   { toyFreeRow 3 with hash := some 5, pageid := some 1, type := PAGE_TYPE_READ, size := 4096 }]

/-- The function `psync_ssl_free_symmetric_key` of pssl.c, `memset(key->key, 0, key->keylen);
psync_free(key);`: the bytes that the key block holds when it is handed to `psync_free`. -/
def psync_ssl_free_symmetric_key (key : List Nat) : List Nat := List.replicate key.length 0

/-- The blocks that `psync_cache_add` releases through `psync_crypto_release_symkey_ptr` when
the key is put back: the entries that the table still holds under the id. -/
def released_by_cache_add (c : List (Nat × List Nat)) (id : Nat) : List (List Nat) :=
  (c.filter (fun e => e.1 == id)).map (fun e => psync_ssl_free_symmetric_key e.2)

/-- The function `psync_crypto_get_folder_encoder_locked` together with the heap: the third
component lists the key blocks that the call hands to `psync_free`, each with the bytes it
holds at that moment. -/
def psync_crypto_get_folder_encoder_locked_heap {B : Backend} (tc : TypeCodes) (s : Vault B)
    (folderid : Nat) (src : EncKeySource) :
    PtrResult B.TextEncoder × Vault B × List (List Nat) :=
  match psync_crypto_get_folder_symkey_locked s folderid src with
  | (.error code, s1) => (.error code, s1, [])
  | (.unloaded, s1) => (.unloaded, s1, [])
  | (.ptr symkey, s1) =>
    if skv1_type symkey = tc.PSYNC_CRYPTO_SYM_AES256_1024BIT_HMAC then
      if symkey.length ≠ sizeof_sym_key_ver1 then
        (.error PSYNC_CRYPTO_INVALID_KEY, s1, [psync_ssl_free_symmetric_key symkey])
      else if skv1_flags symkey &&& PSYNC_CRYPTO_SYM_FLAG_ISDIR = 0 then
        (.error PSYNC_CRYPTO_INVALID_KEY, s1, [psync_ssl_free_symmetric_key symkey])
      else
        let realkey := psync_crypto_sym_key_ver1_to_sym_key symkey
        (.ptr (B.psync_crypto_aes256_text_encoder_create realkey),
          psync_crypto_release_folder_symkey_locked s1 folderid symkey,
          released_by_cache_add s1.cache_FKEY folderid ++ [psync_ssl_free_symmetric_key realkey])
    else (.error PSYNC_CRYPTO_INVALID_KEY, s1, [psync_ssl_free_symmetric_key symkey])

/-- The function `psync_crypto_get_folder_decoder_locked` together with the heap, as for the
encoder. -/
def psync_crypto_get_folder_decoder_locked_heap {B : Backend} (tc : TypeCodes) (s : Vault B)
    (folderid : Nat) (src : EncKeySource) :
    PtrResult B.TextDecoder × Vault B × List (List Nat) :=
  match psync_crypto_get_folder_symkey_locked s folderid src with
  | (.error code, s1) => (.error code, s1, [])
  | (.unloaded, s1) => (.unloaded, s1, [])
  | (.ptr symkey, s1) =>
    if skv1_type symkey = tc.PSYNC_CRYPTO_SYM_AES256_1024BIT_HMAC then
      if symkey.length ≠ sizeof_sym_key_ver1 then
        (.error PSYNC_CRYPTO_INVALID_KEY, s1, [psync_ssl_free_symmetric_key symkey])
      else
        let realkey := psync_crypto_sym_key_ver1_to_sym_key symkey
        (.ptr (B.psync_crypto_aes256_text_decoder_create realkey),
          psync_crypto_release_folder_symkey_locked s1 folderid symkey,
          released_by_cache_add s1.cache_FKEY folderid ++ [psync_ssl_free_symmetric_key realkey])
    else (.error PSYNC_CRYPTO_INVALID_KEY, s1, [psync_ssl_free_symmetric_key symkey])

/-- The function `psync_crypto_get_file_encoder_locked` together with the heap, as for the
folder encoder. -/
def psync_crypto_get_file_encoder_locked_heap {B : Backend} (tc : TypeCodes) (s : Vault B)
    (fileid : Nat) (nonetwork : Bool) (src : EncKeySource) :
    PtrResult B.SectorCodec × Vault B × List (List Nat) :=
  match psync_crypto_get_file_symkey_locked s fileid nonetwork src with
  | (.error code, s1) => (.error code, s1, [])
  | (.unloaded, s1) => (.unloaded, s1, [])
  | (.ptr symkey, s1) =>
    if skv1_type symkey = tc.PSYNC_CRYPTO_SYM_AES256_1024BIT_HMAC then
      if symkey.length ≠ sizeof_sym_key_ver1 then
        (.error PSYNC_CRYPTO_INVALID_KEY, s1, [psync_ssl_free_symmetric_key symkey])
      else if skv1_flags symkey &&& PSYNC_CRYPTO_SYM_FLAG_ISDIR ≠ 0 then
        (.error PSYNC_CRYPTO_INVALID_KEY, s1, [psync_ssl_free_symmetric_key symkey])
      else
        let realkey := psync_crypto_sym_key_ver1_to_sym_key symkey
        (.ptr (B.psync_crypto_aes256_sector_encoder_decoder_create realkey),
          psync_crypto_release_file_symkey_locked s1 fileid symkey,
          released_by_cache_add s1.cache_DKEY fileid ++ [psync_ssl_free_symmetric_key realkey])
    else (.error PSYNC_CRYPTO_INVALID_KEY, s1, [psync_ssl_free_symmetric_key symkey])

/-- The cache manager holds at most one entry under each key of a table (entries are
single-holder: `add` releases the entry that exists under the key). -/
def single_holder {α : Type} (c : List (Nat × α)) : Prop := (c.map (fun e => e.1)).Nodup

/-- The started vault `toyVault` with the file key `toyFileKey` cached as the plaintext key of
folder 5. -/
def toyVaultWithFileKey : Vault toyBackend :=
  { toyVault with cache_FKEY := [(5, toyFileKey)] }

/-- An assignment to a local variable that already holds a value (or none yet): the old value
is lost. -/
def overwrite {α : Type} (_old : Option α) (new : α) : α := new

/-- The function `psync_cloud_crypto_get_folder_encoder`. `others` is what the other threads do
to the vault between the test of `crypto_started_un` and the moment the read lock is held,
`temp` is the result of `psync_crypto_get_temp_folder_encoder_locked` (used for a negative id),
`src` is where the encrypted key of a positive id comes from. The variable `enc` holds
`PSYNC_CRYPTO_NOT_STARTED` after the test of `crypto_started_l`; the `if` chain that follows has
no `else` in front and assigns `enc` in each of its three branches. -/
def psync_cloud_crypto_get_folder_encoder {B : Backend} (tc : TypeCodes)
    (others : Vault B → Vault B) (s : Vault B) (folderid : Int) (src : EncKeySource)
    (temp : PtrResult B.TextEncoder) : PtrResult B.TextEncoder × Vault B :=
  if s.crypto_started_un = 0 then (.error PSYNC_CRYPTO_NOT_STARTED, s)
  else
    let r : Option B.TextEncoder × List (Nat × B.TextEncoder) :=
      if folderid ≥ 0 then psync_cache_get s.cache_FLDE folderid.toNat else (none, s.cache_FLDE)
    match r with
    | (some enc, c) => (.ptr enc, { s with cache_FLDE := c })
    | (none, c) =>
      let s := others { s with cache_FLDE := c }
      let enc : Option (PtrResult B.TextEncoder) :=
        if s.crypto_started_l = 0 then some (.error PSYNC_CRYPTO_NOT_STARTED) else none
      if folderid > 0 then
        let g := psync_crypto_get_folder_encoder_locked tc s folderid.toNat src
        (overwrite enc g.1, g.2)
      else if folderid < 0 then (overwrite enc temp, s)
      else (overwrite enc (.error PSYNC_CRYPTO_FOLDER_NOT_ENCRYPTED), s)

/-- The function `psync_cloud_crypto_get_folder_decoder`, with the arguments of the encoder
getter; `temp` is the result of `psync_crypto_get_temp_folder_decoder_locked`. -/
def psync_cloud_crypto_get_folder_decoder {B : Backend} (tc : TypeCodes)
    (others : Vault B → Vault B) (s : Vault B) (folderid : Int) (src : EncKeySource)
    (temp : PtrResult B.TextDecoder) : PtrResult B.TextDecoder × Vault B :=
  if s.crypto_started_un = 0 then (.error PSYNC_CRYPTO_NOT_STARTED, s)
  else
    let r : Option B.TextDecoder × List (Nat × B.TextDecoder) :=
      if folderid ≥ 0 then psync_cache_get s.cache_FLDD folderid.toNat else (none, s.cache_FLDD)
    match r with
    | (some dec, c) => (.ptr dec, { s with cache_FLDD := c })
    | (none, c) =>
      let s := others { s with cache_FLDD := c }
      let dec : Option (PtrResult B.TextDecoder) :=
        if s.crypto_started_l = 0 then some (.error PSYNC_CRYPTO_NOT_STARTED) else none
      if folderid > 0 then
        let g := psync_crypto_get_folder_decoder_locked tc s folderid.toNat src
        (overwrite dec g.1, g.2)
      else if folderid < 0 then (overwrite dec temp, s)
      else (overwrite dec (.error PSYNC_CRYPTO_FOLDER_NOT_ENCRYPTED), s)

/-- The function `psync_cloud_crypto_get_file_encoder`, with the arguments of the folder
getters; `temp` is the result of `psync_crypto_get_temp_file_encoder_locked`. -/
def psync_cloud_crypto_get_file_encoder {B : Backend} (tc : TypeCodes)
    (others : Vault B → Vault B) (s : Vault B) (fileid : Int) (nonetwork : Bool)
    (src : EncKeySource) (temp : PtrResult B.SectorCodec) : PtrResult B.SectorCodec × Vault B :=
  if s.crypto_started_un = 0 then (.error PSYNC_CRYPTO_NOT_STARTED, s)
  else
    let r : Option B.SectorCodec × List (Nat × B.SectorCodec) :=
      if fileid ≥ 0 then psync_cache_get s.cache_SEEN fileid.toNat else (none, s.cache_SEEN)
    match r with
    | (some enc, c) => (.ptr enc, { s with cache_SEEN := c })
    | (none, c) =>
      let s := others { s with cache_SEEN := c }
      let enc : Option (PtrResult B.SectorCodec) :=
        if s.crypto_started_l = 0 then some (.error PSYNC_CRYPTO_NOT_STARTED) else none
      if fileid > 0 then
        let g := psync_crypto_get_file_encoder_locked tc s fileid.toNat nonetwork src
        (overwrite enc g.1, g.2)
      else if fileid < 0 then (overwrite enc temp, s)
      else (overwrite enc (.error PSYNC_CRYPTO_FOLDER_NOT_ENCRYPTED), s)

/-- The function `psync_cloud_crypto_get_file_encoder_from_binresult` once the key of the
answer is stored in `cryptofilekey` (`src` holds it); `none` for a key that is not valid
base64. Here the call of the locked getter stands under `else`. -/
def psync_cloud_crypto_get_file_encoder_from_binresult {B : Backend} (tc : TypeCodes)
    (s : Vault B) (fileid : Nat) (src : Option EncKeySource) :
    PtrResult B.SectorCodec × Vault B :=
  match src with
  | none => (.error PSYNC_CRYPTO_INVALID_KEY, s)
  | some src =>
    if s.crypto_started_l = 0 then (.error PSYNC_CRYPTO_NOT_STARTED, s)
    else psync_crypto_get_file_encoder_locked tc s fileid false src

/-- A thread that stops the vault. -/
def stopping_thread {B : Backend} (s : Vault B) : Vault B := (psync_cloud_crypto_stop s).2

/-- Modelled from the spec: `psync_ssl_memclean` (pssl.h is not among the sources) overwrites
the buffer with zero bytes. -/
def psync_ssl_memclean (buf : List Nat) : List Nat := List.replicate buf.length 0

/-- The bytes of a `sym_key_ver1`: `type`, `flags`, `aeskey`, `hmackey`. -/
def sym_key_ver1_bytes (type flags : Nat) (aeskey hmackey : List Nat) : List Nat :=
  store_u32 type ++ store_u32 flags ++ aeskey ++ hmackey

/-- What a function that generates a key reads from outside: the bytes that
`psync_ssl_rand_strong` delivers for `hmackey` and for `aeskey`, the result of
`psync_ssl_rsa_encrypt_data` with the public key of the vault for a buffer (`none` is
`PSYNC_INVALID_ENC_SYM_KEY`) and the base64 coder. -/
structure NewKeyEnv where
  hmackey : List Nat
  aeskey : List Nat
  psync_ssl_rsa_encrypt_data : List Nat → Option (List Nat)
  psync_base64_encode : List Nat → List Nat

/-- What a key generator leaves: the returned string or error, the key stored in `*deckey`, and
the bytes that the local variable `sym` holds when the function returns (`none`: it was never
written). -/
structure NewKeyResult where
  ret : PtrResult (List Nat)
  deckey : Option (List Nat)
  sym : Option (List Nat)
deriving DecidableEq

def psync_cloud_crypto_get_new_encoded_key {B : Backend} (tc : TypeCodes) (s : Vault B)
    (e : NewKeyEnv) (flags : Nat) : NewKeyResult :=
  if s.crypto_started_un = 0 then
    { ret := .error PSYNC_CRYPTO_NOT_STARTED, deckey := none, sym := none }
  else
    let sym := sym_key_ver1_bytes tc.PSYNC_CRYPTO_SYM_AES256_1024BIT_HMAC flags e.aeskey e.hmackey
    if s.crypto_started_l = 0 then
      { ret := .error PSYNC_CRYPTO_NOT_STARTED, deckey := none, sym := some sym }
    else
      match e.psync_ssl_rsa_encrypt_data sym with
      | none => { ret := .error PSYNC_CRYPTO_RSA_ERROR, deckey := none, sym := some sym }
      | some encsym =>
        { ret := .ptr (e.psync_base64_encode encsym), deckey := none,
          sym := some (psync_ssl_memclean sym) }

def psync_cloud_crypto_get_new_encoded_and_plain_key {B : Backend} (tc : TypeCodes)
    (s : Vault B) (e : NewKeyEnv) (flags : Nat) : NewKeyResult :=
  if s.crypto_started_un = 0 then
    { ret := .error PSYNC_CRYPTO_NOT_STARTED, deckey := none, sym := none }
  else
    let sym := sym_key_ver1_bytes tc.PSYNC_CRYPTO_SYM_AES256_1024BIT_HMAC flags e.aeskey e.hmackey
    if s.crypto_started_l = 0 then
      { ret := .error PSYNC_CRYPTO_NOT_STARTED, deckey := none, sym := some sym }
    else
      match e.psync_ssl_rsa_encrypt_data sym with
      | none => { ret := .error PSYNC_CRYPTO_RSA_ERROR, deckey := none, sym := some sym }
      | some encsym =>
        { ret := .ptr (e.psync_base64_encode encsym),
          deckey := some (psync_crypto_sym_key_ver1_to_sym_key sym),
          sym := some (psync_ssl_memclean sym) }

/-- The local variable `sym` of `psync_cloud_crypto_mkdir` when the function returns: the
buffer is cleaned in the line after the encryption, before any of the later return paths. -/
def psync_cloud_crypto_mkdir_sym {B : Backend} (tc : TypeCodes) (s : Vault B) (e : NewKeyEnv) :
    Option (List Nat) :=
  if s.crypto_started_un = 0 then none
  else
    let sym := sym_key_ver1_bytes tc.PSYNC_CRYPTO_SYM_AES256_1024BIT_HMAC
      PSYNC_CRYPTO_SYM_FLAG_ISDIR e.aeskey e.hmackey
    if s.crypto_started_l = 0 then some sym
    else some (psync_ssl_memclean sym)

/-- Random bytes 9 (AES key) and 7 (HMAC key) and an RSA encryption that fails. -/
def toyFailingRsa : NewKeyEnv :=
  { hmackey := List.replicate 64 7, aeskey := List.replicate 32 9,
    psync_ssl_rsa_encrypt_data := fun _ => none, psync_base64_encode := fun d => d }

/-- A node of the interval tree of written ranges, `psync_interval_tree_t`, with its fields
`from` and `to` (the bytes `from .. to-1` were written; both names are reserved words here).
The tree is kept as the list of its nodes in the order of `psync_interval_tree_get_first` /
`psync_interval_tree_get_next`; a pointer into the tree is the list of the nodes from the
pointer on, `[]` is NULL. -/
structure psync_interval_tree_t where
  from_ : Nat
  to_ : Nat
deriving DecidableEq, Repr

/-- The loop `while (interval && interval->to<=off) interval=psync_interval_tree_get_next(
interval);` of `psync_pagecache_modify_to_cache`. -/
def skip_intervals (off : Nat) : List psync_interval_tree_t → List psync_interval_tree_t
  | [] => []
  | i :: rest => if i.to_ ≤ off then skip_intervals off rest else i :: rest

/-- One read of the splice loop: `roff` is the offset in the page, `rdoff` the offset in the
staging file, `rdlen` the number of bytes. -/
structure Fragment where
  roff : Nat
  rdoff : Nat
  rdlen : Nat
deriving DecidableEq, Repr

/-- The values `roff`, `rdoff` and `rdlen` that the body of the splice loop computes for the
interval `i` and the page at `off`. -/
def splice_fragment (cfg : Settings) (off : Nat) (i : psync_interval_tree_t) : Fragment :=
  let roff := if i.from_ > off then sub_u64 i.from_ off else 0
  let rdoff := if i.from_ > off then i.from_ else off
  let rdlen :=
    if i.to_ < add_u64 off cfg.PSYNC_FS_PAGE_SIZE then sub_u64 i.to_ rdoff
    else sub_u64 cfg.PSYNC_FS_PAGE_SIZE roff
  { roff := roff, rdoff := rdoff, rdlen := rdlen }

/-- Ways in which a run does not reach its end: an `assert` fails, no free page ever comes, or
the loop is still running when the fuel is used up. -/
inductive Stop where
  | assert_failed
  | no_free_page
  | still_running
deriving DecidableEq, Repr

/-- What the splice loop leaves: `ret`, `pdb`, the interval pointer and the fragments it has
read (the last one is the failed read when `ret` is -1). -/
structure SpliceResult where
  ret : Int
  pdb : Nat
  interval : List psync_interval_tree_t
  frags : List Fragment
deriving DecidableEq, Repr

/-- The loop `while (1)` that reads the written fragments of a page over the bytes of the old
page; `pread len off` is the return value of `psync_file_pread` on the staging file, `pdb` the
valid size of the page so far. The loop is entered with a non-NULL pointer. -/
def splice_loop (cfg : Settings) (pread : Nat → Nat → Int) (off : Nat) :
    List psync_interval_tree_t → Nat → Except Stop SpliceResult
  | [], pdb => .ok { ret := 0, pdb := pdb, interval := [], frags := [] }
  | i :: rest, pdb =>
    let f := splice_fragment cfg off i
    if ¬ (add_u64 f.roff f.rdlen ≤ cfg.PSYNC_FS_PAGE_SIZE) then .error .assert_failed
    else if pread f.rdlen f.rdoff % 2 ^ 64 ≠ (f.rdlen : Int) then
      .ok { ret := -1, pdb := pdb, interval := i :: rest, frags := [f] }
    else
      let pdb := if add_u64 f.roff f.rdlen > pdb then add_u64 f.roff f.rdlen else pdb
      if i.to_ > add_u64 off cfg.PSYNC_FS_PAGE_SIZE then
        .ok { ret := 0, pdb := pdb, interval := i :: rest, frags := [f] }
      else
        match rest with
        | [] => .ok { ret := 0, pdb := pdb, interval := [], frags := [f] }
        | j :: _ =>
          if j.from_ ≥ add_u64 off cfg.PSYNC_FS_PAGE_SIZE then
            .ok { ret := 0, pdb := pdb, interval := rest, frags := [f] }
          else
            match splice_loop cfg pread off rest pdb with
            | .error st => .error st
            | .ok r => .ok { r with frags := f :: r.frags }

/-- What `psync_pagecache_modify_to_cache` reads from outside: the size of the staging file
(`fs`, not negative), the interval tree loaded from the index file, the return value of
`psync_file_pread` on the staging file for a length and an offset, the time, whether the read
of an old page from the pagefile delivers the bytes, and the flush cycles that run while the
free list is empty. -/
structure StagingEnv where
  fs : Nat
  tree : List psync_interval_tree_t
  pread : Nat → Nat → Int
  tm : Nat
  old_pread_ok : Bool
  rounds : List FlushEnv

/-- What the page loop did with a page: the hash rename of the old row; a whole page read from
the staging file and handed to `psync_pagecache_add_page_if_not_exists` (with the value of
`rd`); a short read of a whole page, which ends the loop; a page with old and new fragments
whose old page is not delivered by the disk tier (`pdb==-1`), which is skipped; a splice in
which a read of the staging file failed, skipped too; and a spliced page handed to
`psync_pagecache_add_page_if_not_exists`, with its fragments and its size. -/
inductive PageAction where
  | renamed
  | whole (rd : Int)
  | short_read
  | no_old_page
  | splice_failed (frags : List Fragment)
  | spliced (frags : List Fragment) (size : Nat)
deriving DecidableEq, Repr

/-- The body of the page loop of `psync_pagecache_modify_to_cache` for the page at `off`:
returns the interval pointer, the state and what was done. The transactions around the rename
statements (`tstarted`) only batch the updates and are left out; the field `size` of a page is
a `uint32_t`. -/
def modify_page (cfg : Settings) (e : StagingEnv) (hash oldhash off : Nat)
    (interval : List psync_interval_tree_t) (s : PageCache) :
    Except Stop (List psync_interval_tree_t × PageCache × PageAction) :=
  let pageid := off / cfg.PSYNC_FS_PAGE_SIZE
  match skip_intervals off interval with
  | [] => .ok ([], rename_old_page cfg s hash oldhash pageid, .renamed)
  | i :: rest =>
    if i.from_ ≥ add_u64 off cfg.PSYNC_FS_PAGE_SIZE then
      .ok (i :: rest, rename_old_page cfg s hash oldhash pageid, .renamed)
    else if i.from_ ≤ off ∧ i.to_ ≥ add_u64 off cfg.PSYNC_FS_PAGE_SIZE then
      match psync_pagecache_get_free_page cfg e.rounds s with
      | none => .error .no_free_page
      | some (page, s) =>
        let rd := e.pread cfg.PSYNC_FS_PAGE_SIZE off
        if rd < (cfg.PSYNC_FS_PAGE_SIZE : Int) ∧ ((off : Int) + rd) % 2 ^ 64 ≠ (e.fs : Int) then
          .ok (i :: rest, psync_pagecache_return_free_page s page, .short_read)
        else
          let page := { page with hash := hash, pageid := pageid, lastuse := e.tm,
                                  size := (rd % 2 ^ 32).toNat, usecnt := 1,
                                  type := PAGE_TYPE_READ }
          .ok (i :: rest, psync_pagecache_add_page_if_not_exists cfg s page hash pageid,
            .whole rd)
    else if ¬ ((i.to_ > off ∧ i.to_ ≤ add_u64 off cfg.PSYNC_FS_PAGE_SIZE) ∨
        (i.from_ ≥ off ∧ i.from_ < add_u64 off cfg.PSYNC_FS_PAGE_SIZE)) then
      .error .assert_failed
    else
      match psync_pagecache_get_free_page cfg e.rounds s with
      | none => .error .no_free_page
      | some (page, s) =>
        match check_page_in_database_by_hash e.old_pread_ok s oldhash pageid
            cfg.PSYNC_FS_PAGE_SIZE 0 with
        | (none, s) => .ok (i :: rest, psync_pagecache_return_free_page s page, .no_old_page)
        | (some pdb, s) =>
          match splice_loop cfg e.pread off (i :: rest) pdb with
          | .error st => .error st
          | .ok r =>
            if r.ret = -1 then
              .ok (r.interval, psync_pagecache_return_free_page s page, .splice_failed r.frags)
            else
              let page := { page with hash := hash, pageid := pageid, lastuse := e.tm,
                                      size := r.pdb % 2 ^ 32, usecnt := 1,
                                      type := PAGE_TYPE_READ }
              .ok (r.interval, psync_pagecache_add_page_if_not_exists cfg s page hash pageid,
                .spliced r.frags r.pdb)

/-- The loop `for (off=0; off<fs; off+=PSYNC_FS_PAGE_SIZE)` of
`psync_pagecache_modify_to_cache` from `off` on, for at most `fuel` pages; the log lists what
was done page by page. -/
def modify_pages (cfg : Settings) (e : StagingEnv) (hash oldhash : Nat) :
    Nat → Nat → List psync_interval_tree_t → PageCache →
      Except Stop (PageCache × List PageAction)
  | 0, off, _, s => if off < e.fs then .error .still_running else .ok (s, [])
  | fuel + 1, off, interval, s =>
    if off < e.fs then
      match modify_page cfg e hash oldhash off interval s with
      | .error st => .error st
      | .ok (interval, s, act) =>
        if act = .short_read then .ok (s, [act])
        else
          match modify_pages cfg e hash oldhash fuel (add_u64 off cfg.PSYNC_FS_PAGE_SIZE)
              interval s with
          | .error st => .error st
          | .ok (s, log) => .ok (s, act :: log)
    else .ok (s, [])

/-- The function `psync_pagecache_modify_to_cache` once the index and the staging file are
open: the page loop from `psync_interval_tree_get_first(tree)`. With a page size above 0 the
loop makes at most `fs` rounds. -/
def psync_pagecache_modify_to_cache (cfg : Settings) (e : StagingEnv) (hash oldhash : Nat)
    (s : PageCache) : Except Stop (PageCache × List PageAction) :=
  modify_pages cfg e hash oldhash e.fs 0 e.tree s

/-- A write interval meets page `k`, the bytes `k*PAGE_SIZE .. (k+1)*PAGE_SIZE-1`. -/
def intersects (cfg : Settings) (k : Nat) (i : psync_interval_tree_t) : Prop :=
  i.from_ < (k + 1) * cfg.PSYNC_FS_PAGE_SIZE ∧ k * cfg.PSYNC_FS_PAGE_SIZE < i.to_

/-- A write interval holds all bytes of page `k`. -/
def covers (cfg : Settings) (k : Nat) (i : psync_interval_tree_t) : Prop :=
  i.from_ ≤ k * cfg.PSYNC_FS_PAGE_SIZE ∧ (k + 1) * cfg.PSYNC_FS_PAGE_SIZE ≤ i.to_

/-- The intervals of a tree lie in increasing order, do not overlap, are not empty and end below
2^64. -/
def tree_ok (tree : List psync_interval_tree_t) : Prop :=
  tree.Pairwise (fun a b => a.to_ ≤ b.from_) ∧ ∀ i ∈ tree, i.from_ < i.to_ ∧ i.to_ < 2 ^ 64

/-- The page that the page loop of `psync_pagecache_modify_to_cache` hands to
`psync_pagecache_add_page_if_not_exists`: the free page with the fields that the loop sets
(`size` is a `uint32_t`). -/
def promoted_page (page : psync_cache_page_t) (hash pageid tm size : Nat) :
    psync_cache_page_t :=
  { page with hash := hash, pageid := pageid, lastuse := tm, size := size % 2 ^ 32, usecnt := 1,
              type := PAGE_TYPE_READ }

/-- The write intervals of a tree that meet page `k`, in the order of the tree. -/
def meeting (cfg : Settings) (tree : List psync_interval_tree_t) (k : Nat) :
    List psync_interval_tree_t :=
  tree.filter (fun i =>
    decide (i.from_ < (k + 1) * cfg.PSYNC_FS_PAGE_SIZE ∧ k * cfg.PSYNC_FS_PAGE_SIZE < i.to_))

/-- The valid size of a spliced page: the size `pdb` of the old page, raised to the end of a
fragment that ends behind it. -/
def spliced_size (pdb : Nat) (frags : List Fragment) : Nat :=
  frags.foldl (fun m f => if f.roff + f.rdlen > m then f.roff + f.rdlen else m) pdb

/-- A page is in the memory hash or in the table, or a wait entry stands for it (the three
tests of `psync_pagecache_add_page_if_not_exists`). -/
def resident_or_awaited (cfg : Settings) (s : PageCache) (hash pageid : Nat) : Prop :=
  has_page_in_memory_by_hash cfg s hash pageid = 1 ∨
    (s.wait_page_hash (waiterhash_by_hash_and_pageid hash pageid)).any
      (wait_match hash pageid) = true ∨
    has_page_in_db s hash pageid = 1

/-- What the page loop of `psync_pagecache_modify_to_cache` does with page `k` when it enters
the body in the state `s`, writes `act` to the log and leaves the body in the state `s2`. A page
that no write interval meets: the hash rename of the old row. Any other page: a free page is
taken; if an interval holds the whole page, the page is read from the staging file and handed
to `psync_pagecache_add_page_if_not_exists`; if not, the old page is looked up in the disk tier
with `check_page_in_database_by_hash`: when this returns -1 the free page goes back to the free
list and neither tier gains the page, when it returns the size `pdb` the fragments of the
intervals that meet the page are read over the old bytes and the page is handed to
`psync_pagecache_add_page_if_not_exists`. -/
def page_done (cfg : Settings) (e : StagingEnv) (hash oldhash k : Nat) (s : PageCache)
    (act : PageAction) (s2 : PageCache) : Prop :=
  ((∀ i ∈ e.tree, ¬ intersects cfg k i) →
      act = .renamed ∧ s2 = rename_old_page cfg s hash oldhash k) ∧
    ((∃ i ∈ e.tree, intersects cfg k i) → act ≠ .renamed ∧
      ∃ page s1, psync_pagecache_get_free_page cfg e.rounds s = some (page, s1) ∧
        ((∃ i ∈ e.tree, covers cfg k i) →
          act = .whole cfg.PSYNC_FS_PAGE_SIZE ∧
          s2 = psync_pagecache_add_page_if_not_exists cfg s1
            (promoted_page page hash k e.tm cfg.PSYNC_FS_PAGE_SIZE) hash k ∧
          resident_or_awaited cfg s2 hash k) ∧
        ((¬ ∃ i ∈ e.tree, covers cfg k i) →
          ((check_page_in_database_by_hash e.old_pread_ok s1 oldhash k
              cfg.PSYNC_FS_PAGE_SIZE 0).1 = none →
            act = .no_old_page ∧
            s2 = psync_pagecache_return_free_page
              (check_page_in_database_by_hash e.old_pread_ok s1 oldhash k
                cfg.PSYNC_FS_PAGE_SIZE 0).2 page ∧
            has_page_in_memory_by_hash cfg s2 hash k =
              has_page_in_memory_by_hash cfg s1 hash k ∧
            has_page_in_db s2 hash k ≤ has_page_in_db s1 hash k) ∧
          (∀ pdb, (check_page_in_database_by_hash e.old_pread_ok s1 oldhash k
              cfg.PSYNC_FS_PAGE_SIZE 0).1 = some pdb →
            act = .spliced
              ((meeting cfg e.tree k).map (splice_fragment cfg (k * cfg.PSYNC_FS_PAGE_SIZE)))
              (spliced_size pdb ((meeting cfg e.tree k).map
                (splice_fragment cfg (k * cfg.PSYNC_FS_PAGE_SIZE)))) ∧
            s2 = psync_pagecache_add_page_if_not_exists cfg
              (check_page_in_database_by_hash e.old_pread_ok s1 oldhash k
                cfg.PSYNC_FS_PAGE_SIZE 0).2
              (promoted_page page hash k e.tm (spliced_size pdb ((meeting cfg e.tree k).map
                (splice_fragment cfg (k * cfg.PSYNC_FS_PAGE_SIZE))))) hash k ∧
            resident_or_awaited cfg s2 hash k)))

/-- A staging file of `fs` bytes with the write intervals `tree`, whose reads deliver the bytes
that the file holds. -/
def toyStaging (fs : Nat) (tree : List psync_interval_tree_t) : StagingEnv :=
  { fs := fs, tree := tree, pread := fun len off => ((min len (fs - off) : Nat) : Int),
    tm := 40, old_pread_ok := true, rounds := [] }

/-- The disk tier holds the pages 0 and 2 of the old file version with hash 5 in the slots 1
and 2. -/
def toyOldPagesOnDisk : PageCache :=
  { toyPageCache with
    pagecache :=
      [{ toyFreeRow 1 with hash := some 5, pageid := some 0, type := PAGE_TYPE_READ,
                           size := 4096 },
       { toyFreeRow 2 with hash := some 5, pageid := some 2, type := PAGE_TYPE_READ,
                           size := 4096 },
       toyFreeRow 3, toyFreeRow 4]
    free_db_pages := 2 }

/-- A staging file of 12388 bytes with three write intervals: the end of page 0 with all of
page 1, 100 bytes of page 2, and the rest of the file from byte 308 of page 2 on. -/
def toyManyEdits : StagingEnv :=
  toyStaging 12388 [⟨4000, 8192⟩, ⟨8292, 8392⟩, ⟨8500, 12388⟩]

/-! # Properties -/

section KeyVault

/-- Reading back a stored `uint32_t`. -/
theorem load_store_u32 (n : Nat) (h : n < 2 ^ 32) (rest : List Nat) :
    load_u32 (store_u32 n ++ rest) 0 = n := by
  simp [load_u32, store_u32]
  omega

/-- C10. Key-blob round trip: the private and public blobs that
`psync_cloud_crypto_setup_upload` composes from a 64-byte salt and non-empty key byte strings are
parsed by `psync_cloud_crypto_download_keys` with success, giving back the same private-key
bytes, public-key bytes and salt, salt length 64 and 20000 iterations; and a pair of blobs in
which one has a type code that is not the recognized one, or is no longer than its header, is
answered with `PSYNC_CRYPTO_START_UNKNOWN_KEY_FORMAT`. -/
theorem key_blob_round_trip (tc : TypeCodes) (htc : tc.fits) (salt rsapriv rsapub : List Nat)
    (hsalt : salt.length = 64) (hpriv : rsapriv ≠ []) (hpub : rsapub ≠ []) :
    download_keys_parse tc (setup_upload_priv tc rsapriv salt) (setup_upload_pub tc rsapub) =
        (PSYNC_CRYPTO_START_SUCCESS,
          some { rsapriv := rsapriv, rsapub := rsapub, salt := salt, saltlen := 64,
                 iterations := 20000 }) ∧
      ∀ privstruct pubstruct : List Nat,
        (load_u32 pubstruct 0 ≠ tc.PSYNC_CRYPTO_PUB_TYPE_RSA4096 ∨
          pubstruct.length ≤ offsetof_pub_key_ver1_key ∨
          load_u32 privstruct 0 ≠ tc.PSYNC_CRYPTO_TYPE_RSA4096_64BYTESALT_20000IT ∨
          privstruct.length ≤ offsetof_priv_key_ver1_key) →
        download_keys_parse tc privstruct pubstruct =
          (PSYNC_CRYPTO_START_UNKNOWN_KEY_FORMAT, none) := by
  obtain ⟨h1, h2, _⟩ := htc
  constructor
  · have hpl : 0 < rsapriv.length := List.length_pos.mpr hpriv
    have hbl : 0 < rsapub.length := List.length_pos.mpr hpub
    have e1 : load_u32 (setup_upload_pub tc rsapub) 0 = tc.PSYNC_CRYPTO_PUB_TYPE_RSA4096 := by
      unfold setup_upload_pub
      rw [List.append_assoc]
      exact load_store_u32 _ h2 _
    have e2 : load_u32 (setup_upload_priv tc rsapriv salt) 0 =
        tc.PSYNC_CRYPTO_TYPE_RSA4096_64BYTESALT_20000IT := by
      unfold setup_upload_priv
      rw [List.append_assoc, List.append_assoc]
      exact load_store_u32 _ h1 _
    have l1 : (setup_upload_pub tc rsapub).length = 8 + rsapub.length := by
      simp [setup_upload_pub, store_u32]; omega
    have l2 : (setup_upload_priv tc rsapriv salt).length = 72 + rsapriv.length := by
      simp [setup_upload_priv, store_u32, PSYNC_CRYPTO_PBKDF2_SALT_LEN, hsalt]; omega
    have t64 : salt.take 64 = salt := List.take_of_length_le (by omega)
    have d1 : (setup_upload_pub tc rsapub).drop 8 = rsapub := by
      simp [setup_upload_pub, store_u32]
    have d2 : (setup_upload_priv tc rsapriv salt).drop 72 = rsapriv := by
      have : setup_upload_priv tc rsapriv salt =
          (store_u32 tc.PSYNC_CRYPTO_TYPE_RSA4096_64BYTESALT_20000IT ++ store_u32 0 ++ salt) ++
            rsapriv := by
        simp [setup_upload_priv, PSYNC_CRYPTO_PBKDF2_SALT_LEN, t64]
      rw [this]
      exact List.drop_left' (by simp [store_u32, hsalt])
    have d3 : ((setup_upload_priv tc rsapriv salt).drop 8).take 64 = salt := by
      have : (setup_upload_priv tc rsapriv salt).drop 8 = salt ++ rsapriv := by
        simp [setup_upload_priv, store_u32, PSYNC_CRYPTO_PBKDF2_SALT_LEN, t64]
      rw [this]
      exact List.take_left' hsalt
    have g1 : ¬ (8 ≥ (setup_upload_pub tc rsapub).length) := by omega
    have g2 : ¬ (8 + 64 ≥ (setup_upload_priv tc rsapriv salt).length) := by omega
    simp only [download_keys_parse, offsetof_pub_key_ver1_key,
      offsetof_priv_key_ver1_key, offsetof_priv_key_ver1_salt, PSYNC_CRYPTO_PBKDF2_SALT_LEN,
      PSYNC_CRYPTO_PASS_TO_KEY_ITERATIONS]
    rw [if_pos e1, if_neg g1, if_pos e2, if_neg g2, d1, d2, d3]
  · intro privstruct pubstruct h
    unfold download_keys_parse
    split_ifs <;> first | rfl | (exfalso; omega)

/-- C10, evaluated: a salt of 64 bytes 1, a two-byte private and a one-byte public key. -/
theorem key_blob_round_trip_witness :
    download_keys_parse toyCodes (setup_upload_priv toyCodes [48, 7] (List.replicate 64 1))
        (setup_upload_pub toyCodes [48]) =
      (PSYNC_CRYPTO_START_SUCCESS,
        some { rsapriv := [48, 7], rsapub := [48], salt := List.replicate 64 1, saltlen := 64,
               iterations := 20000 }) :=
  (key_blob_round_trip toyCodes (by simp [TypeCodes.fits, toyCodes]) (List.replicate 64 1) [48, 7] [48] (by decide)
    (by decide) (by decide)).1

/-- `strlen` of a buffer without NUL byte is its length. -/
theorem strlen_of_no_nul (buf : List Nat) (h : 0 ∉ buf) : buf.take (strlen buf) = buf := by
  have : buf.takeWhile (fun b => b != 0) = buf := by
    rw [List.takeWhile_eq_self_iff]
    intro b hb
    have : b ≠ 0 := fun hb0 => h (hb0 ▸ hb)
    simpa using this
  unfold strlen
  rw [this]
  exact List.take_length buf

/-- C9. File-name round trip: for a name without NUL byte,
`psync_cloud_crypto_decode_filename` applied to the output of
`psync_cloud_crypto_encode_filename` returns the name, when the text decoder inverts the text
encoder and base32 decoding inverts base32 encoding (whose output, base32 text, holds no NUL
byte, so that `strlen` sees all of it). -/
theorem filename_round_trip (c : NameCodec) (name : List Nat) (hname : 0 ∉ name)
    (htext : ∀ n, c.psync_crypto_aes256_decode_text (c.psync_crypto_aes256_encode_text n) = some n)
    (hb32 : ∀ d, c.psync_base32_decode (c.psync_base32_encode d) = some d)
    (hb32text : ∀ d, 0 ∉ c.psync_base32_encode d) :
    psync_cloud_crypto_decode_filename c (psync_cloud_crypto_encode_filename c name) =
      some name := by
  unfold psync_cloud_crypto_decode_filename psync_cloud_crypto_encode_filename
  simp only [strlen_of_no_nul name hname, strlen_of_no_nul _ (hb32text _), hb32, htext]

/-- C9, evaluated on the name with the bytes 114, 101, 112. -/
theorem filename_round_trip_witness :
    psync_cloud_crypto_decode_filename toyNameCodec
      (psync_cloud_crypto_encode_filename toyNameCodec [114, 101, 112]) = some [114, 101, 112] :=
  filename_round_trip toyNameCodec [114, 101, 112] (by decide)
    (by intro n; simp [toyNameCodec])
    (by intro d; simp [toyNameCodec, Function.comp_def])
    (by intro d; simp [toyNameCodec])

/-- C8. For a file id (positive or not) whose plaintext key was obtained,
`psync_crypto_get_file_encoder_locked` builds a sector codec exactly when the key has the type
`PSYNC_CRYPTO_SYM_AES256_1024BIT_HMAC`, the length 104 and the `IS_DIR` flag clear (the codec is
then the one created from the AES and HMAC keys); in every other case it returns
`PSYNC_CRYPTO_INVALID_KEY`. -/
theorem file_encoder_iff {B : Backend} (tc : TypeCodes) (s s1 : Vault B) (fileid : Nat)
    (nonetwork : Bool) (src : EncKeySource) (symkey : List Nat)
    (hkey : psync_crypto_get_file_symkey_locked s fileid nonetwork src = (.ptr symkey, s1)) :
    ((∃ enc, (psync_crypto_get_file_encoder_locked tc s fileid nonetwork src).1 = .ptr enc) ↔
        is_file_key tc symkey) ∧
      (is_file_key tc symkey →
        (psync_crypto_get_file_encoder_locked tc s fileid nonetwork src).1 =
          .ptr (B.psync_crypto_aes256_sector_encoder_decoder_create
            (psync_crypto_sym_key_ver1_to_sym_key symkey))) ∧
      (¬ is_file_key tc symkey →
        (psync_crypto_get_file_encoder_locked tc s fileid nonetwork src).1 =
          .error PSYNC_CRYPTO_INVALID_KEY) := by
  unfold psync_crypto_get_file_encoder_locked is_file_key
  rw [hkey]
  simp only [sizeof_sym_key_ver1, PSYNC_AES256_KEY_SIZE, PSYNC_CRYPTO_HMAC_SHA512_KEY_LEN]
  split_ifs with h1 h2 h3 <;> simp_all

/-- C8, evaluated: the file key of `toyFileKeySource` gives the codec of its 96 key bytes. -/
theorem file_encoder_iff_witness :
    (psync_crypto_get_file_encoder_locked toyCodes toyVault 5 false toyFileKeySource).1 =
      .ptr (List.replicate 96 7) :=
  (file_encoder_iff toyCodes toyVault toyVault 5 false toyFileKeySource toyFileKey
    rfl).2.1 (by unfold is_file_key; decide)

/-- C7, at the failing input: for the positive folder id 5 whose decrypted key has the
recognized type, the length 104 and the `IS_DIR` flag clear, the folder encoder getter returns
`PSYNC_CRYPTO_INVALID_KEY`, but the folder decoder getter, which has no flag test, builds a
decoder from the file key. -/
theorem folder_decoder_accepts_file_key :
    is_file_key toyCodes toyFileKey ∧
      (psync_crypto_get_folder_symkey_locked toyVault 5 toyFileKeySource).1 = .ptr toyFileKey ∧
      (psync_crypto_get_folder_encoder_locked toyCodes toyVault 5 toyFileKeySource).1 =
        .error PSYNC_CRYPTO_INVALID_KEY ∧
      (psync_crypto_get_folder_decoder_locked toyCodes toyVault 5 toyFileKeySource).1 =
        .ptr (List.replicate 96 7) := by
  refine ⟨by unfold is_file_key; decide, rfl, rfl, rfl⟩

/-- On a stopped vault the locked body of `start` ends started with success, or stopped with
another code. -/
theorem crypto_start_locked_cases {B : Backend} (tc : TypeCodes) (e : StartEnv)
    (password : List Nat) (s : Vault B) (hs : s.stopped) :
    ((crypto_start_locked tc e password s).1 = PSYNC_CRYPTO_START_SUCCESS ∧
        (crypto_start_locked tc e password s).2.started) ∨
      ((crypto_start_locked tc e password s).1 ≠ PSYNC_CRYPTO_START_SUCCESS ∧
        (crypto_start_locked tc e password s).2.stopped) := by
  obtain ⟨h1, h2, h3, h4⟩ := hs
  have hk : ∀ ret, crypto_start_load_keys tc e = (ret, none) →
      ret ≠ PSYNC_CRYPTO_START_SUCCESS := by
    intro ret h
    unfold crypto_start_load_keys at h
    split_ifs at h
    · unfold psync_cloud_crypto_download_keys at h
      split at h
      · cases h; decide
      · split_ifs at h
        · cases h; decide
        · cases h; decide
        · cases h; decide
        · unfold download_keys_parse at h
          split_ifs at h <;> cases h <;> decide
    · cases h
  unfold crypto_start_locked
  split
  · next ret hr =>
    right
    exact ⟨hk ret hr, h1, h2, h3, h4⟩
  · next ret k hr =>
    dsimp only
    split_ifs with c1 c2 c3
    · right
      refine ⟨by dsimp only; decide, h1, h2, ?_, h4⟩
      simpa using c1
    · right
      refine ⟨by dsimp only; decide, h1, h2, rfl, ?_⟩
      simpa using c2
    · right
      exact ⟨by dsimp only; decide, h1, h2, rfl, rfl⟩
    · left
      refine ⟨rfl, rfl, rfl, ?_, ?_⟩
      · cases hx : B.psync_ssl_rsa_load_public k.rsapub <;> simp_all
      · cases hx : B.psync_ssl_rsa_load_private (crypto_start_rsaprivdec B password k) <;>
          simp_all

/-- The retry loop of `start` does what the locked body does on a vault whose flag is clear. -/
theorem crypto_start_retry_eq {B : Backend} (tc : TypeCodes) (e : StartEnv)
    (password : List Nat) (n : Nat) (s : Vault B) (hs : s.crypto_started_l = 0) :
    crypto_start_retry tc e password n s = crypto_start_locked tc e password s := by
  induction n with
  | zero => simp [crypto_start_retry, hs]
  | succ n ih => simp [crypto_start_retry, hs, ih]

/-- On a vault whose flag is set `start` changes nothing. -/
theorem crypto_start_retry_started {B : Backend} (tc : TypeCodes) (e : StartEnv)
    (password : List Nat) (n : Nat) (s : Vault B) (hs : s.crypto_started_l ≠ 0) :
    crypto_start_retry tc e password n s = (PSYNC_CRYPTO_START_ALREADY_STARTED, s) := by
  cases n <;> simp [crypto_start_retry, hs]

/-- Between two calls the vault is stopped or started. -/
theorem Vault.Reachable.stopped_or_started {B : Backend} {s : Vault B} (h : s.Reachable) :
    s.stopped ∨ s.started := by
  induction h with
  | init => left; exact ⟨rfl, rfl, rfl, rfl⟩
  | start tc e password s _ ih =>
    rcases ih with ih | ih
    · unfold psync_cloud_crypto_start
      rw [crypto_start_retry_eq tc e password _ s ih.1]
      rcases crypto_start_locked_cases tc e password s ih with h | h
      · exact Or.inr h.2
      · exact Or.inl h.2
    · right
      unfold psync_cloud_crypto_start
      rw [crypto_start_retry_started tc e password _ s (by rw [ih.1]; decide)]
      exact ih
  | stop s _ ih =>
    left
    unfold psync_cloud_crypto_stop
    rcases ih with ih | ih
    · obtain ⟨h1, h2, h3, h4⟩ := ih
      simp only [h1, if_true]
      exact ⟨rfl, rfl, h3, h4⟩
    · have : s.crypto_started_l ≠ 0 := by rw [ih.1]; decide
      simp only [this, if_false]
      exact ⟨rfl, rfl, rfl, rfl⟩
  | cache s fkey dkey flde fldd seen _ ih =>
    rcases ih with ih | ih
    · exact Or.inl ih
    · exact Or.inr ih

/-- C5. `psync_cloud_crypto_start` called on a not-started vault: if the RSA parser rejects the
decrypted private-key bytes (the key set was obtained and the public key was loaded), the
return value is `PSYNC_CRYPTO_START_BAD_PASSWORD`; and with every return value other than
`PSYNC_CRYPTO_START_SUCCESS` the vault is left not started, both started flags clear and the
public and the private key handle invalid. -/
theorem start_failure_leaves_not_started {B : Backend} (tc : TypeCodes) (e : StartEnv)
    (password : List Nat) (s : Vault B) (hs : s.Reachable) (hns : s.crypto_started_l = 0) :
    (∀ ret k, crypto_start_load_keys tc e = (ret, some k) →
        (B.psync_ssl_rsa_load_public k.rsapub).isSome = true →
        B.psync_ssl_rsa_load_private (crypto_start_rsaprivdec B password k) = none →
        (psync_cloud_crypto_start tc e password s).1 = PSYNC_CRYPTO_START_BAD_PASSWORD) ∧
      ((psync_cloud_crypto_start tc e password s).1 ≠ PSYNC_CRYPTO_START_SUCCESS →
        (psync_cloud_crypto_start tc e password s).2.crypto_started_l = 0 ∧
        (psync_cloud_crypto_start tc e password s).2.crypto_started_un = 0 ∧
        (psync_cloud_crypto_start tc e password s).2.crypto_pubkey = none ∧
        (psync_cloud_crypto_start tc e password s).2.crypto_privkey = none) := by
  have hst : s.stopped := by
    rcases hs.stopped_or_started with h | h
    · exact h
    · rw [h.1] at hns; cases hns
  unfold psync_cloud_crypto_start
  rw [crypto_start_retry_eq tc e password _ s hns]
  constructor
  · intro ret k hk hpub hpriv
    have hpub0 : (B.psync_ssl_rsa_load_public k.rsapub).isNone = false := by
      cases hx : B.psync_ssl_rsa_load_public k.rsapub <;> simp_all
    unfold crypto_start_locked
    rw [hk]
    simp [hpub0, hpriv]
  · intro hne
    rcases crypto_start_locked_cases tc e password s hst with h | h
    · exact absurd h.1 hne
    · exact h.2

/-- C5, evaluated: the key store of `toyStartEnv` and a password that starts with the byte 2
instead of 1. -/
theorem start_failure_leaves_not_started_witness :
    (psync_cloud_crypto_start toyCodes toyStartEnv [2] (Vault.init toyBackend)).1 =
      PSYNC_CRYPTO_START_BAD_PASSWORD :=
  (start_failure_leaves_not_started toyCodes toyStartEnv [2] (Vault.init toyBackend)
    Vault.Reachable.init rfl).1 PSYNC_CRYPTO_START_SUCCESS
    { rsapriv := [47, 5], rsapub := [48, 6], salt := List.replicate 64 1, saltlen := 64,
      iterations := 20000 } rfl rfl rfl

/-- C6. `psync_cloud_crypto_stop` is idempotent on the vault state: in every state a second stop
leaves the state of the first, with both started flags clear; in every state the program can be
in, the public and the private key handle are invalid after a stop, and a stop on a not-started
vault returns `PSYNC_CRYPTO_STOP_NOT_STARTED` and changes nothing. -/
theorem stop_idempotent {B : Backend} (s : Vault B) :
    (psync_cloud_crypto_stop (psync_cloud_crypto_stop s).2).2 = (psync_cloud_crypto_stop s).2 ∧
      (psync_cloud_crypto_stop s).2.crypto_started_l = 0 ∧
      (psync_cloud_crypto_stop s).2.crypto_started_un = 0 ∧
      (s.Reachable →
        (psync_cloud_crypto_stop s).2.crypto_pubkey = none ∧
        (psync_cloud_crypto_stop s).2.crypto_privkey = none ∧
        (s.crypto_started_l = 0 →
          psync_cloud_crypto_stop s = (PSYNC_CRYPTO_STOP_NOT_STARTED, s))) := by
  by_cases h : s.crypto_started_l = 0
  · refine ⟨?_, ?_, ?_, ?_⟩
    · simp [psync_cloud_crypto_stop, h]
    · simp [psync_cloud_crypto_stop, h]
    · simp [psync_cloud_crypto_stop, h]
    · intro hr
      have hst : s.stopped := by
        rcases hr.stopped_or_started with h1 | h1
        · exact h1
        · rw [h1.1] at h; cases h
      obtain ⟨h1, h2, h3, h4⟩ := hst
      refine ⟨?_, ?_, ?_⟩
      · simp [psync_cloud_crypto_stop, h, h3]
      · simp [psync_cloud_crypto_stop, h, h4]
      · intro _
        simp only [psync_cloud_crypto_stop, h, if_true]
        cases s
        simp_all
  · refine ⟨?_, ?_, ?_, ?_⟩
    · simp [psync_cloud_crypto_stop, h, psync_cache_clean_all]
    · simp [psync_cloud_crypto_stop, h, psync_cache_clean_all]
    · simp [psync_cloud_crypto_stop, h, psync_cache_clean_all]
    · intro _
      refine ⟨?_, ?_, ?_⟩
      · simp [psync_cloud_crypto_stop, h, psync_cache_clean_all]
      · simp [psync_cloud_crypto_stop, h, psync_cache_clean_all]
      · intro h0
        exact absurd h0 h

/-- C6, evaluated on the vault that `start` leaves with the key store of `toyStartEnv` and the
right password: after the stop both key handles are invalid. -/
theorem stop_idempotent_witness :
    (psync_cloud_crypto_start toyCodes toyStartEnv [1] (Vault.init toyBackend)).1 =
        PSYNC_CRYPTO_START_SUCCESS ∧
      (psync_cloud_crypto_stop
        (psync_cloud_crypto_start toyCodes toyStartEnv [1] (Vault.init toyBackend)).2).1 =
        PSYNC_CRYPTO_STOP_SUCCESS ∧
      (psync_cloud_crypto_stop
        (psync_cloud_crypto_start toyCodes toyStartEnv [1]
          (Vault.init toyBackend)).2).2.crypto_privkey = none :=
  ⟨rfl, rfl,
    ((stop_idempotent
      (psync_cloud_crypto_start toyCodes toyStartEnv [1] (Vault.init toyBackend)).2).2.2.2
      (Vault.Reachable.start toyCodes toyStartEnv [1] _ Vault.Reachable.init)).2.1⟩

end KeyVault

section PageCacheRuns

/-- C1, at the failing input. The fetch of a request with the ranges of page 0 and page 2 reads
page 0, gets 404 for the second range and retries the whole request; a flush cycle in between
moves page 0 to the disk tier, and the second pass reads page 0 into the memory hash again: the
page is resident in both tiers (with or without the unique index on the table). The same holds
after the hash rename of an old page whose new version is in the memory tier already. -/
theorem page_resident_in_both_tiers :
    (∀ hash pageid, ¬ (has_page_in_memory_by_hash (toySettings true) toyPageCache hash pageid = 1 ∧
        has_page_in_db toyPageCache hash pageid = 1)) ∧
      (∀ u, (toyRetryRun u).map (fun s =>
        (has_page_in_memory_by_hash (toySettings u) s 7 0, has_page_in_db s 7 0)) =
          some (1, 1)) ∧
      (∀ u, (toyRenameRun u).map (fun s =>
        (has_page_in_memory_by_hash (toySettings u) s 7 0, has_page_in_db s 7 0)) =
          some (1, 1)) := by
  refine ⟨?_, ?_, ?_⟩
  · intro hash pageid h
    simp [has_page_in_memory_by_hash, toyPageCache] at h
  · intro u; cases u <;> rfl
  · intro u; cases u <;> rfl

/-- C3, at the failing input. A read of 12288 bytes at offset 0 finds page 1 cached and waits
for the pages 0 and 2; page 0 arrives with the valid size 100 and page 2 with the valid size 50.
The read returns 8242 although byte 100 of the buffer was never copied. -/
theorem read_returns_beyond_missing_byte :
    toyRead.waiting = [0, 1] ∧ toyRead.copies = [(4096, 4096)] ∧
      toyReadOutcome ⟨0, [100]⟩ ⟨0, [50]⟩ = some (8242, false, 0, 1) := by
  refine ⟨rfl, rfl, rfl⟩

/-- C4, refuted at a concrete input. The request of `toyRead` holds the range of page 0 and the
range of page 2; the read of the first range fails fatally. The waiter of page 2, a page of the
other range that was not read yet, receives `-EIO`, and the second range is never read. -/
theorem error_reaches_other_range :
    toyRead.request = some toyRequest ∧
      (toyRead.s.waiters.get? 1).map (fun pwt => pwt.pageidx) = some 2 ∧
      toyReadOutcome ⟨0, [-1]⟩ ⟨0, [4096]⟩ = some (- EIO, false, - EIO, 0) := by
  refine ⟨rfl, rfl, rfl⟩

end PageCacheRuns

section WaitIndex

theorem set_waiter_getElem? (s : PageCache) (id id' : Nat)
    (f : psync_page_waiter_t → psync_page_waiter_t) :
    (set_waiter s id f).waiters[id']? =
      if id = id' then (s.waiters[id']?).map f else s.waiters[id']? := by
  simp only [set_waiter, List.getElem?_modify]
  split_ifs <;> simp

theorem set_waiter_wait_page_hash (s : PageCache) (id : Nat)
    (f : psync_page_waiter_t → psync_page_waiter_t) :
    (set_waiter s id f).wait_page_hash = s.wait_page_hash := rfl

theorem set_waiter_length (s : PageCache) (id : Nat)
    (f : psync_page_waiter_t → psync_page_waiter_t) :
    (set_waiter s id f).waiters.length = s.waiters.length := by
  simp [set_waiter]

/-- Handing the error to a list of waiters: the index is untouched, the heap keeps its length,
a waiter that has the error keeps it and every listed waiter of the heap has it. -/
theorem mark_waiters_spec (err : Int) (ids : List Nat) (s : PageCache) :
    let s' := ids.foldl
      (fun acc id => set_waiter acc id (fun pwt => { pwt with error := err, ready := 1 })) s
    s'.wait_page_hash = s.wait_page_hash ∧ s'.waiters.length = s.waiters.length ∧
      (∀ id, waiter_has_error s id err → waiter_has_error s' id err) ∧
      (∀ id ∈ ids, id < s.waiters.length → waiter_has_error s' id err) := by
  induction ids generalizing s with
  | nil => simp
  | cons a rest ih =>
    simp only [List.foldl_cons]
    obtain ⟨h1, h2, h3, h4⟩ := ih
      (set_waiter s a (fun pwt => { pwt with error := err, ready := 1 }))
    have keep : ∀ id, waiter_has_error s id err →
        waiter_has_error (set_waiter s a (fun pwt => { pwt with error := err, ready := 1 }))
          id err := by
      rintro id ⟨w, hw, he, hr⟩
      by_cases hid : a = id
      · exact ⟨{ w with error := err, ready := 1 }, by simp [set_waiter_getElem?, hid, hw],
          rfl, rfl⟩
      · exact ⟨w, by simp [set_waiter_getElem?, hid, hw], he, hr⟩
    refine ⟨by rw [h1]; rfl, by rw [h2, set_waiter_length], fun id hid => h3 id (keep id hid), ?_⟩
    intro id hmem hlt
    rcases List.mem_cons.mp hmem with rfl | hmem
    · apply h3
      obtain ⟨w, hw⟩ : ∃ w, s.waiters[id]? = some w :=
        ⟨s.waiters[id], List.getElem?_eq_getElem hlt⟩
      exact ⟨{ w with error := err, ready := 1 }, by simp [set_waiter_getElem?, hw], rfl, rfl⟩
    · exact h4 id hmem (by rw [set_waiter_length]; exact hlt)

end WaitIndex

section SendError

theorem find?_eraseP_disjoint {α : Type} (p q : α → Bool) (l : List α)
    (hpq : ∀ x, p x = true → q x = true → False) : (l.eraseP p).find? q = l.find? q := by
  induction l with
  | nil => rfl
  | cons a rest ih =>
    by_cases hp : p a = true
    · have hq : q a = false := by
        cases hqa : q a
        · rfl
        · exact absurd hqa (fun h => hpq a hp h)
      simp [List.eraseP_cons, hp, List.find?_cons, hq]
    · simp only [List.eraseP_cons, hp, List.find?_cons]
      simp only [Bool.false_eq_true, ↓reduceIte, cond_false, List.find?_cons, ih]

theorem wait_match_iff (hash pageid : Nat) (pw : psync_page_wait_t) :
    wait_match hash pageid pw = true ↔ pw.hash = hash ∧ pw.pageid = pageid := by
  simp [wait_match]

/-- One page of `psync_pagecache_send_range_error`: the look-up in the bucket and, on a hit,
`psync_pagecache_send_error_page_wait`. -/
theorem send_error_page_spec (hash pageid : Nat) (err : Int) (s : PageCache) :
    let h := waiterhash_by_hash_and_pageid hash pageid
    let s' := match (s.wait_page_hash h).find? (wait_match hash pageid) with
      | some pw => psync_pagecache_send_error_page_wait s h pw err
      | none => s
    s'.waiters.length = s.waiters.length ∧
      (∀ id, waiter_has_error s id err → waiter_has_error s' id err) ∧
      (∀ pw, (s.wait_page_hash h).find? (wait_match hash pageid) = some pw →
        ∀ id ∈ pw.waiters, id < s.waiters.length → waiter_has_error s' id err) ∧
      (∀ hash' pageid', (hash' ≠ hash ∨ pageid' ≠ pageid) → ∀ h',
        (s'.wait_page_hash h').find? (wait_match hash' pageid') =
          (s.wait_page_hash h').find? (wait_match hash' pageid')) := by
  intro h
  cases hf : (s.wait_page_hash h).find? (wait_match hash pageid) with
  | none => simp
  | some pw =>
    simp only
    have hm := (wait_match_iff hash pageid pw).mp (List.find?_some hf)
    obtain ⟨h1, h2, h3, h4⟩ := mark_waiters_spec err pw.waiters
      (wait_hash_del s h pw.hash pw.pageid)
    refine ⟨h2, fun id hid => h3 id hid, ?_, ?_⟩
    · intro pw' hpw' id hid hlt
      cases hpw'
      exact h4 id hid hlt
    · intro hash' pageid' hne h'
      unfold psync_pagecache_send_error_page_wait
      rw [h1]
      unfold wait_hash_del
      by_cases hh : h' = h
      · subst hh
        simp only [Function.update_same]
        apply find?_eraseP_disjoint
        intro x hx1 hx2
        rw [wait_match_iff] at hx1 hx2
        rcases hne with hne | hne
        · exact hne (by rw [← hx2.1, hx1.1, hm.1])
        · exact hne (by rw [← hx2.2, hx1.2, hm.2])
      · simp only [Function.update_noteq hh]

theorem send_range_error_pages_spec (request : psync_request_t) (first : Nat) (err : Int) :
    ∀ (n i : Nat) (s : PageCache),
      (send_range_error_pages request first err n i s).waiters.length = s.waiters.length ∧
      (∀ id, waiter_has_error s id err →
        waiter_has_error (send_range_error_pages request first err n i s) id err) ∧
      (∀ p, first + i ≤ p → p < first + i + n → ∀ pw,
        (s.wait_page_hash (waiterhash_by_hash_and_pageid request.of_hash p)).find?
          (wait_match request.of_hash p) = some pw →
        ∀ id ∈ pw.waiters, id < s.waiters.length →
          waiter_has_error (send_range_error_pages request first err n i s) id err) ∧
      (∀ hash' p', (hash' ≠ request.of_hash ∨ p' < first + i ∨ first + i + n ≤ p') → ∀ h',
        ((send_range_error_pages request first err n i s).wait_page_hash h').find?
            (wait_match hash' p') =
          (s.wait_page_hash h').find? (wait_match hash' p')) := by
  intro n
  induction n with
  | zero =>
    intro i s
    refine ⟨rfl, fun _ h => h, ?_, fun _ _ _ _ => rfl⟩
    intro p h1 h2
    omega
  | succ n ih =>
    intro i s
    obtain ⟨a1, a2, a3, a4⟩ := send_error_page_spec request.of_hash (first + i) err s
    simp only [send_range_error_pages]
    generalize hs1 : (match (s.wait_page_hash
        (waiterhash_by_hash_and_pageid request.of_hash (first + i))).find?
        (wait_match request.of_hash (first + i)) with
      | some pw => psync_pagecache_send_error_page_wait s
          (waiterhash_by_hash_and_pageid request.of_hash (first + i)) pw err
      | none => s) = s1 at a1 a2 a3 a4
    obtain ⟨b1, b2, b3, b4⟩ := ih (i + 1) s1
    refine ⟨by rw [b1, a1], fun id hid => b2 id (a2 id hid), ?_, ?_⟩
    · intro p hp1 hp2 pw hpw id hid hlt
      by_cases hp : p = first + i
      · subst hp
        exact b2 id (a3 pw hpw id hid hlt)
      · apply b3 p (by omega) (by omega) pw _ id hid (by rw [a1]; exact hlt)
        rw [a4 request.of_hash p (Or.inr hp)]
        exact hpw
    · intro hash' p' hne h'
      rw [b4 hash' p' (by rcases hne with h | h | h; exact Or.inl h; exact Or.inr (Or.inl (by omega)); exact Or.inr (Or.inr (by omega))) h']
      apply a4
      rcases hne with h | h | h
      · exact Or.inl h
      · exact Or.inr (by omega)
      · exact Or.inr (by omega)

end SendError

section FetchFailure

theorem send_error_spec (cfg : Settings) (request : psync_request_t) (err : Int) :
    ∀ (ranges : List psync_request_range_t) (s : PageCache),
      (ranges.foldl (fun s range => psync_pagecache_send_range_error cfg range request err s)
        s).waiters.length = s.waiters.length ∧
      (∀ id, waiter_has_error s id err →
        waiter_has_error
          (ranges.foldl (fun s range => psync_pagecache_send_range_error cfg range request err s)
            s) id err) ∧
      (∀ range ∈ ranges, ∀ i, i < range.length / cfg.PSYNC_FS_PAGE_SIZE → ∀ pw,
        (s.wait_page_hash (waiterhash_by_hash_and_pageid request.of_hash
            (range.offset / cfg.PSYNC_FS_PAGE_SIZE + i))).find?
          (wait_match request.of_hash (range.offset / cfg.PSYNC_FS_PAGE_SIZE + i)) = some pw →
        ∀ id ∈ pw.waiters, id < s.waiters.length →
          waiter_has_error
            (ranges.foldl (fun s range => psync_pagecache_send_range_error cfg range request err s)
              s) id err) := by
  intro ranges
  induction ranges with
  | nil =>
    intro s
    refine ⟨rfl, fun _ h => h, ?_⟩
    intro range hr
    cases hr
  | cons r rest ih =>
    intro s
    simp only [List.foldl_cons]
    obtain ⟨a1, a2, a3, a4⟩ := send_range_error_pages_spec request
      (r.offset / cfg.PSYNC_FS_PAGE_SIZE) err (r.length / cfg.PSYNC_FS_PAGE_SIZE) 0 s
    obtain ⟨b1, b2, b3⟩ := ih (psync_pagecache_send_range_error cfg r request err s)
    unfold psync_pagecache_send_range_error at b1 b2 b3 ⊢
    refine ⟨by rw [b1, a1], fun id hid => b2 id (a2 id hid), ?_⟩
    intro range hr i hi pw hpw id hid hlt
    by_cases hp : r.offset / cfg.PSYNC_FS_PAGE_SIZE ≤ range.offset / cfg.PSYNC_FS_PAGE_SIZE + i ∧
        range.offset / cfg.PSYNC_FS_PAGE_SIZE + i <
          r.offset / cfg.PSYNC_FS_PAGE_SIZE + r.length / cfg.PSYNC_FS_PAGE_SIZE
    · exact b2 id (a3 _ (by omega) (by omega) pw hpw id hid hlt)
    · rcases List.mem_cons.mp hr with rfl | hr
      · exact absurd ⟨by omega, by omega⟩ hp
      · apply b3 range hr i hi pw _ id hid (by rw [a1]; exact hlt)
        rw [a4 request.of_hash _ (Or.inr (by omega))]
        exact hpw

/-- C4, amended. When a range of a fetch request fails fatally (the read of the ranges stops
with a return value other than 0 and 1), the thread reads no further range and ends with
`psync_pagecache_send_error` on the whole request: every waiter of a wait entry that is still
there for a page of any range of the request, the failed one or another, is handed `-EIO`. -/
theorem fatal_error_fails_whole_request (cfg : Settings) (request : psync_request_t)
    (t : SockTry) (later : List SockTry) (s s' : PageCache) (err : Int)
    (hurls : t.urls = true) (hranges : request.ranges ≠ []) (hconn : t.connect = true)
    (hreq : (List.range request.ranges.length).all (fun k => t.request_ok.getD k false) = true)
    (hread : read_ranges_from_sock cfg t request request.ranges 0
      (t.flushes_before.foldl (fun s env => (flush_pages cfg env s).2) s) = some (err, s'))
    (hfatal : err ≠ 0 ∧ err ≠ 1) :
    psync_pagecache_read_unmodified_thread cfg true request (t :: later) s =
        some (psync_pagecache_send_error cfg request (- EIO) s') ∧
      ∀ range ∈ request.ranges, ∀ i, i < range.length / cfg.PSYNC_FS_PAGE_SIZE → ∀ pw,
        (s'.wait_page_hash (waiterhash_by_hash_and_pageid request.of_hash
            (range.offset / cfg.PSYNC_FS_PAGE_SIZE + i))).find?
          (wait_match request.of_hash (range.offset / cfg.PSYNC_FS_PAGE_SIZE + i)) = some pw →
        ∀ id ∈ pw.waiters, id < s'.waiters.length →
          waiter_has_error (psync_pagecache_send_error cfg request (- EIO) s') id (- EIO) := by
  constructor
  · have hne : request.ranges.isEmpty = false := by
      cases hr : request.ranges with
      | nil => exact absurd hr hranges
      | cons a l => rfl
    simp only [psync_pagecache_read_unmodified_thread, psync_pagecache_read_unmodified_thread.retry,
      hurls, hconn, hreq, hne, hread]
    simp [hfatal.1, hfatal.2]
  · exact (send_error_spec cfg request (- EIO) request.ranges s').2.2

end FetchFailure

section FetchFailureRun

/-- C4 amended, evaluated: in the run of `error_reaches_other_range` the waiter of page 2, a
page of the second range, is handed `-EIO` when the first range fails. -/
theorem fatal_error_fails_whole_request_witness :
    waiter_has_error
      (psync_pagecache_send_error (toySettings true) toyRequest (- EIO) toyFailedState) 1 (- EIO) :=
  (fatal_error_fails_whole_request (toySettings true) toyRequest
    (toyTry [] ⟨0, [-1]⟩ ⟨0, [4096]⟩) [] toyRead.s toyFailedState (-1) rfl (by decide) rfl rfl rfl
    ⟨by decide, by decide⟩).2 ⟨8192, 4096⟩ (by decide) 0 (by decide)
    { waiters := [1], hash := 7, pageid := 2, fileid := 3 } rfl 1 (by decide) (by decide)

end FetchFailureRun

section Registration

theorem continues_entry_refl (pw : psync_page_wait_t) : continues_entry pw pw :=
  ⟨rfl, rfl, rfl, List.prefix_refl _⟩

theorem continues_entry_trans {a b c : psync_page_wait_t} (h1 : continues_entry a b)
    (h2 : continues_entry b c) : continues_entry a c :=
  ⟨h2.1.trans h1.1, h2.2.1.trans h1.2.1, h2.2.2.1.trans h1.2.2.1, h1.2.2.2.trans h2.2.2.2⟩

theorem prefix_getElem? {α : Type} {l1 l2 : List α} (h : l1 <+: l2) (i : Nat) (a : α)
    (hi : l1[i]? = some a) : l2[i]? = some a := by
  obtain ⟨t, rfl⟩ := h
  have hlt : i < l1.length := by
    by_contra hc
    rw [List.getElem?_eq_none (by omega)] at hi
    cases hi
  rw [List.getElem?_append_left hlt]
  exact hi

theorem RegStep.refl (cfg : Settings) (hash first : Nat) (st : ReadLoop) :
    RegStep cfg hash first st st where
  ok := id
  entries_kept := fun _ pw0 h0 => ⟨pw0, h0, continues_entry_refl pw0⟩
  heap_kept := List.prefix_refl _
  no_new_request := fun _ _ h => h
  attached := fun _ h => Or.inl h

theorem RegStep.trans {cfg : Settings} {hash first : Nat} {st0 st1 st2 : ReadLoop}
    (h1 : RegStep cfg hash first st0 st1) (h2 : RegStep cfg hash first st1 st2) :
    RegStep cfg hash first st0 st2 where
  ok := fun h => h2.ok (h1.ok h)
  entries_kept := by
    intro h pw0 hpw0
    obtain ⟨pw1, hpw1, c1⟩ := h1.entries_kept h pw0 hpw0
    obtain ⟨pw2, hpw2, c2⟩ := h2.entries_kept h pw1 hpw1
    exact ⟨pw2, hpw2, continues_entry_trans c1 c2⟩
  heap_kept := h1.heap_kept.trans h2.heap_kept
  no_new_request := by
    intro p hp hc
    apply h1.no_new_request p hp
    apply h2.no_new_request p _ hc
    obtain ⟨pw0, hpw0, hk⟩ := hp
    obtain ⟨pw1, hpw1, c1⟩ := h1.entries_kept _ pw0 hpw0
    exact ⟨pw1, hpw1, c1.1.trans hk.1, c1.2.1.trans hk.2⟩
  attached := by
    intro id hid
    rcases h2.attached id hid with h | h
    · rcases h1.attached id h with h' | h'
      · exact Or.inl h'
      · right
        obtain ⟨w, hw, pw1, hpw1, k1, k2, hmem⟩ := h'
        obtain ⟨pw2, hpw2, c2⟩ := h2.entries_kept _ pw1 hpw1
        exact ⟨w, prefix_getElem? h2.heap_kept id w hw, pw2, hpw2, c2.1.trans k1,
          c2.2.1.trans k2, c2.2.2.2.subset hmem⟩
    · exact Or.inr h

/-- A change that leaves the wait index, the waiter heap, the waiter list and the ranges as they
are (the tier look-ups, the copies, the variable `size`). -/
theorem RegStep.of_same {cfg : Settings} {hash first : Nat} {st st' : ReadLoop}
    (hw : st'.s.wait_page_hash = st.s.wait_page_hash) (hh : st'.s.waiters = st.s.waiters)
    (hr : st'.ranges = st.ranges) (hl : st'.waiting = st.waiting) :
    RegStep cfg hash first st st' where
  ok := by
    intro h
    unfold WaitIndexOk at h ⊢
    rw [hw]
    exact h
  entries_kept := by
    intro h pw0 h0
    rw [hw]
    exact ⟨pw0, h0, continues_entry_refl pw0⟩
  heap_kept := by rw [hh]
  no_new_request := by
    intro p _ hc
    rw [hr] at hc
    exact hc
  attached := by
    intro id hid
    rw [hl] at hid
    exact Or.inl hid

end Registration

section RegistrationSteps

theorem attach_waiter_keys (hash pageid id : Nat) (l : List psync_page_wait_t) :
    (attach_waiter hash pageid id l).map wait_key = l.map wait_key := by
  induction l with
  | nil => rfl
  | cons a rest ih =>
    unfold attach_waiter
    split_ifs
    · rfl
    · simp only [List.map_cons, ih]

theorem attach_waiter_continues (hash pageid id : Nat) (l : List psync_page_wait_t) :
    ∀ pw0 ∈ l, ∃ pw ∈ attach_waiter hash pageid id l, continues_entry pw0 pw := by
  induction l with
  | nil => intro pw0 h; cases h
  | cons a rest ih =>
    intro pw0 h0
    unfold attach_waiter
    split_ifs
    · rcases List.mem_cons.mp h0 with rfl | h0
      · exact ⟨_, List.mem_cons_self _ _, rfl, rfl, rfl, List.prefix_append _ _⟩
      · exact ⟨pw0, List.mem_cons_of_mem _ h0, continues_entry_refl pw0⟩
    · rcases List.mem_cons.mp h0 with rfl | h0
      · exact ⟨_, List.mem_cons_self _ _, continues_entry_refl _⟩
      · obtain ⟨pw, hpw, c⟩ := ih pw0 h0
        exact ⟨pw, List.mem_cons_of_mem _ hpw, c⟩

theorem attach_waiter_placement (hash pageid id h : Nat) (l : List psync_page_wait_t)
    (hl : ∀ pw ∈ l, waiterhash_by_hash_and_pageid pw.hash pw.pageid = h) :
    ∀ pw ∈ attach_waiter hash pageid id l,
      waiterhash_by_hash_and_pageid pw.hash pw.pageid = h := by
  induction l with
  | nil => intro pw h; cases h
  | cons a rest ih =>
    intro pw hpw
    unfold attach_waiter at hpw
    split_ifs at hpw
    · rcases List.mem_cons.mp hpw with rfl | hpw
      · exact hl a (List.mem_cons_self _ _)
      · exact hl pw (List.mem_cons_of_mem _ hpw)
    · rcases List.mem_cons.mp hpw with rfl | hpw
      · exact hl _ (List.mem_cons_self _ _)
      · exact ih (fun x hx => hl x (List.mem_cons_of_mem _ hx)) pw hpw

theorem attach_waiter_mem (hash pageid id : Nat) (l : List psync_page_wait_t)
    (h : l.any (wait_match hash pageid) = true) :
    ∃ pw ∈ attach_waiter hash pageid id l, pw.hash = hash ∧ pw.pageid = pageid ∧
      id ∈ pw.waiters := by
  induction l with
  | nil => simp at h
  | cons a rest ih =>
    unfold attach_waiter
    by_cases ha : wait_match hash pageid a = true
    · rw [if_pos ha]
      have hk := (wait_match_iff hash pageid a).mp ha
      exact ⟨_, List.mem_cons_self _ _, hk.1, hk.2, by simp⟩
    · rw [if_neg ha]
      have : rest.any (wait_match hash pageid) = true := by
        simpa [List.any_cons, ha] using h
      obtain ⟨pw, hpw, hk⟩ := ih this
      exact ⟨pw, List.mem_cons_of_mem _ hpw, hk⟩

theorem any_wait_match_iff (hash pageid : Nat) (l : List psync_page_wait_t) :
    l.any (wait_match hash pageid) = true ↔ ∃ pw ∈ l, pw.hash = hash ∧ pw.pageid = pageid := by
  simp [List.any_eq_true, wait_match_iff]

theorem mul_page_eq {ps p q : Nat} (hps : 0 < ps) (h1 : q * ps ≤ p * ps)
    (h2 : p * ps < q * ps + ps) : p = q := by
  have a : q ≤ p := Nat.le_of_mul_le_mul_right h1 hps
  have b : p < q + 1 := by
    have : p * ps < (q + 1) * ps := by rw [Nat.add_mul, Nat.one_mul]; exact h2
    exact Nat.lt_of_mul_lt_mul_right this
  omega

/-- A page that the new ranges cover was covered before or is the page just added. -/
theorem add_page_to_ranges_cover (cfg : Settings) (hps : 0 < cfg.PSYNC_FS_PAGE_SIZE)
    (ranges : List psync_request_range_t) (range : Option Nat) (pageid p : Nat)
    (h : ranges_cover cfg (add_page_to_ranges cfg ranges range pageid).1 p) :
    ranges_cover cfg ranges p ∨ p = pageid := by
  have fresh : ranges_cover cfg
      (ranges ++ [{ offset := pageid * cfg.PSYNC_FS_PAGE_SIZE,
                    length := cfg.PSYNC_FS_PAGE_SIZE }]) p →
      ranges_cover cfg ranges p ∨ p = pageid := by
    rintro ⟨r, hr, h1, h2⟩
    rcases List.mem_append.mp hr with hr | hr
    · exact Or.inl ⟨r, hr, h1, h2⟩
    · right
      rw [List.mem_singleton] at hr
      subst hr
      exact mul_page_eq hps h1 h2
  unfold add_page_to_ranges at h
  cases range with
  | none => exact fresh h
  | some k =>
    simp only at h
    cases hk : ranges.get? k with
    | none =>
      rw [hk] at h
      exact fresh h
    | some r0 =>
      rw [hk] at h
      simp only at h
      split_ifs at h with heq
      · obtain ⟨r, hr, h1, h2⟩ := h
        obtain ⟨j, hj⟩ := List.mem_iff_getElem?.mp hr
        rw [List.getElem?_modify] at hj
        by_cases hjk : k = j
        · subst hjk
          have hk' : ranges[k]? = some r0 := by simpa using hk
          rw [hk'] at hj
          simp only [if_true, Option.map_eq_map, Option.map_some', Option.some.injEq] at hj
          subst hj
          simp only at h1 h2
          by_cases hc : p * cfg.PSYNC_FS_PAGE_SIZE < r0.offset + r0.length
          · exact Or.inl ⟨r0, List.mem_iff_getElem?.mpr ⟨k, hk'⟩, h1, hc⟩
          · right
            exact mul_page_eq hps (by omega) (by omega)
        · simp only [if_neg hjk, Option.map_eq_map, Option.map_id_fun', id_eq] at hj
          exact Or.inl ⟨r, List.mem_iff_getElem?.mpr ⟨j, hj⟩, h1, h2⟩
      · exact fresh h

end RegistrationSteps

section RegistrationLoops

theorem not_any_wait_match (hash pageid : Nat) (l : List psync_page_wait_t)
    (h : ¬ l.any (wait_match hash pageid) = true) : (hash, pageid) ∉ l.map wait_key := by
  intro hm
  apply h
  rw [any_wait_match_iff]
  obtain ⟨pw, hpw, hk⟩ := List.mem_map.mp hm
  simp only [wait_key, Prod.mk.injEq] at hk
  exact ⟨pw, hpw, hk.1, hk.2⟩

theorem register_waiter_step (cfg : Settings) (hps : 0 < cfg.PSYNC_FS_PAGE_SIZE)
    (hash fileid first i copyoff copysize pbuff : Nat) (st : ReadLoop) :
    RegStep cfg hash first st
      (register_waiter cfg hash fileid first i copyoff copysize pbuff st) := by
  have hnew : ∀ (tl : List psync_page_waiter_t) (w : psync_page_waiter_t),
      (st.s.waiters ++ w :: tl)[st.s.waiters.length]? = some w := by
    intro tl w
    rw [List.getElem?_append_right (le_refl _)]
    simp
  unfold register_waiter
  dsimp only
  split_ifs with hany
  · refine ⟨?_, ?_, ?_, ?_, ?_⟩
    · intro hok h'
      dsimp only
      by_cases hh : h' = waiterhash_by_hash_and_pageid hash (first + i)
      · subst hh
        simp only [Function.update_same]
        exact ⟨attach_waiter_placement _ _ _ _ _ (hok _).1,
          by rw [attach_waiter_keys]; exact (hok _).2⟩
      · simp only [Function.update_noteq hh]
        exact hok h'
    · intro h' pw0 h0
      dsimp only at h0 ⊢
      by_cases hh : h' = waiterhash_by_hash_and_pageid hash (first + i)
      · subst hh
        simp only [Function.update_same]
        exact attach_waiter_continues _ _ _ _ pw0 h0
      · simp only [Function.update_noteq hh]
        exact ⟨pw0, h0, continues_entry_refl pw0⟩
    · exact List.prefix_append _ _
    · intro p _ hc
      exact hc
    · intro id hid
      dsimp only at hid ⊢
      rcases List.mem_append.mp hid with hid | hid
      · exact Or.inl hid
      · right
        rw [List.mem_singleton] at hid
        subst hid
        obtain ⟨pw, hpw, k1, k2, hmem⟩ := attach_waiter_mem hash (first + i) st.s.waiters.length
          _ hany
        refine ⟨_, hnew [] _, pw, ?_, k1, k2, hmem⟩
        dsimp only
        simp only [Function.update_same]
        exact hpw
  · have hnokey := not_any_wait_match _ _ _ hany
    refine ⟨?_, ?_, ?_, ?_, ?_⟩
    · intro hok h'
      dsimp only
      by_cases hh : h' = waiterhash_by_hash_and_pageid hash (first + i)
      · subst hh
        simp only [Function.update_same]
        constructor
        · intro pw hpw
          rcases List.mem_append.mp hpw with hpw | hpw
          · exact (hok _).1 pw hpw
          · rw [List.mem_singleton] at hpw
            subst hpw
            rfl
        · rw [List.map_append, List.nodup_append]
          refine ⟨(hok _).2, by simp, ?_⟩
          intro a ha hb
          simp only [List.map_cons, List.map_nil, List.mem_singleton, wait_key] at hb
          subst hb
          exact hnokey ha
      · simp only [Function.update_noteq hh]
        exact hok h'
    · intro h' pw0 h0
      dsimp only at h0 ⊢
      by_cases hh : h' = waiterhash_by_hash_and_pageid hash (first + i)
      · subst hh
        simp only [Function.update_same]
        exact ⟨pw0, List.mem_append_left _ h0, continues_entry_refl pw0⟩
      · simp only [Function.update_noteq hh]
        exact ⟨pw0, h0, continues_entry_refl pw0⟩
    · exact List.prefix_append _ _
    · intro p hp hc
      dsimp only at hc
      rcases add_page_to_ranges_cover cfg hps _ _ _ _ hc with h | h
      · exact h
      · subst h
        exfalso
        apply hany
        rw [any_wait_match_iff]
        exact hp
    · intro id hid
      dsimp only at hid ⊢
      rcases List.mem_append.mp hid with hid | hid
      · exact Or.inl hid
      · right
        rw [List.mem_singleton] at hid
        subst hid
        refine ⟨_, hnew [] _,
          { waiters := [st.s.waiters.length], hash := hash, pageid := first + i,
            fileid := fileid }, ?_, rfl, rfl, List.mem_singleton_self _⟩
        dsimp only
        simp only [Function.update_same]
        exact List.mem_append_right _ (List.mem_singleton_self _)

theorem readahead_register_page_step (cfg : Settings) (hps : 0 < cfg.PSYNC_FS_PAGE_SIZE)
    (hash fileid first pageid : Nat) (st : ReadLoop) :
    RegStep cfg hash first st (readahead_register_page cfg hash fileid pageid st) := by
  unfold readahead_register_page
  dsimp only
  split_ifs with hany
  · exact RegStep.refl cfg hash first st
  · have hnokey := not_any_wait_match _ _ _ hany
    refine ⟨?_, ?_, ?_, ?_, ?_⟩
    · intro hok h'
      dsimp only
      by_cases hh : h' = waiterhash_by_hash_and_pageid hash pageid
      · subst hh
        simp only [Function.update_same]
        constructor
        · intro pw hpw
          rcases List.mem_append.mp hpw with hpw | hpw
          · exact (hok _).1 pw hpw
          · rw [List.mem_singleton] at hpw
            subst hpw
            rfl
        · rw [List.map_append, List.nodup_append]
          refine ⟨(hok _).2, by simp, ?_⟩
          intro a ha hb
          simp only [List.map_cons, List.map_nil, List.mem_singleton, wait_key] at hb
          subst hb
          exact hnokey ha
      · simp only [Function.update_noteq hh]
        exact hok h'
    · intro h' pw0 h0
      dsimp only at h0 ⊢
      by_cases hh : h' = waiterhash_by_hash_and_pageid hash pageid
      · subst hh
        simp only [Function.update_same]
        exact ⟨pw0, List.mem_append_left _ h0, continues_entry_refl pw0⟩
      · simp only [Function.update_noteq hh]
        exact ⟨pw0, h0, continues_entry_refl pw0⟩
    · exact List.prefix_refl _
    · intro p hp hc
      dsimp only at hc
      rcases add_page_to_ranges_cover cfg hps _ _ _ _ hc with h | h
      · exact h
      · subst h
        exfalso
        apply hany
        rw [any_wait_match_iff]
        exact hp
    · intro id hid
      exact Or.inl hid

end RegistrationLoops

section RegistrationTheorem

theorem check_page_in_database_same (pread_ok : Bool) (s : PageCache)
    (hash pageid size off : Nat) :
    (check_page_in_database_by_hash pread_ok s hash pageid size off).2.wait_page_hash =
        s.wait_page_hash ∧
      (check_page_in_database_by_hash pread_ok s hash pageid size off).2.waiters = s.waiters := by
  unfold check_page_in_database_by_hash
  split
  · exact ⟨rfl, rfl⟩
  · dsimp only
    split_ifs <;> exact ⟨rfl, rfl⟩

/-- The two tier look-ups of the page loop leave the wait index and the waiter heap alone. -/
theorem tier_lookup_same (cfg : Settings) (tm : Nat) (pread_ok : Bool) (s : PageCache)
    (hash pageid size off : Nat) :
    let d : Option Nat × PageCache :=
      match (check_page_in_memory_by_hash cfg tm s hash pageid size off).1 with
      | none =>
        check_page_in_database_by_hash pread_ok
          (check_page_in_memory_by_hash cfg tm s hash pageid size off).2 hash pageid size off
      | some rb => (some rb, (check_page_in_memory_by_hash cfg tm s hash pageid size off).2)
    d.2.wait_page_hash = s.wait_page_hash ∧ d.2.waiters = s.waiters := by
  intro d
  have hm : (check_page_in_memory_by_hash cfg tm s hash pageid size off).2.wait_page_hash =
        s.wait_page_hash ∧
      (check_page_in_memory_by_hash cfg tm s hash pageid size off).2.waiters = s.waiters :=
    ⟨rfl, rfl⟩
  cases hc : (check_page_in_memory_by_hash cfg tm s hash pageid size off).1 with
  | none =>
    have hd : d = check_page_in_database_by_hash pread_ok
        (check_page_in_memory_by_hash cfg tm s hash pageid size off).2 hash pageid size off := by
      simp only [d, hc]
    rw [hd]
    obtain ⟨a, b⟩ := check_page_in_database_same pread_ok
      (check_page_in_memory_by_hash cfg tm s hash pageid size off).2 hash pageid size off
    exact ⟨a.trans hm.1, b.trans hm.2⟩
  | some rb =>
    have hd : d = (some rb, (check_page_in_memory_by_hash cfg tm s hash pageid size off).2) := by
      simp only [d, hc]
    rw [hd]
    exact hm

theorem read_register_pages_step (cfg : Settings) (hps : 0 < cfg.PSYNC_FS_PAGE_SIZE) (tm : Nat)
    (pread_ok : Nat → Bool) (hash fileid first pageoff pagecnt : Nat) :
    ∀ (n i : Nat) (st : ReadLoop),
      RegStep cfg hash first st
        (read_register_pages cfg tm pread_ok hash fileid first pageoff pagecnt n i st) := by
  intro n
  induction n with
  | zero =>
    intro i st
    exact RegStep.refl cfg hash first st
  | succ n ih =>
    intro i st
    have htier := tier_lookup_same cfg tm (pread_ok i) st.s hash (first + i)
      (page_segment cfg st.size pageoff pagecnt i).2.1 (page_segment cfg st.size pageoff pagecnt i).1
    simp only [read_register_pages]
    dsimp only at htier
    generalize (match (check_page_in_memory_by_hash cfg tm st.s hash (first + i)
        (page_segment cfg st.size pageoff pagecnt i).2.1
        (page_segment cfg st.size pageoff pagecnt i).1).1 with
      | none =>
        check_page_in_database_by_hash (pread_ok i)
          (check_page_in_memory_by_hash cfg tm st.s hash (first + i)
            (page_segment cfg st.size pageoff pagecnt i).2.1
            (page_segment cfg st.size pageoff pagecnt i).1).2 hash (first + i)
          (page_segment cfg st.size pageoff pagecnt i).2.1
          (page_segment cfg st.size pageoff pagecnt i).1
      | some rb => (some rb, (check_page_in_memory_by_hash cfg tm st.s hash (first + i)
          (page_segment cfg st.size pageoff pagecnt i).2.1
          (page_segment cfg st.size pageoff pagecnt i).1).2)) = d at htier ⊢
    obtain ⟨d1, d2⟩ := d
    obtain ⟨hw, hh⟩ := htier
    dsimp only at hw hh ⊢
    cases d1 with
    | some rb =>
      dsimp only
      split_ifs
      · refine RegStep.trans ?_ (ih _ _)
        exact RegStep.of_same hw hh rfl rfl
      · exact RegStep.of_same hw hh rfl rfl
      · exact RegStep.of_same hw hh rfl rfl
    | none =>
      dsimp only
      refine RegStep.trans ?_ (ih _ _)
      refine RegStep.trans ?_ (register_waiter_step cfg hps _ _ _ _ _ _ _ _)
      exact RegStep.of_same hw hh rfl rfl

theorem readahead_register_pages_step (cfg : Settings) (hps : 0 < cfg.PSYNC_FS_PAGE_SIZE)
    (hash fileid first0 first : Nat) (pages_in_db : List Nat) :
    ∀ (n i : Nat) (st : ReadLoop),
      RegStep cfg hash first0 st
        (readahead_register_pages cfg hash fileid first pages_in_db n i st) := by
  intro n
  induction n with
  | zero =>
    intro i st
    exact RegStep.refl cfg hash first0 st
  | succ n ih =>
    intro i st
    simp only [readahead_register_pages]
    split_ifs
    · exact ih _ _
    · exact ih _ _
    · exact RegStep.trans (readahead_register_page_step cfg hps hash fileid first0 _ st) (ih _ _)

theorem readahead_step (cfg : Settings) (hps : 0 < cfg.PSYNC_FS_PAGE_SIZE) (ctime : Nat)
    (of : psync_openfile_t) (offset size : Nat) (st : ReadLoop)
    (fileid hash first0 initialsize : Nat) :
    RegStep cfg hash first0 st
      (psync_pagecache_read_unmodified_readahead cfg ctime of offset size st fileid hash
        initialsize).2 := by
  unfold psync_pagecache_read_unmodified_readahead
  dsimp only
  split
  · exact RegStep.refl cfg hash first0 st
  · exact readahead_register_pages_step cfg hps hash fileid first0 _ _ _ _ _

end RegistrationTheorem

section OneWaitEntry

theorem sum_range_single (f : Nat → Nat) (h0 : Nat) (hf : ∀ h, h ≠ h0 → f h = 0) :
    ∀ n, ((List.range n).map f).sum = if h0 < n then f h0 else 0 := by
  intro n
  induction n with
  | zero => simp
  | succ n ih =>
    rw [List.range_succ, List.map_append, List.sum_append, ih]
    simp only [List.map_cons, List.map_nil, List.sum_cons, List.sum_nil, Nat.add_zero]
    by_cases hn : n = h0
    · subst hn
      simp
    · rw [hf n hn, Nat.add_zero]
      have : (h0 < n + 1) ↔ (h0 < n) := by omega
      simp only [this]

theorem countP_wait_match_le_one (hash pageid : Nat) (l : List psync_page_wait_t)
    (hl : (l.map wait_key).Nodup) : l.countP (wait_match hash pageid) ≤ 1 := by
  induction l with
  | nil => simp
  | cons a rest ih =>
    rw [List.map_cons, List.nodup_cons] at hl
    rw [List.countP_cons]
    by_cases hm : wait_match hash pageid a = true
    · have hk := (wait_match_iff _ _ _).mp hm
      have : rest.countP (wait_match hash pageid) = 0 := by
        rw [List.countP_eq_zero]
        intro pw hpw hm'
        have hk' := (wait_match_iff _ _ _).mp hm'
        apply hl.1
        rw [List.mem_map]
        exact ⟨pw, hpw, by simp only [wait_key, hk.1, hk.2, hk'.1, hk'.2]⟩
      rw [this, if_pos hm]
    · rw [if_neg hm]
      exact ih hl.2

/-- In a well-formed wait index there is at most one wait entry per `(hash, page_id)`. -/
theorem wait_entries_le_one (s : PageCache) (hok : WaitIndexOk s) (hash pageid : Nat) :
    wait_entries s hash pageid ≤ 1 := by
  unfold wait_entries
  rw [sum_range_single _ (waiterhash_by_hash_and_pageid hash pageid)]
  · split_ifs
    · exact countP_wait_match_le_one _ _ _ (hok _).2
    · exact Nat.zero_le _
  · intro h hne
    rw [List.countP_eq_zero]
    intro pw hpw hm
    have hk := (wait_match_iff _ _ _).mp hm
    have := (hok h).1 pw hpw
    rw [hk.1, hk.2] at this
    exact hne this.symm

/-- C2. The registration phase of `psync_pagecache_read_unmodified_locked`, readahead routine
included, keeps the wait index well formed, so that it holds at most one wait entry per
`(hash, page_id)`; every entry is continued (same key, its waiters first); a page that already
has a wait entry is covered by no range of the request handed to the fetch thread; and every
waiter of the read is attached to the entry of its page, which is the continued old entry
where the page had one. -/
theorem registration_keeps_one_wait_entry (cfg : Settings) (hps : 0 < cfg.PSYNC_FS_PAGE_SIZE)
    (env : ReadEnv) (of : psync_openfile_t) (size offset : Nat) (s : PageCache)
    (hok : WaitIndexOk s) :
    WaitIndexOk (read_unmodified_start cfg env of size offset s).s ∧
      (∀ hash pageid,
        wait_entries (read_unmodified_start cfg env of size offset s).s hash pageid ≤ 1) ∧
      (∀ h, ∀ pw0 ∈ s.wait_page_hash h,
        ∃ pw ∈ (read_unmodified_start cfg env of size offset s).s.wait_page_hash h,
          continues_entry pw0 pw) ∧
      (∀ p, has_wait_entry s of.hash p → ∀ request,
        (read_unmodified_start cfg env of size offset s).request = some request →
        ¬ ranges_cover cfg request.ranges p) ∧
      (∀ id ∈ (read_unmodified_start cfg env of size offset s).waiting,
        ∃ w, (read_unmodified_start cfg env of size offset s).s.waiters[id]? = some w ∧
          ∃ pw ∈ (read_unmodified_start cfg env of size offset s).s.wait_page_hash
              (waiterhash_by_hash_and_pageid of.hash
                (offset_round_down_to_page cfg offset / cfg.PSYNC_FS_PAGE_SIZE + w.pageidx)),
            pw.hash = of.hash ∧
            pw.pageid = offset_round_down_to_page cfg offset / cfg.PSYNC_FS_PAGE_SIZE + w.pageidx ∧
            id ∈ pw.waiters ∧
            ∀ pw0 ∈ s.wait_page_hash (waiterhash_by_hash_and_pageid of.hash
                (offset_round_down_to_page cfg offset / cfg.PSYNC_FS_PAGE_SIZE + w.pageidx)),
              pw0.hash = of.hash →
              pw0.pageid =
                offset_round_down_to_page cfg offset / cfg.PSYNC_FS_PAGE_SIZE + w.pageidx →
              continues_entry pw0 pw) := by
  have key : ∃ st : ReadLoop,
      RegStep cfg of.hash (offset_round_down_to_page cfg offset / cfg.PSYNC_FS_PAGE_SIZE)
        { s := s, size := size, waiting := [], ranges := [], range := none, copies := [] } st ∧
      (read_unmodified_start cfg env of size offset s).s = st.s ∧
      (read_unmodified_start cfg env of size offset s).waiting = st.waiting ∧
      (read_unmodified_start cfg env of size offset s).request =
        if st.ranges.isEmpty then none
        else some { ranges := st.ranges, of_hash := of.hash, fileid := of.remotefileid,
                    hash := of.hash } := by
    unfold read_unmodified_start
    dsimp only
    by_cases h1 : offset ≥ of.initialsize
    · rw [if_pos h1]
      exact ⟨_, RegStep.refl _ _ _ _, rfl, rfl, rfl⟩
    · rw [if_neg h1]
      refine ⟨_, RegStep.trans ?_ (readahead_step cfg hps _ _ _ _ _ _ _ _ _), rfl, rfl, rfl⟩
      refine RegStep.trans ?_ (read_register_pages_step cfg hps _ _ _ _ _ _ _ _ _ _)
      exact RegStep.of_same rfl rfl rfl rfl
  obtain ⟨st, hst, e1, e2, e3⟩ := key
  have hok' : WaitIndexOk st.s := hst.ok hok
  rw [e1, e2]
  refine ⟨hok', wait_entries_le_one _ hok', hst.entries_kept, ?_, ?_⟩
  · intro p hp request hr hc
    rw [e3] at hr
    split_ifs at hr
    cases hr
    obtain ⟨r, hr', _⟩ := hst.no_new_request p hp hc
    cases hr'
  · intro id hid
    rcases hst.attached id hid with h | h
    · cases h
    · obtain ⟨w, hw, pw, hpw, k1, k2, hmem⟩ := h
      refine ⟨w, hw, pw, hpw, k1, k2, hmem, ?_⟩
      intro pw0 hpw0 j1 j2
      obtain ⟨pw', hpw', c⟩ := hst.entries_kept _ pw0 hpw0
      have : pw' = pw := by
        apply List.inj_on_of_nodup_map (hok' _).2 hpw' hpw
        simp only [wait_key, Prod.mk.injEq]
        exact ⟨c.1.trans (j1.trans k1.symm), c.2.1.trans (j2.trans k2.symm)⟩
      rw [← this]
      exact c

end OneWaitEntry

section OneWaitEntryRun

/-- C2, evaluated: a second read of the same three pages while the pages 0 and 2 are still
pending. The index keeps one entry per page, the read hands no request to a fetch thread and
its two waiters are queued. -/
theorem registration_keeps_one_wait_entry_witness :
    wait_entries toySecondRead.s 7 0 ≤ 1 ∧ toySecondRead.request = none ∧
      toySecondRead.waiting = [2, 3] :=
  ⟨(registration_keeps_one_wait_entry (toySettings true) (by decide) ⟨12, fun _ => true⟩ toyRead.of
      12288 0 toyRead.s
      (registration_keeps_one_wait_entry (toySettings true) (by decide) ⟨11, fun _ => true⟩
        toyOpenFile 12288 0 toyPage1Cached
        (fun _ => ⟨fun pw hpw => absurd hpw (List.not_mem_nil pw), List.nodup_nil⟩)).1).2.1 7 0,
    rfl, rfl⟩

end OneWaitEntryRun

section ErrorMessages

/-- C11, at the failing inputs: the table `crypto_errors` has no message for
`PSYNC_CRYPTO_FILE_NOT_FOUND` (-4), so `set_err` gives the codes -1, -2 and -3 their message but
stores "Invalid key." for `PSYNC_CRYPTO_FILE_NOT_FOUND`, "Can not connect to server." for
`PSYNC_CRYPTO_INVALID_KEY`, "Folder is not encrypted." for `PSYNC_CRYPTO_CANT_CONNECT` and
"Unkown error." for `PSYNC_CRYPTO_FOLDER_NOT_ENCRYPTED`; the code is returned unchanged. -/
theorem set_err_messages_shifted (api : ApiErr) :
    set_err api PSYNC_CRYPTO_NOT_STARTED true =
        (PSYNC_CRYPTO_NOT_STARTED, some "Encryption is not started.") ∧
      set_err api PSYNC_CRYPTO_RSA_ERROR true =
        (PSYNC_CRYPTO_RSA_ERROR, some "Unexpected RSA encryption error.") ∧
      set_err api PSYNC_CRYPTO_FOLDER_NOT_FOUND true =
        (PSYNC_CRYPTO_FOLDER_NOT_FOUND, some "Folder not found.") ∧
      set_err api PSYNC_CRYPTO_FILE_NOT_FOUND true =
        (PSYNC_CRYPTO_FILE_NOT_FOUND, some "Invalid key.") ∧
      set_err api PSYNC_CRYPTO_INVALID_KEY true =
        (PSYNC_CRYPTO_INVALID_KEY, some "Can not connect to server.") ∧
      set_err api PSYNC_CRYPTO_CANT_CONNECT true =
        (PSYNC_CRYPTO_CANT_CONNECT, some "Folder is not encrypted.") ∧
      set_err api PSYNC_CRYPTO_FOLDER_NOT_ENCRYPTED true =
        (PSYNC_CRYPTO_FOLDER_NOT_ENCRYPTED, some "Unkown error.") :=
  ⟨rfl, rfl, rfl, rfl, rfl, rfl, rfl⟩

end ErrorMessages

section FolderCreation

/-- With a non-NULL `err`, `set_err` always stores a message. -/
theorem set_err_stores (api : ApiErr) (ret : Int) : ((set_err api ret true).2).isSome = true := by
  unfold set_err
  simp only [if_true]
  split_ifs <;> rfl

/-- A non-zero return value of `get_name_for_folder_locked` comes with a stored message. -/
theorem get_name_for_folder_stores (e : MkdirEnv) (folderid : Nat) (name : List Nat)
    (h : (get_name_for_folder_locked e folderid name true).1 ≠ 0) :
    ((get_name_for_folder_locked e folderid name true).2.1).isSome = true := by
  revert h
  unfold get_name_for_folder_locked get_name_for_enc_folder_locked
  split_ifs with g1
  · intro h; exact absurd rfl h
  · cases e.folder_flags with
    | none => intro _; exact set_err_stores _ _
    | some flags =>
      dsimp only
      split_ifs with g2
      · cases e.encname with
        | error code => intro _; exact set_err_stores _ _
        | ok v => intro h; exact absurd rfl h
      · intro h; exact absurd rfl h

/-- With a non-NULL `err`, `psync_cloud_crypto_send_mkdir` returns, and a non-zero return value
comes with a stored message. -/
theorem send_mkdir_sets_err (e : MkdirEnv) (newfolderid : Bool) :
    ∃ r, psync_cloud_crypto_send_mkdir e true newfolderid = some r ∧
      (r.ret = 0 ∨ r.err.isSome = true) := by
  unfold psync_cloud_crypto_send_mkdir
  cases api_call_loop e.createfolder 6 0 with
  | none => exact ⟨_, rfl, Or.inr (set_err_stores _ _)⟩
  | some res =>
    dsimp only
    by_cases g : res.result ≠ 0
    · rw [if_pos g]; exact ⟨_, rfl, Or.inr rfl⟩
    · rw [if_neg g]; exact ⟨_, rfl, Or.inl rfl⟩

/-- With a non-NULL `err`, `psync_cloud_crypto_mkdir` returns, and a non-zero return value comes
with a stored message. -/
theorem cloud_crypto_mkdir_sets_err {B : Backend} (s : Vault B) (e : MkdirEnv) (folderid : Nat)
    (name : List Nat) (newfolderid : Bool) :
    ∃ r, psync_cloud_crypto_mkdir s e folderid name true newfolderid = some r ∧
      (r.ret = 0 ∨ r.err.isSome = true) := by
  unfold psync_cloud_crypto_mkdir
  by_cases h1 : s.crypto_started_un = 0
  · rw [if_pos h1]; exact ⟨_, rfl, Or.inr (set_err_stores _ _)⟩
  rw [if_neg h1]
  by_cases h2 : s.crypto_started_l = 0
  · rw [if_pos h2]; exact ⟨_, rfl, Or.inr (set_err_stores _ _)⟩
  rw [if_neg h2]
  dsimp only
  by_cases h3 : (get_name_for_folder_locked e folderid name true).1 ≠ 0
  · rw [if_pos h3]; exact ⟨_, rfl, Or.inr (get_name_for_folder_stores e folderid name h3)⟩
  rw [if_neg h3]
  cases e.encsym with
  | none => exact ⟨_, rfl, Or.inr (set_err_stores _ _)⟩
  | some k => exact send_mkdir_sets_err e newfolderid

/-- C12, at the failing input: while the status is offline, `psync_crypto_mkdir` called with a
non-NULL `err` returns the non-zero code `PSYNC_CRYPTO_CANT_CONNECT` and stores nothing through
`err`, whatever the vault and the arguments are; when the status is not offline the call
returns, and every non-zero return value comes with a stored message. -/
theorem mkdir_offline_leaves_err_unset {B : Backend} (s : Vault B) (e : MkdirEnv)
    (folderid : Nat) (name : List Nat) (newfolderid : Bool) :
    psync_crypto_mkdir true s e folderid name true newfolderid =
        some { ret := PSYNC_CRYPTO_CANT_CONNECT, err := none, newfolderid := none } ∧
      PSYNC_CRYPTO_CANT_CONNECT ≠ 0 ∧
      ∃ r, psync_crypto_mkdir false s e folderid name true newfolderid = some r ∧
        (r.ret = 0 ∨ r.err.isSome = true) :=
  ⟨rfl, by decide, cloud_crypto_mkdir_sets_err s e folderid name newfolderid⟩

end FolderCreation

section KeyUpload

/-- Six rounds of failed sends end the loop of an API call without an answer, after six calls of
`send_command`, however many rounds the bound allows beyond six. -/
theorem api_call_loop_all_failed {R : Type} (att : Nat → ApiAttempt R)
    (hfail : ∀ i, i ≤ 5 → att i = .send_failed) (k : Nat) :
    api_call_loop att (6 + k) 0 = none ∧ api_call_sends att (6 + k) 0 = 6 := by
  have e : 6 + k = k + 1 + 1 + 1 + 1 + 1 + 1 := by omega
  rw [e]
  simp [api_call_loop, api_call_sends, hfail]

/-- C13, refuted at a concrete input: when every send fails, the loop of
`psync_cloud_crypto_setup_do_upload` calls `send_command` six times, not five, before the
function returns `PSYNC_CRYPTO_SETUP_CANT_CONNECT`. -/
theorem setup_do_upload_sixth_attempt :
    api_call_sends (fun _ => (ApiAttempt.send_failed : ApiAttempt SetUserKeysAnswer)) 6 0 = 6 ∧
      ¬ api_call_sends (fun _ => (ApiAttempt.send_failed : ApiAttempt SetUserKeysAnswer)) 6 0 ≤ 5 ∧
      psync_cloud_crypto_setup_do_upload (fun _ => .send_failed) =
        (PSYNC_CRYPTO_SETUP_CANT_CONNECT, none) := by
  refine ⟨rfl, by decide, rfl⟩

/-- C13, amended: when a connection is obtained every time and every send fails,
`psync_cloud_crypto_setup_do_upload` makes exactly six attempts (the first one and five retries)
and returns `PSYNC_CRYPTO_SETUP_CANT_CONNECT`; and for every course of the call the function
returns `PSYNC_CRYPTO_SETUP_ALREADY_SETUP` exactly when an answer arrives whose result code is
2110. -/
theorem setup_do_upload_retries (att : Nat → ApiAttempt SetUserKeysAnswer) (k : Nat)
    (hfail : ∀ i, i ≤ 5 → att i = .send_failed) :
    psync_cloud_crypto_setup_do_upload att = (PSYNC_CRYPTO_SETUP_CANT_CONNECT, none) ∧
      api_call_sends att (6 + k) 0 = 6 ∧
      ∀ att2 : Nat → ApiAttempt SetUserKeysAnswer,
        ((psync_cloud_crypto_setup_do_upload att2).1 = PSYNC_CRYPTO_SETUP_ALREADY_SETUP ↔
          ∃ res, api_call_loop att2 6 0 = some res ∧ res.result = 2110) := by
  refine ⟨?_, (api_call_loop_all_failed att hfail k).2, ?_⟩
  · unfold psync_cloud_crypto_setup_do_upload
    rw [(api_call_loop_all_failed att hfail 0).1]
  · intro att2
    unfold psync_cloud_crypto_setup_do_upload
    cases api_call_loop att2 6 0 with
    | none => simp [PSYNC_CRYPTO_SETUP_CANT_CONNECT, PSYNC_CRYPTO_SETUP_ALREADY_SETUP]
    | some res =>
      dsimp only
      split_ifs with h0 h1 h2 <;>
        simp [PSYNC_CRYPTO_SETUP_SUCCESS, PSYNC_CRYPTO_SETUP_NOT_LOGGED_IN,
          PSYNC_CRYPTO_SETUP_ALREADY_SETUP, PSYNC_CRYPTO_SETUP_UNKNOWN_ERROR, *]

/-- C13, evaluated on the call whose every round is a failed send. -/
theorem setup_do_upload_retries_witness :
    psync_cloud_crypto_setup_do_upload (fun _ => .send_failed) =
        (PSYNC_CRYPTO_SETUP_CANT_CONNECT, none) ∧
      api_call_sends (fun _ => (ApiAttempt.send_failed : ApiAttempt SetUserKeysAnswer)) (6 + 0) 0
        = 6 :=
  ⟨(setup_do_upload_retries (fun _ => .send_failed) 0 (fun _ _ => rfl)).1,
    (setup_do_upload_retries (fun _ => .send_failed) 0 (fun _ _ => rfl)).2.1⟩

end KeyUpload

section PasswordQuality

/-- The conversion to `int` keeps a value that an `int` can hold. -/
theorem to_int_of_small (x : Int) (h0 : - 2 ^ 31 ≤ x) (h1 : x < 2 ^ 31) : to_int x = x := by
  unfold to_int
  omega

/-- The conversion to `int` keeps a small unsigned value. -/
theorem to_int_natCast (n : Nat) (h : n < 2 ^ 31) : to_int (n : Int) = (n : Int) :=
  to_int_of_small _ (by omega) (by omega)

/-- C16. For every score, the integer division of `psync_password_quality10000` by 10000 is
`psync_password_quality`, the result lies in the 10000 values that start at 10000 times the
quality, and the quality is 0 below `2^30`, 1 from there below `2^40` and 2 from `2^40` on. -/
theorem quality10000_div_is_quality (score : Nat) :
    psync_password_quality10000 score / 10000 = psync_password_quality score ∧
      10000 * psync_password_quality score ≤ psync_password_quality10000 score ∧
      psync_password_quality10000 score ≤ 10000 * psync_password_quality score + 9999 ∧
      psync_password_quality score =
        (if score < 2 ^ 30 then 0 else if score < 2 ^ 40 then 1 else 2) := by
  unfold psync_password_quality10000 psync_password_quality
  by_cases h1 : score < 2 ^ 30
  · simp only [if_pos h1]
    have hq : score / (2 ^ 30 / 10000 + 1) < 10000 := by
      rw [Nat.div_lt_iff_lt_mul (by norm_num)]
      norm_num at h1 ⊢
      omega
    rw [to_int_natCast]
    · refine ⟨?_, ?_, ?_, ?_⟩ <;> first | omega | trivial
    · omega
  · simp only [if_neg h1]
    by_cases h2 : score < 2 ^ 40
    · simp only [if_pos h2]
      have hq : (score - 2 ^ 30) / ((2 ^ 40 - 2 ^ 30) / 10000 + 1) < 10000 := by
        rw [Nat.div_lt_iff_lt_mul (by norm_num)]
        norm_num at h1 h2 ⊢
        omega
      rw [Nat.mod_eq_of_lt (by omega), to_int_natCast]
      · refine ⟨?_, ?_, ?_, ?_⟩ <;> first | omega | trivial
      · omega
    · simp only [if_neg h2]
      by_cases h3 : score ≥ 2 ^ 45 - 2 ^ 40
      · simp only [if_pos h3]
        refine ⟨?_, ?_, ?_, ?_⟩ <;> first | omega | trivial
      · simp only [if_neg h3]
        have hq : (score - 2 ^ 40) / ((2 ^ 45 - 2 ^ 40) / 10000 + 1) < 10000 := by
          rw [Nat.div_lt_iff_lt_mul (by norm_num)]
          norm_num at h1 h2 h3 ⊢
          omega
        rw [Nat.mod_eq_of_lt (by omega), to_int_natCast]
        · refine ⟨?_, ?_, ?_, ?_⟩ <;> first | omega | trivial
        · omega

end PasswordQuality

section Version

/-- Reading more digits does not make the number smaller. -/
theorem foldl_digits_ge (ds : List Nat) (cm : Nat) :
    cm ≤ ds.foldl (fun acc d => acc * 10 + (d - 48)) cm := by
  induction ds generalizing cm with
  | nil => exact le_refl _
  | cons d ds ih =>
    simp only [List.foldl_cons]
    exact le_trans (by omega) (ih _)

/-- The loop of `psync_parse_version` over a run of digits adds them to `cm`. -/
theorem parse_version_loop_digits (bits : Nat) (ds rest : List Nat) (cv cm : Nat)
    (hds : ∀ d ∈ ds, 48 ≤ d ∧ d ≤ 57)
    (hsmall : ds.foldl (fun acc d => acc * 10 + (d - 48)) cm < 2 ^ bits) :
    parse_version_loop bits (ds ++ rest) cv cm =
      parse_version_loop bits rest cv (ds.foldl (fun acc d => acc * 10 + (d - 48)) cm) := by
  induction ds generalizing cm with
  | nil => rfl
  | cons d ds ih =>
    have hd := hds d (List.mem_cons_self _ _)
    simp only [List.foldl_cons] at hsmall ⊢
    have hlt : cm * 10 + (d - 48) < 2 ^ bits :=
      lt_of_le_of_lt (foldl_digits_ge ds _) hsmall
    have e : cm * 10 + d - 48 = cm * 10 + (d - 48) := by omega
    rw [List.cons_append, parse_version_loop, if_neg (by omega), if_neg (by omega), if_pos hd, e,
      Nat.mod_eq_of_lt hlt]
    exact ih _ (fun x hx => hds x (List.mem_cons_of_mem _ hx)) hsmall

/-- C17. For a version string `a.b.c` whose three parts are strings of decimal digits, with
`a*10000 + b*100 + c` below the range of `unsigned long`, `psync_parse_version` returns
`a*10000 + b*100 + c`. -/
theorem parse_version_abc (bits : Nat) (a b c : List Nat)
    (ha : ∀ d ∈ a, 48 ≤ d ∧ d ≤ 57) (hb : ∀ d ∈ b, 48 ≤ d ∧ d ≤ 57)
    (hc : ∀ d ∈ c, 48 ≤ d ∧ d ≤ 57)
    (hsmall : decimal_value a * 10000 + decimal_value b * 100 + decimal_value c < 2 ^ bits) :
    psync_parse_version bits (a ++ [46] ++ b ++ [46] ++ c) =
      decimal_value a * 10000 + decimal_value b * 100 + decimal_value c := by
  unfold psync_parse_version
  have e : a ++ [46] ++ b ++ [46] ++ c = a ++ (46 :: (b ++ (46 :: (c ++ [])))) := by simp
  rw [e, parse_version_loop_digits bits a _ 0 0 ha (by unfold decimal_value at hsmall; omega)]
  rw [parse_version_loop, if_pos rfl]
  rw [parse_version_loop_digits bits b _ _ 0 hb (by unfold decimal_value at hsmall; omega)]
  rw [parse_version_loop, if_pos rfl]
  rw [parse_version_loop_digits bits c _ _ 0 hc (by unfold decimal_value at hsmall; omega)]
  rw [parse_version_loop]
  unfold decimal_value at hsmall ⊢
  rw [Nat.mod_eq_of_lt (a := (0 + _) * 100) (by omega),
    Nat.mod_eq_of_lt (a := (_ + _) * 100) (by omega), Nat.mod_eq_of_lt (by omega)]
  omega

/-- C17, evaluated on the string "1.2.3" with a 64-bit `unsigned long`. -/
theorem parse_version_abc_witness : psync_parse_version 64 [49, 46, 50, 46, 51] = 10203 :=
  parse_version_abc 64 [49] [50] [51] (by decide) (by decide) (by decide) (by decide)

end Version

section Ageing

theorem sub_u64_of_le (a b : Nat) (h : b ≤ a) (ha : a < 2 ^ 64) : sub_u64 a b = a - b := by
  unfold sub_u64
  rw [Nat.mod_eq_of_lt (lt_of_le_of_lt h ha)]
  omega

/-- The value of `cnt` after each of the five steps of `clean_cache`. -/
theorem clean_cache_counts (n : Nat) (hn : 40 * n < 2 ^ 64) :
    sub_u64 n (mul_u64 PSYNC_FS_CACHE_LRU_PERCENT n / 100) = n - 40 * n / 100 ∧
    sub_u64 (n - 40 * n / 100) (mul_u64 PSYNC_FS_CACHE_LRU2_PERCENT n / 100) =
      n - 40 * n / 100 - 25 * n / 100 ∧
    sub_u64 (n - 40 * n / 100 - 25 * n / 100) (mul_u64 PSYNC_FS_CACHE_LRU4_PERCENT n / 100) =
      n - 40 * n / 100 - 25 * n / 100 - 15 * n / 100 ∧
    sub_u64 (n - 40 * n / 100 - 25 * n / 100 - 15 * n / 100)
        (mul_u64 PSYNC_FS_CACHE_LRU8_PERCENT n / 100) =
      n - 40 * n / 100 - 25 * n / 100 - 15 * n / 100 - 10 * n / 100 ∧
    sub_u64 (n - 40 * n / 100 - 25 * n / 100 - 15 * n / 100 - 10 * n / 100)
        (mul_u64 PSYNC_FS_CACHE_LRU16_PERCENT n / 100) =
      n - 40 * n / 100 - 25 * n / 100 - 15 * n / 100 - 10 * n / 100 - 5 * n / 100 := by
  have h64 : (2 : Nat) ^ 64 = 18446744073709551616 := by norm_num
  rw [h64] at hn
  unfold mul_u64 PSYNC_FS_CACHE_LRU_PERCENT PSYNC_FS_CACHE_LRU2_PERCENT
    PSYNC_FS_CACHE_LRU4_PERCENT PSYNC_FS_CACHE_LRU8_PERCENT PSYNC_FS_CACHE_LRU16_PERCENT
  rw [h64, Nat.mod_eq_of_lt (by omega), Nat.mod_eq_of_lt (by omega), Nat.mod_eq_of_lt (by omega),
    Nat.mod_eq_of_lt (by omega), Nat.mod_eq_of_lt (by omega)]
  refine ⟨?_, ?_, ?_, ?_, ?_⟩ <;> (rw [sub_u64_of_le _ _ (by omega) (by omega)])

theorem qsort_length {α : Type} (cmp : α → α → Int) (l : List α) :
    (qsort cmp l).length = l.length :=
  List.length_insertionSort _ l

theorem qsort_perm {α : Type} (cmp : α → α → Int) (l : List α) : (qsort cmp l).Perm l :=
  List.perm_insertionSort _ l

end Ageing

section AgeingOrder

theorem cmp_lastuse_eq_threshold :
    pagecache_entry_cmp_lastuse = pagecache_entry_cmp_threshold 0 := by
  funext a b
  simp [pagecache_entry_cmp_lastuse, pagecache_entry_cmp_threshold]

theorem cmp_usecnt_lastuse2_eq_threshold :
    pagecache_entry_cmp_usecnt_lastuse2 = pagecache_entry_cmp_threshold 2 := rfl

theorem cmp_usecnt_lastuse4_eq_threshold :
    pagecache_entry_cmp_usecnt_lastuse4 = pagecache_entry_cmp_threshold 4 := rfl

theorem cmp_usecnt_lastuse8_eq_threshold :
    pagecache_entry_cmp_usecnt_lastuse8 = pagecache_entry_cmp_threshold 8 := rfl

theorem cmp_usecnt_lastuse16_eq_threshold :
    pagecache_entry_cmp_usecnt_lastuse16 = pagecache_entry_cmp_threshold 16 := rfl

/-- While the difference of the two `lastuse` values fits an `int`, the comparator is not
positive exactly when the first entry does not come after the second one in the order. -/
theorem cmp_threshold_le_iff (k : Nat) (a b : pagecache_entry)
    (h1 : a.lastuse - b.lastuse < 2 ^ 31) (h2 : b.lastuse - a.lastuse < 2 ^ 31) :
    pagecache_entry_cmp_threshold k a b ≤ 0 ↔ entry_le k a b := by
  unfold pagecache_entry_cmp_threshold entry_le
  split_ifs
  · simp
  · simp
  · rw [to_int_of_small _ (by omega) (by omega)]
    omega

theorem entry_le_total (k : Nat) (a b : pagecache_entry) : entry_le k a b ∨ entry_le k b a := by
  unfold entry_le
  split_ifs <;> first | omega | simp

theorem entry_le_trans (k : Nat) (a b c : pagecache_entry) (h1 : entry_le k a b)
    (h2 : entry_le k b c) : entry_le k a c := by
  unfold entry_le at *
  split_ifs at * <;> omega

theorem orderedInsert_congr {α : Type} (r r' : α → α → Prop) [DecidableRel r] [DecidableRel r']
    (a : α) (l : List α) (h : ∀ b ∈ l, (r a b ↔ r' a b)) :
    l.orderedInsert r a = l.orderedInsert r' a := by
  induction l with
  | nil => rfl
  | cons b l ih =>
    have hb := h b (List.mem_cons_self _ _)
    have ih' := ih (fun x hx => h x (List.mem_cons_of_mem _ hx))
    simp only [List.orderedInsert]
    by_cases hr : r a b
    · rw [if_pos hr, if_pos (hb.1 hr)]
    · rw [if_neg hr, if_neg (fun h' => hr (hb.2 h')), ih']

/-- Two relations that agree on the elements of a list sort it to the same result. -/
theorem insertionSort_congr {α : Type} (r r' : α → α → Prop) [DecidableRel r] [DecidableRel r']
    (l : List α) (h : ∀ a ∈ l, ∀ b ∈ l, (r a b ↔ r' a b)) :
    l.insertionSort r = l.insertionSort r' := by
  induction l with
  | nil => rfl
  | cons a l ih =>
    have ih' := ih (fun x hx y hy => h x (List.mem_cons_of_mem _ hx) y (List.mem_cons_of_mem _ hy))
    simp only [List.insertionSort]
    rw [ih']
    apply orderedInsert_congr
    intro b hb
    have hb' : b ∈ l := (List.perm_insertionSort r' l).mem_iff.1 hb
    exact h a (List.mem_cons_self _ _) b (List.mem_cons_of_mem _ hb')

/-- On a list whose `lastuse` values are close, `qsort` with the comparator of threshold `k`
is the sort by the order `entry_le k`. -/
theorem qsort_threshold_eq (k : Nat) (l : List pagecache_entry) (h : lastuse_close l) :
    qsort (pagecache_entry_cmp_threshold k) l = l.insertionSort (entry_le k) := by
  unfold qsort
  apply insertionSort_congr
  intro a ha b hb
  exact cmp_threshold_le_iff k a b (h a ha b hb) (h b hb a ha)

/-- In a sorted list, an element that has to stand before a member of a prefix is in the
prefix. -/
theorem mem_take_of_sorted {α : Type} (r : α → α → Prop) (l : List α) (hs : l.Pairwise r)
    (c : Nat) (x y : α) (hx : x ∈ l.take c) (hy : y ∈ l) (hxy : ¬ r x y) : y ∈ l.take c := by
  rw [← List.take_append_drop c l] at hs hy
  rcases List.mem_append.1 hy with h | h
  · exact h
  · exact absurd ((List.pairwise_append.1 hs).2.2 x hx y h) hxy

/-- One step of `clean_cache`: the new candidates are among the old ones, and an old candidate
that the order puts strictly before a new candidate is a new candidate as well. -/
theorem clean_cache_step_spec (k percent ocnt : Nat) (st : List pagecache_entry × Nat)
    (hclose : lastuse_close (clean_cache_candidates st)) (hlen : st.2 ≤ st.1.length)
    (hle : (clean_cache_step (pagecache_entry_cmp_threshold k) percent ocnt st).2 ≤ st.2) :
    (∀ x ∈ clean_cache_candidates
        (clean_cache_step (pagecache_entry_cmp_threshold k) percent ocnt st),
      x ∈ clean_cache_candidates st) ∧
    (∀ x y, x ∈ clean_cache_candidates
        (clean_cache_step (pagecache_entry_cmp_threshold k) percent ocnt st) →
      y ∈ clean_cache_candidates st → ¬ entry_le k x y →
      y ∈ clean_cache_candidates
        (clean_cache_step (pagecache_entry_cmp_threshold k) percent ocnt st)) ∧
    (clean_cache_step (pagecache_entry_cmp_threshold k) percent ocnt st).2 ≤
      (clean_cache_step (pagecache_entry_cmp_threshold k) percent ocnt st).1.length := by
  have hcand : clean_cache_candidates
      (clean_cache_step (pagecache_entry_cmp_threshold k) percent ocnt st) =
      ((clean_cache_candidates st).insertionSort (entry_le k)).take
        (clean_cache_step (pagecache_entry_cmp_threshold k) percent ocnt st).2 := by
    rw [← qsort_threshold_eq k _ hclose]
    unfold clean_cache_candidates
    conv_lhs => unfold clean_cache_step
    dsimp only
    rw [List.take_append_of_le_length]
    · rfl
    · rw [qsort_length, List.length_take]
      exact le_min hle (le_trans hle hlen)
  haveI : IsTotal pagecache_entry (entry_le k) := ⟨entry_le_total k⟩
  haveI : IsTrans pagecache_entry (entry_le k) := ⟨entry_le_trans k⟩
  refine ⟨?_, ?_, ?_⟩
  · intro x hx
    rw [hcand] at hx
    exact (List.perm_insertionSort _ _).mem_iff.1 (List.mem_of_mem_take hx)
  · intro x y hx hy hxy
    rw [hcand] at hx ⊢
    exact mem_take_of_sorted (entry_le k) _ (List.sorted_insertionSort _ _) _ x y hx
      ((List.perm_insertionSort _ _).mem_iff.2 hy) hxy
  · have : (clean_cache_step (pagecache_entry_cmp_threshold k) percent ocnt st).1.length =
        st.1.length := by
      unfold clean_cache_step
      dsimp only
      rw [List.length_append, qsort_length, ← List.length_append, List.take_append_drop]
    rw [this]
    exact le_trans hle hlen

end AgeingOrder

section AgeingSweep

theorem lastuse_close_of_subset {l l' : List pagecache_entry} (h : lastuse_close l)
    (hsub : ∀ x ∈ l', x ∈ l) : lastuse_close l' :=
  fun a ha b hb => h a (hsub a ha) b (hsub b hb)

/-- The five steps of `clean_cache` written with the comparator of threshold `k`. -/
theorem clean_cache_sort_eq (entries : List pagecache_entry) :
    clean_cache_sort entries =
      clean_cache_step (pagecache_entry_cmp_threshold 16) PSYNC_FS_CACHE_LRU16_PERCENT
        entries.length
      (clean_cache_step (pagecache_entry_cmp_threshold 8) PSYNC_FS_CACHE_LRU8_PERCENT
        entries.length
      (clean_cache_step (pagecache_entry_cmp_threshold 4) PSYNC_FS_CACHE_LRU4_PERCENT
        entries.length
      (clean_cache_step (pagecache_entry_cmp_threshold 2) PSYNC_FS_CACHE_LRU2_PERCENT
        entries.length
      (clean_cache_step (pagecache_entry_cmp_threshold 0) PSYNC_FS_CACHE_LRU_PERCENT
        entries.length (entries, entries.length))))) := by
  unfold clean_cache_sort
  rw [cmp_lastuse_eq_threshold, cmp_usecnt_lastuse2_eq_threshold,
    cmp_usecnt_lastuse4_eq_threshold, cmp_usecnt_lastuse8_eq_threshold,
    cmp_usecnt_lastuse16_eq_threshold]

/-- What the five steps of `clean_cache` give: the value of `cnt`, and for an entry `x` among
the final candidates and a loaded entry `y` that each of the five orders puts strictly before
`x`, that `y` is among the final candidates too. -/
theorem clean_cache_sort_spec (entries : List pagecache_entry)
    (hn : 40 * entries.length < 2 ^ 64) (hclose : lastuse_close entries) :
    (clean_cache_sort entries).2 =
        entries.length - 40 * entries.length / 100 - 25 * entries.length / 100 -
          15 * entries.length / 100 - 10 * entries.length / 100 - 5 * entries.length / 100 ∧
      (clean_cache_sort entries).2 ≤ (clean_cache_sort entries).1.length ∧
      (∀ x ∈ clean_cache_erased entries, x ∈ entries) ∧
      ∀ x y, x ∈ clean_cache_erased entries → y ∈ entries →
        ¬ entry_le 0 x y → ¬ entry_le 2 x y → ¬ entry_le 4 x y → ¬ entry_le 8 x y →
        ¬ entry_le 16 x y → y ∈ clean_cache_erased entries := by
  obtain ⟨c1, c2, c3, c4, c5⟩ := clean_cache_counts entries.length hn
  unfold clean_cache_erased
  rw [clean_cache_sort_eq]
  have e0 : clean_cache_candidates (entries, entries.length) = entries := List.take_length entries
  generalize hst0 : (entries, entries.length) = st0 at *
  have n0 : st0.2 = entries.length := by rw [← hst0]
  have l0 : st0.2 ≤ st0.1.length := by rw [← hst0]
  generalize hst1 : clean_cache_step (pagecache_entry_cmp_threshold 0)
    PSYNC_FS_CACHE_LRU_PERCENT entries.length st0 = st1 at *
  have n1 : st1.2 = entries.length - 40 * entries.length / 100 := by
    rw [← hst1, ← c1, ← n0]; rfl
  have s1 := clean_cache_step_spec 0 PSYNC_FS_CACHE_LRU_PERCENT entries.length st0
    (by rw [e0]; exact hclose) l0 (by rw [hst1, n1, n0]; omega)
  rw [hst1, e0] at s1
  generalize hst2 : clean_cache_step (pagecache_entry_cmp_threshold 2)
    PSYNC_FS_CACHE_LRU2_PERCENT entries.length st1 = st2 at *
  have n2 : st2.2 = entries.length - 40 * entries.length / 100 - 25 * entries.length / 100 := by
    rw [← hst2, ← c2, ← n1]; rfl
  have s2 := clean_cache_step_spec 2 PSYNC_FS_CACHE_LRU2_PERCENT entries.length st1
    (lastuse_close_of_subset hclose s1.1) s1.2.2 (by rw [hst2, n2, n1]; omega)
  rw [hst2] at s2
  generalize hst3 : clean_cache_step (pagecache_entry_cmp_threshold 4)
    PSYNC_FS_CACHE_LRU4_PERCENT entries.length st2 = st3 at *
  have n3 : st3.2 = entries.length - 40 * entries.length / 100 - 25 * entries.length / 100 -
      15 * entries.length / 100 := by
    rw [← hst3, ← c3, ← n2]; rfl
  have s3 := clean_cache_step_spec 4 PSYNC_FS_CACHE_LRU4_PERCENT entries.length st2
    (lastuse_close_of_subset hclose (fun x hx => s1.1 x (s2.1 x hx))) s2.2.2
    (by rw [hst3, n3, n2]; omega)
  rw [hst3] at s3
  generalize hst4 : clean_cache_step (pagecache_entry_cmp_threshold 8)
    PSYNC_FS_CACHE_LRU8_PERCENT entries.length st3 = st4 at *
  have n4 : st4.2 = entries.length - 40 * entries.length / 100 - 25 * entries.length / 100 -
      15 * entries.length / 100 - 10 * entries.length / 100 := by
    rw [← hst4, ← c4, ← n3]; rfl
  have s4 := clean_cache_step_spec 8 PSYNC_FS_CACHE_LRU8_PERCENT entries.length st3
    (lastuse_close_of_subset hclose (fun x hx => s1.1 x (s2.1 x (s3.1 x hx)))) s3.2.2
    (by rw [hst4, n4, n3]; omega)
  rw [hst4] at s4
  generalize hst5 : clean_cache_step (pagecache_entry_cmp_threshold 16)
    PSYNC_FS_CACHE_LRU16_PERCENT entries.length st4 = st5 at *
  have n5 : st5.2 = entries.length - 40 * entries.length / 100 - 25 * entries.length / 100 -
      15 * entries.length / 100 - 10 * entries.length / 100 - 5 * entries.length / 100 := by
    rw [← hst5, ← c5, ← n4]; rfl
  have s5 := clean_cache_step_spec 16 PSYNC_FS_CACHE_LRU16_PERCENT entries.length st4
    (lastuse_close_of_subset hclose (fun x hx => s1.1 x (s2.1 x (s3.1 x (s4.1 x hx))))) s4.2.2
    (by rw [hst5, n5, n4]; omega)
  rw [hst5] at s5
  refine ⟨n5, s5.2.2, fun x hx => s1.1 x (s2.1 x (s3.1 x (s4.1 x (s5.1 x hx)))), ?_⟩
  intro x y hx hy h0 h2 h4 h8 h16
  have x4 := s5.1 x hx
  have x3 := s4.1 x x4
  have x2 := s3.1 x x3
  have x1 := s2.1 x x2
  exact s5.2.1 x y hx (s4.2.1 x y x4 (s3.2.1 x y x3 (s2.2.1 x y x2 (s1.2.1 x y x1 hy h0) h2) h4)
    h8) h16

end AgeingSweep

section AgeingCount

theorem clean_cache_step_length (cmp : pagecache_entry → pagecache_entry → Int)
    (percent ocnt : Nat) (st : List pagecache_entry × Nat) :
    (clean_cache_step cmp percent ocnt st).1.length = st.1.length := by
  unfold clean_cache_step
  dsimp only
  rw [List.length_append, qsort_length, ← List.length_append, List.take_append_drop]

/-- Number of entries that the deleting loop of `clean_cache` runs over. -/
theorem clean_cache_erased_length (entries : List pagecache_entry)
    (hn : 40 * entries.length < 2 ^ 64) :
    (clean_cache_erased entries).length =
      entries.length - 40 * entries.length / 100 - 25 * entries.length / 100 -
        15 * entries.length / 100 - 10 * entries.length / 100 - 5 * entries.length / 100 := by
  obtain ⟨c1, c2, c3, c4, c5⟩ := clean_cache_counts entries.length hn
  have hcnt : (clean_cache_sort entries).2 =
      entries.length - 40 * entries.length / 100 - 25 * entries.length / 100 -
        15 * entries.length / 100 - 10 * entries.length / 100 - 5 * entries.length / 100 := by
    unfold clean_cache_sort clean_cache_step
    dsimp only
    rw [c1, c2, c3, c4, c5]
  have hlen : (clean_cache_sort entries).1.length = entries.length := by
    unfold clean_cache_sort
    simp only [clean_cache_step_length]
  unfold clean_cache_erased
  rw [List.length_take, hlen, hcnt]
  exact min_eq_left (Nat.le_trans (Nat.sub_le _ _) (Nat.le_trans (Nat.sub_le _ _)
    (Nat.le_trans (Nat.sub_le _ _) (Nat.le_trans (Nat.sub_le _ _) (Nat.sub_le _ _)))))

/-- The deleting loop of `clean_cache` over the entries `l`: every row whose id is the id of one
of the entries is set to `FREE`, the other rows stay, and the `uint32_t` counter
`free_db_pages` has counted every entry. -/
theorem clean_cache_free_rows (l : List pagecache_entry) (s : PageCache) :
    (l.foldl (fun s e => clean_cache_free_row s e.id) s).pagecache =
        s.pagecache.map (fun r =>
          if r.id ∈ l.map (fun e => e.id) then
            { r with type := PAGE_TYPE_FREE, hash := none, pageid := none }
          else r) ∧
      (l.foldl (fun s e => clean_cache_free_row s e.id) s).free_db_pages % 2 ^ 32 =
        (s.free_db_pages + l.length) % 2 ^ 32 := by
  induction l generalizing s with
  | nil => exact ⟨by simp, rfl⟩
  | cons e l ih =>
    obtain ⟨h1, h2⟩ := ih (clean_cache_free_row s e.id)
    simp only [List.foldl_cons]
    refine ⟨?_, ?_⟩
    · rw [h1]
      unfold clean_cache_free_row
      simp only [List.map_map, List.map_cons, List.mem_cons]
      apply List.map_congr_left
      intro r _
      simp only [Function.comp]
      by_cases hr : r.id = e.id
      · simp [hr]
      · simp [hr]
    · rw [h2]
      unfold clean_cache_free_row add_u32
      simp only [List.length_cons]
      omega

end AgeingCount

section AgeingClaims

/-- C14, refuted at a concrete input: of 21 loaded entries the sweep sets 2 rows to `FREE` and leaves 19
as `READ`, while the sum of the five percentages of 21 is 19. -/
theorem clean_cache_sweep_frees_two_of_21 :
    toyEntries.length = 21 ∧
      (clean_cache_erased toyEntries).map (fun e => e.id) = [1, 2] ∧
      ((clean_cache_sweep toyAgedCache toyEntries).pagecache.filter
        (fun r => r.type == PAGE_TYPE_FREE)).length = 2 ∧
      ((clean_cache_sweep toyAgedCache toyEntries).pagecache.filter
        (fun r => r.type == PAGE_TYPE_READ)).length = 19 ∧
      40 * 21 / 100 + 25 * 21 / 100 + 15 * 21 / 100 + 10 * 21 / 100 + 5 * 21 / 100 = 19 := by
  refine ⟨rfl, by decide, by decide, by decide, by decide⟩

/-- C14, amended: the five percentages are the shares of the loaded entries that a
sweep of `clean_cache` spares. Of `n` loaded entries the deleting loop runs over
`n - (floor(40n/100) + floor(25n/100) + floor(15n/100) + floor(10n/100) + floor(5n/100))`, about
5% of them (between `n/20` and `(n+99)/20`); it sets the rows with their ids to `FREE`, leaves
every other row as it is, and counts each of them in `free_db_pages`. -/
theorem clean_cache_erases_remainder (s : PageCache) (entries : List pagecache_entry)
    (hn : 40 * entries.length < 2 ^ 64) :
    (clean_cache_erased entries).length +
        (40 * entries.length / 100 + 25 * entries.length / 100 + 15 * entries.length / 100 +
          10 * entries.length / 100 + 5 * entries.length / 100) = entries.length ∧
      entries.length ≤ 20 * (clean_cache_erased entries).length ∧
      20 * (clean_cache_erased entries).length ≤ entries.length + 99 ∧
      (clean_cache_sweep s entries).free_db_pages % 2 ^ 32 =
        (s.free_db_pages + (clean_cache_erased entries).length) % 2 ^ 32 ∧
      (clean_cache_sweep s entries).pagecache =
        s.pagecache.map (fun r =>
          if r.id ∈ (clean_cache_erased entries).map (fun e => e.id) then
            { r with type := PAGE_TYPE_FREE, hash := none, pageid := none }
          else r) := by
  have hlen := clean_cache_erased_length entries hn
  have hrows := clean_cache_free_rows (clean_cache_erased entries) s
  refine ⟨by omega, by omega, by omega, hrows.2, hrows.1⟩

/-- C14, evaluated on the 21 entries of `toyEntries`. -/
theorem clean_cache_erases_remainder_witness :
    (clean_cache_erased toyEntries).length +
        (40 * toyEntries.length / 100 + 25 * toyEntries.length / 100 +
          15 * toyEntries.length / 100 + 10 * toyEntries.length / 100 +
          5 * toyEntries.length / 100) = toyEntries.length :=
  (clean_cache_erases_remainder toyAgedCache toyEntries (by decide)).1

/-- C15. In one sweep of `clean_cache` over loaded entries whose `lastuse` values differ by less
than `2^31`, if an entry `x` with a use count of 16 or more is among the erased entries, then
every loaded entry `y` with a use count below 16 and a `lastuse` before that of `x` is among the
erased entries as well. -/
theorem erased_used_entry_takes_older_ones (entries : List pagecache_entry)
    (hn : 40 * entries.length < 2 ^ 64) (hclose : lastuse_close entries)
    (x y : pagecache_entry) (hx : x ∈ clean_cache_erased entries) (hxu : 16 ≤ x.usecnt)
    (hy : y ∈ entries) (hyu : y.usecnt < 16) (hold : y.lastuse < x.lastuse) :
    y ∈ clean_cache_erased entries := by
  refine (clean_cache_sort_spec entries hn hclose).2.2.2 x y hx hy ?_ ?_ ?_ ?_ ?_ <;>
    (unfold entry_le; split_ifs <;> first | omega | exact not_false)

/-- C15, evaluated on `toyEntries`: the entry with id 2, used 16 times, is erased, and so is the
older entry with id 1 that was never used again. -/
theorem erased_used_entry_takes_older_ones_witness :
    ({ lastuse := 1000, id := 1, usecnt := 0 } : pagecache_entry) ∈
      clean_cache_erased toyEntries :=
  erased_used_entry_takes_older_ones toyEntries (by decide)
    (by unfold lastuse_close; decide)
    { lastuse := 1001, id := 2, usecnt := 16 } { lastuse := 1000, id := 1, usecnt := 0 }
    (by decide) (by decide) (by decide) (by decide) (by decide)

end AgeingClaims

section PageSegments

/-- The mask of `offset_round_down_to_page` clears the offset inside the page. -/
theorem offset_round_down_eq (cfg : Settings) (k : Nat) (hps : cfg.PSYNC_FS_PAGE_SIZE = 2 ^ k)
    (hk : k ≤ 64) (offset : Nat) (ho : offset < 2 ^ 64) :
    offset_round_down_to_page cfg offset = 2 ^ k * (offset / 2 ^ k) := by
  unfold offset_round_down_to_page
  rw [hps]
  have hm : 2 ^ 64 - 1 - (2 ^ k - 1) = 2 ^ k * (2 ^ (64 - k) - 1) := by
    have h1 : (2 : Nat) ^ 64 = 2 ^ k * 2 ^ (64 - k) := by
      rw [← pow_add]; congr 1; omega
    have h2 : 0 < (2 : Nat) ^ k := Nat.two_pow_pos _
    have h3 : 0 < (2 : Nat) ^ (64 - k) := Nat.two_pow_pos _
    rw [Nat.mul_sub, h1, Nat.mul_one]
    omega
  rw [hm]
  apply Nat.eq_of_testBit_eq
  intro j
  rw [Nat.testBit_and, Nat.testBit_mul_pow_two, Nat.testBit_mul_pow_two,
    Nat.testBit_two_pow_sub_one, ← Nat.shiftRight_eq_div_pow, Nat.testBit_shiftRight]
  by_cases hj : j ≥ k
  · have e : k + (j - k) = j := by omega
    rw [e]
    by_cases hj2 : j < 64
    · have : j - k < 64 - k := by omega
      simp [hj, this]
    · have hx : offset.testBit j = false :=
        Nat.testBit_lt_two_pow (lt_of_lt_of_le ho (Nat.pow_le_pow_right (by norm_num)
          (by omega)))
      simp [hx]
  · simp [hj]

/-- Setting the bits below the page size gives the last byte of the page. -/
theorem or_page_mask_eq (k y : Nat) : y ||| (2 ^ k - 1) = 2 ^ k * (y / 2 ^ k) + (2 ^ k - 1) := by
  apply Nat.eq_of_testBit_eq
  intro j
  have h2 : 0 < (2 : Nat) ^ k := Nat.two_pow_pos _
  rw [Nat.testBit_or, Nat.testBit_mul_pow_two_add _ (by omega), Nat.testBit_two_pow_sub_one,
    ← Nat.shiftRight_eq_div_pow, Nat.testBit_shiftRight]
  by_cases hj : j < k
  · simp [hj]
  · have e : k + (j - k) = j := by omega
    simp [hj, e]

/-- The page count times the page size, for a size that is not 0 and does not reach the end of
the 64-bit range. -/
theorem size_round_up_eq (cfg : Settings) (k : Nat) (hps : cfg.PSYNC_FS_PAGE_SIZE = 2 ^ k)
    (size : Nat) (h0 : 0 < size) (hbig : size + 2 ^ k ≤ 2 ^ 64) :
    size_round_up_to_page cfg size = 2 ^ k * ((size - 1) / 2 ^ k + 1) := by
  unfold size_round_up_to_page
  have h2 : 0 < (2 : Nat) ^ k := Nat.two_pow_pos _
  rw [hps, sub_u64_of_le _ _ (by omega) (by omega), or_page_mask_eq, Nat.mul_add, Nat.mul_one]
  have hle : 2 ^ k * ((size - 1) / 2 ^ k) ≤ size - 1 := Nat.mul_div_le _ _
  rw [Nat.mod_eq_of_lt (by omega)]
  omega

/-- The size of the last of several pages: what is left of `t` bytes after `q` full pages, where
`q = (t-1)/P`. -/
theorem last_page_size (t P : Nat) (hP : 0 < P) (ht : 0 < t) :
    (if t % P = 0 then P else t % P) = t - P * ((t - 1) / P) ∧
      P * ((t - 1) / P) < t ∧ t ≤ P * ((t - 1) / P) + P := by
  have h1 := Nat.div_add_mod (t - 1) P
  have h2 := Nat.mod_lt (t - 1) hP
  have e : t = P * ((t - 1) / P) + ((t - 1) % P + 1) := by omega
  have hm : t % P = ((t - 1) % P + 1) % P := by
    conv_lhs => rw [e]
    exact Nat.mul_add_mod _ _ _
  by_cases hfull : (t - 1) % P + 1 = P
  · rw [hm, hfull, Nat.mod_self, if_pos rfl]
    omega
  · rw [hm, Nat.mod_eq_of_lt (by omega), if_neg (by omega)]
    omega

end PageSegments

section PageSegmentsTile

/-- Sizes that add up along consecutive destinations sum to the last destination. -/
theorem sum_of_consecutive (f g : Nat → Nat) (n : Nat) (h0 : g 0 = 0)
    (hstep : ∀ i, i + 1 < n → g (i + 1) = g i + f i) (m : Nat) (hm : m < n) :
    ((List.range m).map f).sum = g m := by
  induction m with
  | zero => simp [h0]
  | succ m ih =>
    rw [List.sum_range_succ, ih (by omega), hstep m hm]

/-- The geometry of a read: page offset, first page and page count as
`psync_pagecache_read_unmodified_locked` computes them. -/
theorem read_geometry (cfg : Settings) (k : Nat) (hps : cfg.PSYNC_FS_PAGE_SIZE = 2 ^ k)
    (csize offset : Nat) (hsize : 0 < csize) (hbig : offset + csize + 2 ^ k ≤ 2 ^ 64) :
    offset - offset_round_down_to_page cfg offset = offset % 2 ^ k ∧
      offset_round_down_to_page cfg offset / 2 ^ k = offset / 2 ^ k ∧
      size_round_up_to_page cfg (csize + offset % 2 ^ k) / 2 ^ k =
        (csize + offset % 2 ^ k - 1) / 2 ^ k + 1 := by
  have h2 : 0 < (2 : Nat) ^ k := Nat.two_pow_pos _
  have hk : k ≤ 64 := by
    by_contra hk
    have : (2 : Nat) ^ 64 < 2 ^ k := Nat.pow_lt_pow_right (by norm_num) (by omega)
    omega
  have hmod := Nat.mod_lt offset h2
  have hle := Nat.mod_le offset (2 ^ k)
  rw [offset_round_down_eq cfg k hps hk offset (by omega),
    size_round_up_eq cfg k hps _ (by omega) (by omega),
    Nat.mul_div_cancel_left _ h2, Nat.mul_div_cancel_left _ h2]
  have := Nat.div_add_mod offset (2 ^ k)
  refine ⟨by omega, rfl, rfl⟩

/-- The segment of page `i` with the mask written as a remainder. -/
theorem page_segment_eq (cfg : Settings) (k : Nat) (hps : cfg.PSYNC_FS_PAGE_SIZE = 2 ^ k)
    (size pageoff pagecnt i : Nat) :
    page_segment cfg size pageoff pagecnt i =
      if i = 0 then (pageoff, if size > 2 ^ k - pageoff then 2 ^ k - pageoff else size, 0)
      else if i = pagecnt - 1 then
        (0, if (size + pageoff) % 2 ^ k = 0 then 2 ^ k else (size + pageoff) % 2 ^ k,
          i * 2 ^ k - pageoff)
      else (0, 2 ^ k, i * 2 ^ k - pageoff) := by
  unfold page_segment
  rw [hps, Nat.and_pow_two_sub_one_eq_mod]

/-- The segment of one page of a read, in terms of the page size `P`, the first page `a`, the
offset inside it and the number `q` of the last page. -/
theorem page_segment_covers (cfg : Settings) (k : Nat) (hps : cfg.PSYNC_FS_PAGE_SIZE = 2 ^ k)
    (csize pageoff a i : Nat) (hsize : 0 < csize) (hpo : pageoff < 2 ^ k)
    (hi : i ≤ (csize + pageoff - 1) / 2 ^ k) :
    (a + i) * 2 ^ k +
          (page_segment cfg csize pageoff ((csize + pageoff - 1) / 2 ^ k + 1) i).1 =
        max (2 ^ k * a + pageoff) ((a + i) * 2 ^ k) ∧
      (a + i) * 2 ^ k +
          (page_segment cfg csize pageoff ((csize + pageoff - 1) / 2 ^ k + 1) i).1 +
          (page_segment cfg csize pageoff ((csize + pageoff - 1) / 2 ^ k + 1) i).2.1 =
        min (2 ^ k * a + pageoff + csize) ((a + i + 1) * 2 ^ k) ∧
      (page_segment cfg csize pageoff ((csize + pageoff - 1) / 2 ^ k + 1) i).1 +
          (page_segment cfg csize pageoff ((csize + pageoff - 1) / 2 ^ k + 1) i).2.1 ≤ 2 ^ k ∧
      2 ^ k * a + pageoff +
          (page_segment cfg csize pageoff ((csize + pageoff - 1) / 2 ^ k + 1) i).2.2 =
        max (2 ^ k * a + pageoff) ((a + i) * 2 ^ k) := by
  have h2 : 0 < (2 : Nat) ^ k := Nat.two_pow_pos _
  obtain ⟨l1, l2, l3⟩ := last_page_size (csize + pageoff) (2 ^ k) h2 (by omega)
  rw [page_segment_eq cfg k hps]
  have e1 : (a + i) * 2 ^ k = 2 ^ k * a + 2 ^ k * i := by ring
  have e2 : (a + i + 1) * 2 ^ k = 2 ^ k * a + 2 ^ k * i + 2 ^ k := by ring
  have e3 : i * 2 ^ k = 2 ^ k * i := by ring
  have hiq : 2 ^ k * i ≤ 2 ^ k * ((csize + pageoff - 1) / 2 ^ k) := Nat.mul_le_mul_left _ hi
  rw [e1, e2, e3]
  by_cases h0 : i = 0
  · subst h0
    simp only [if_true, Nat.mul_zero, Nat.add_zero]
    split_ifs <;> omega
  · rw [if_neg h0]
    have hi1 : 2 ^ k ≤ 2 ^ k * i := by
      calc 2 ^ k = 2 ^ k * 1 := (Nat.mul_one _).symm
        _ ≤ 2 ^ k * i := Nat.mul_le_mul_left _ (by omega)
    by_cases hlast : i = (csize + pageoff - 1) / 2 ^ k + 1 - 1
    · rw [if_pos hlast]
      have hq : (csize + pageoff - 1) / 2 ^ k = i := by omega
      rw [hq] at l1 l2 l3
      dsimp only
      rw [l1]
      omega
    · rw [if_neg hlast]
      have hi2 : 2 ^ k * i + 2 ^ k ≤ 2 ^ k * ((csize + pageoff - 1) / 2 ^ k) := by
        calc 2 ^ k * i + 2 ^ k = 2 ^ k * (i + 1) := by ring
          _ ≤ 2 ^ k * ((csize + pageoff - 1) / 2 ^ k) := Nat.mul_le_mul_left _ (by omega)
      dsimp only
      omega

end PageSegmentsTile

section PageSegmentsClaim

/-- C18. For a read at `offset` below the initial size of the file with a size that is not 0
(the page size a power of two, the initial size at least one page below `2^64`), the segments
that the page loop of `psync_pagecache_read_unmodified_locked` computes from the clamped size
tile the request: page `i` covers the file bytes from `max(offset, (first+i)*PAGE_SIZE)` to
`min(offset+size, (first+i+1)*PAGE_SIZE)`, `copyoff+copysize` stays within the page, the
destination of page `i` is the distance of its first byte from `offset`, the destinations are
consecutive from 0, and the sizes sum to the clamped size. -/
theorem page_segments_tile (cfg : Settings) (k : Nat) (hps : cfg.PSYNC_FS_PAGE_SIZE = 2 ^ k)
    (initialsize size offset : Nat) (hoff : offset < initialsize) (hsize : 0 < size)
    (hbig : initialsize + cfg.PSYNC_FS_PAGE_SIZE ≤ 2 ^ 64)
    (csize pageoff pagecnt first : Nat)
    (hcs : csize = if offset + size > initialsize then initialsize - offset else size)
    (hpo : pageoff = offset - offset_round_down_to_page cfg offset)
    (hcnt : pagecnt = size_round_up_to_page cfg (csize + pageoff) / cfg.PSYNC_FS_PAGE_SIZE)
    (hfirst : first = offset_round_down_to_page cfg offset / cfg.PSYNC_FS_PAGE_SIZE) :
    0 < pagecnt ∧
      (∀ i, i < pagecnt →
        (first + i) * cfg.PSYNC_FS_PAGE_SIZE + (page_segment cfg csize pageoff pagecnt i).1 =
            max offset ((first + i) * cfg.PSYNC_FS_PAGE_SIZE) ∧
          (first + i) * cfg.PSYNC_FS_PAGE_SIZE + (page_segment cfg csize pageoff pagecnt i).1 +
              (page_segment cfg csize pageoff pagecnt i).2.1 =
            min (offset + csize) ((first + i + 1) * cfg.PSYNC_FS_PAGE_SIZE) ∧
          (page_segment cfg csize pageoff pagecnt i).1 +
              (page_segment cfg csize pageoff pagecnt i).2.1 ≤ cfg.PSYNC_FS_PAGE_SIZE ∧
          offset + (page_segment cfg csize pageoff pagecnt i).2.2 =
            max offset ((first + i) * cfg.PSYNC_FS_PAGE_SIZE)) ∧
      (page_segment cfg csize pageoff pagecnt 0).2.2 = 0 ∧
      (∀ i, i + 1 < pagecnt →
        (page_segment cfg csize pageoff pagecnt (i + 1)).2.2 =
          (page_segment cfg csize pageoff pagecnt i).2.2 +
            (page_segment cfg csize pageoff pagecnt i).2.1) ∧
      ((List.range pagecnt).map (fun i => (page_segment cfg csize pageoff pagecnt i).2.1)).sum =
        csize := by
  have h2 : 0 < (2 : Nat) ^ k := Nat.two_pow_pos _
  have hcs0 : 0 < csize := by rw [hcs]; split_ifs <;> omega
  have hcs1 : offset + csize ≤ initialsize := by rw [hcs]; split_ifs <;> omega
  rw [hps] at hbig hcnt hfirst ⊢
  obtain ⟨g1, g2, g3⟩ := read_geometry cfg k hps csize offset hcs0 (by omega)
  rw [g1] at hpo
  rw [g2] at hfirst
  subst hpo
  subst hfirst
  rw [g3] at hcnt
  subst hcnt
  have hmod := Nat.mod_lt offset h2
  have hoffset : 2 ^ k * (offset / 2 ^ k) + offset % 2 ^ k = offset :=
    Nat.div_add_mod offset (2 ^ k)
  obtain ⟨l1, l2, l3⟩ := last_page_size (csize + offset % 2 ^ k) (2 ^ k) h2 (by omega)
  have hseg := fun i (hi : i < (csize + offset % 2 ^ k - 1) / 2 ^ k + 1) =>
    page_segment_covers cfg k hps csize (offset % 2 ^ k) (offset / 2 ^ k) i hcs0 hmod
      (by omega)
  rw [hoffset] at hseg
  have hstep : ∀ i, i + 1 < (csize + offset % 2 ^ k - 1) / 2 ^ k + 1 →
      (page_segment cfg csize (offset % 2 ^ k) ((csize + offset % 2 ^ k - 1) / 2 ^ k + 1)
          (i + 1)).2.2 =
        (page_segment cfg csize (offset % 2 ^ k) ((csize + offset % 2 ^ k - 1) / 2 ^ k + 1)
            i).2.2 +
          (page_segment cfg csize (offset % 2 ^ k) ((csize + offset % 2 ^ k - 1) / 2 ^ k + 1)
            i).2.1 := by
    intro i hi
    obtain ⟨a1, a2, _, a4⟩ := hseg i (by omega)
    obtain ⟨_, _, _, b4⟩ := hseg (i + 1) hi
    have e1 : (offset / 2 ^ k + (i + 1)) * 2 ^ k =
        2 ^ k * (offset / 2 ^ k) + 2 ^ k * i + 2 ^ k := by ring
    have e2 : (offset / 2 ^ k + i + 1) * 2 ^ k =
        2 ^ k * (offset / 2 ^ k) + 2 ^ k * i + 2 ^ k := by ring
    have e3 : (offset / 2 ^ k + i) * 2 ^ k = 2 ^ k * (offset / 2 ^ k) + 2 ^ k * i := by ring
    have hi2 : 2 ^ k * i + 2 ^ k ≤ 2 ^ k * ((csize + offset % 2 ^ k - 1) / 2 ^ k) := by
      calc 2 ^ k * i + 2 ^ k = 2 ^ k * (i + 1) := by ring
        _ ≤ 2 ^ k * ((csize + offset % 2 ^ k - 1) / 2 ^ k) :=
          Nat.mul_le_mul_left _ (by omega)
    rw [e1] at b4
    rw [e2] at a2
    rw [e3] at a1 a2 a4
    omega
  have hzero : (page_segment cfg csize (offset % 2 ^ k)
      ((csize + offset % 2 ^ k - 1) / 2 ^ k + 1) 0).2.2 = 0 := by
    unfold page_segment
    rw [if_pos rfl]
  refine ⟨Nat.succ_pos _, hseg, hzero, hstep, ?_⟩
  have hsum := sum_of_consecutive
    (fun i => (page_segment cfg csize (offset % 2 ^ k)
      ((csize + offset % 2 ^ k - 1) / 2 ^ k + 1) i).2.1)
    (fun i => (page_segment cfg csize (offset % 2 ^ k)
      ((csize + offset % 2 ^ k - 1) / 2 ^ k + 1) i).2.2)
    ((csize + offset % 2 ^ k - 1) / 2 ^ k + 1) hzero hstep
    ((csize + offset % 2 ^ k - 1) / 2 ^ k) (by omega)
  obtain ⟨a1, a2, _, a4⟩ := hseg ((csize + offset % 2 ^ k - 1) / 2 ^ k) (by omega)
  have e2 : (offset / 2 ^ k + (csize + offset % 2 ^ k - 1) / 2 ^ k + 1) * 2 ^ k =
      2 ^ k * (offset / 2 ^ k) + 2 ^ k * ((csize + offset % 2 ^ k - 1) / 2 ^ k) + 2 ^ k := by
    ring
  have e3 : (offset / 2 ^ k + (csize + offset % 2 ^ k - 1) / 2 ^ k) * 2 ^ k =
      2 ^ k * (offset / 2 ^ k) + 2 ^ k * ((csize + offset % 2 ^ k - 1) / 2 ^ k) := by
    ring
  rw [e2] at a2
  rw [e3] at a1 a2 a4
  rw [List.sum_range_succ, hsum]
  dsimp only at a1 a2 a4 ⊢
  omega

/-- C18, evaluated on a read of 5000 bytes at offset 100 of a file of 12288 bytes with pages of
4096 bytes: the two segments are 3996 and 1004 bytes long. -/
theorem page_segments_tile_witness :
    ((List.range 2).map (fun i => (page_segment (toySettings true) 5000 100 2 i).2.1)).sum =
      5000 :=
  (page_segments_tile (toySettings true) 12 rfl 12288 5000 100 (by decide) (by decide)
    (by decide) 5000 100 2 0 (by decide) (by decide) (by decide) (by decide)).2.2.2.2

end PageSegmentsClaim

section Delivery

theorem send_page_wait_rsize_eq (page_size off size : Nat) :
    send_page_wait_rsize page_size off size = delivered_bytes page_size off size := by
  unfold send_page_wait_rsize delivered_bytes
  split_ifs <;> omega

theorem check_page_copy_size_eq (page_size size off : Nat) :
    check_page_copy_size page_size size off = delivered_bytes page_size off size := by
  unfold check_page_copy_size delivered_bytes
  split_ifs <;> omega

/-- The loop of `check_page_in_memory_by_hash` over pages that do not match leaves `ret` and
`size` as they are. -/
theorem check_memory_fold_nomatch (tm hash pageid off : Nat) (l : List psync_cache_page_t)
    (acc : Option Nat × Nat × List psync_cache_page_t)
    (h : ∀ p ∈ l, page_match hash pageid p = false) :
    (l.foldl
        (fun (acc : Option Nat × Nat × List psync_cache_page_t) page =>
          if page_match hash pageid page then
            let page :=
              if tm > page.lastuse + 5 then
                { page with usecnt := add_u32 page.usecnt 1, lastuse := tm }
              else page
            let size := check_page_copy_size page.size acc.2.1 off
            (some size, size, acc.2.2 ++ [page])
          else (acc.1, acc.2.1, acc.2.2 ++ [page])) acc).1 = acc.1 ∧
      (l.foldl
        (fun (acc : Option Nat × Nat × List psync_cache_page_t) page =>
          if page_match hash pageid page then
            let page :=
              if tm > page.lastuse + 5 then
                { page with usecnt := add_u32 page.usecnt 1, lastuse := tm }
              else page
            let size := check_page_copy_size page.size acc.2.1 off
            (some size, size, acc.2.2 ++ [page])
          else (acc.1, acc.2.1, acc.2.2 ++ [page])) acc).2.1 = acc.2.1 := by
  induction l generalizing acc with
  | nil => exact ⟨rfl, rfl⟩
  | cons p l ih =>
    simp only [List.foldl_cons]
    have hp := h p (List.mem_cons_self _ _)
    rw [hp]
    simp only [Bool.false_eq_true, if_false]
    exact ih _ (fun x hx => h x (List.mem_cons_of_mem _ hx))

/-- A hit of `check_page_in_memory_by_hash` on the one page of the bucket that matches. -/
theorem check_page_in_memory_hit (cfg : Settings) (tm : Nat) (st : PageCache)
    (hash pageid n off : Nat) (pre post : List psync_cache_page_t) (page : psync_cache_page_t)
    (hbucket : st.cache_hash (pagehash_by_hash_and_pageid cfg hash pageid) = pre ++ page :: post)
    (hpre : ∀ p ∈ pre, page_match hash pageid p = false)
    (hpost : ∀ p ∈ post, page_match hash pageid p = false)
    (hpage : page_match hash pageid page = true) :
    (check_page_in_memory_by_hash cfg tm st hash pageid n off).1 =
      some (check_page_copy_size page.size n off) := by
  unfold check_page_in_memory_by_hash
  dsimp only
  rw [hbucket, List.foldl_append, List.foldl_cons]
  rw [(check_memory_fold_nomatch tm hash pageid off post _ hpost).1]
  rw [hpage]
  simp only [if_true]
  rw [(check_memory_fold_nomatch tm hash pageid off pre _ hpre).2]
  split_ifs <;> rfl

/-- The loop of `psync_pagecache_send_page_wait_page` over the waiters of an entry: the page
keeps its size, and a waiter of the heap keeps its request and, if it is listed, has got the
bytes of the page that it is due. -/
theorem send_page_fold_spec (ids : List Nat) (acc : PageCache × psync_cache_page_t) (id : Nat)
    (w : psync_page_waiter_t) (hw : acc.1.waiters[id]? = some w) :
    ∃ w', (ids.foldl (fun (acc : PageCache × psync_cache_page_t) id =>
          (set_waiter acc.1 id (fun pwt =>
              { pwt with rsize := send_page_wait_rsize acc.2.size pwt.off pwt.size, error := 0,
                         ready := 1 }),
            { acc.2 with usecnt := add_u32 acc.2.usecnt 1 })) acc).1.waiters[id]? = some w' ∧
      w'.off = w.off ∧ w'.size = w.size ∧ w'.buff = w.buff ∧
      (id ∈ ids → w'.rsize = send_page_wait_rsize acc.2.size w.off w.size ∧ w'.ready = 1 ∧
        w'.error = 0) ∧
      (id ∉ ids → w' = w) := by
  induction ids generalizing acc w with
  | nil => exact ⟨w, hw, rfl, rfl, rfl, fun h => absurd h (List.not_mem_nil _), fun _ => rfl⟩
  | cons a rest ih =>
    simp only [List.foldl_cons]
    by_cases ha : a = id
    · subst ha
      obtain ⟨w', h1, h2, h3, h4, h5, h6⟩ := ih
        (set_waiter acc.1 a (fun pwt =>
            { pwt with rsize := send_page_wait_rsize acc.2.size pwt.off pwt.size, error := 0,
                       ready := 1 }),
          { acc.2 with usecnt := add_u32 acc.2.usecnt 1 })
        { w with rsize := send_page_wait_rsize acc.2.size w.off w.size, error := 0, ready := 1 }
        (by simp [set_waiter_getElem?, hw])
      refine ⟨w', h1, h2, h3, h4, fun _ => ?_, fun h => absurd (List.mem_cons_self _ _) h⟩
      by_cases hr : a ∈ rest
      · exact h5 hr
      · rw [h6 hr]
        exact ⟨rfl, rfl, rfl⟩
    · obtain ⟨w', h1, h2, h3, h4, h5, h6⟩ := ih
        (set_waiter acc.1 a (fun pwt =>
            { pwt with rsize := send_page_wait_rsize acc.2.size pwt.off pwt.size, error := 0,
                       ready := 1 }),
          { acc.2 with usecnt := add_u32 acc.2.usecnt 1 })
        w (by simp [set_waiter_getElem?, ha, hw])
      refine ⟨w', h1, h2, h3, h4, fun h => ?_, fun h => ?_⟩
      · rcases List.mem_cons.1 h with h | h
        · exact absurd h.symm ha
        · exact h5 h
      · exact h6 (fun h' => h (List.mem_cons_of_mem _ h'))

/-- C19. The three delivery paths give the same number of bytes: for a page of valid size
`psize` and a reader who wants `n` bytes from the in-page offset `off`, a hit of
`check_page_in_memory_by_hash` on the page of a bucket, a hit of
`check_page_in_database_by_hash` on a row whose read succeeds, and
`psync_pagecache_send_page_wait_page` for a listed waiter all count `min(n, psize - off)` bytes
when `off < psize` and 0 otherwise; the count reaches neither beyond the valid size nor beyond
the wanted size. -/
theorem delivery_paths_agree (cfg : Settings) (tm psize n off : Nat)
    (sm : PageCache) (hashm pageidm : Nat) (pre post : List psync_cache_page_t)
    (page : psync_cache_page_t)
    (hbucket : sm.cache_hash (pagehash_by_hash_and_pageid cfg hashm pageidm) =
      pre ++ page :: post)
    (hpre : ∀ p ∈ pre, page_match hashm pageidm p = false)
    (hpost : ∀ p ∈ post, page_match hashm pageidm p = false)
    (hpage : page_match hashm pageidm page = true) (hpsize : page.size = psize)
    (sd : PageCache) (hashd pageidd : Nat) (row : pagecache_row)
    (hrow : sd.pagecache.find? (row_match hashd pageidd) = some row) (hrsize : row.size = psize)
    (sw : PageCache) (h : Nat) (pw : psync_page_wait_t) (newpage : psync_cache_page_t)
    (id : Nat) (w : psync_page_waiter_t) (hnew : newpage.size = psize) (hid : id ∈ pw.waiters)
    (hw : sw.waiters[id]? = some w) (hoff : w.off = off) (hsz : w.size = n) :
    (check_page_in_memory_by_hash cfg tm sm hashm pageidm n off).1 =
        some (delivered_bytes psize off n) ∧
      (check_page_in_database_by_hash true sd hashd pageidd n off).1 =
        some (delivered_bytes psize off n) ∧
      (∃ w', (psync_pagecache_send_page_wait_page sw h pw newpage).1.waiters[id]? = some w' ∧
        w'.rsize = delivered_bytes psize off n ∧ w'.ready = 1 ∧ w'.error = 0 ∧
        w'.buff = w.buff) ∧
      off + delivered_bytes psize off n ≤ max off psize ∧ delivered_bytes psize off n ≤ n := by
  refine ⟨?_, ?_, ?_, ?_, ?_⟩
  · rw [check_page_in_memory_hit cfg tm sm hashm pageidm n off pre post page hbucket hpre hpost
      hpage, hpsize, check_page_copy_size_eq]
  · unfold check_page_in_database_by_hash
    rw [hrow]
    simp only [Bool.not_true, Bool.false_eq_true, if_false]
    rw [hrsize, check_page_copy_size_eq]
  · unfold psync_pagecache_send_page_wait_page
    obtain ⟨w', h1, _, _, h4, h5, _⟩ := send_page_fold_spec pw.waiters
      (wait_hash_del sw h pw.hash pw.pageid, newpage) id w hw
    obtain ⟨r1, r2, r3⟩ := h5 hid
    refine ⟨w', h1, ?_, r2, r3, h4⟩
    rw [r1, hnew, hoff, hsz, send_page_wait_rsize_eq]
  · unfold delivered_bytes
    split_ifs <;> omega
  · unfold delivered_bytes
    split_ifs <;> omega

end Delivery

section DeliveryRun

/-- C19, evaluated on `toyDelivery`: from a page with 100 valid bytes, each of the three paths
gives 50 bytes to a reader who wants 200 bytes from offset 50. -/
theorem delivery_paths_agree_witness :
    (check_page_in_memory_by_hash (toySettings true) 11 toyDelivery 7 2 200 50).1 = some 50 ∧
      (check_page_in_database_by_hash true toyDelivery 9 0 200 50).1 = some 50 :=
  ⟨(delivery_paths_agree (toySettings true) 11 100 200 50
      toyDelivery 7 2 [] []
      { toyFreePage 0 with hash := 7, pageid := 2, lastuse := 10, size := 100,
                           type := PAGE_TYPE_READ }
      (by simp [toyDelivery]) (by simp) (by simp) (by decide) rfl
      toyDelivery 9 0
      { toyFreeRow 1 with hash := some 9, pageid := some 0, type := PAGE_TYPE_READ, size := 100 }
      (by decide) rfl
      toyDelivery (waiterhash_by_hash_and_pageid 7 5)
      { waiters := [0], hash := 7, pageid := 5, fileid := 3 }
      { toyFreePage 1 with hash := 7, pageid := 5, lastuse := 11, size := 100,
                           type := PAGE_TYPE_READ }
      0 { buff := 0, pageidx := 0, rsize := 0, size := 200, off := 50, error := 0, ready := 0 }
      rfl (by decide) rfl rfl rfl).1,
    (delivery_paths_agree (toySettings true) 11 100 200 50
      toyDelivery 7 2 [] []
      { toyFreePage 0 with hash := 7, pageid := 2, lastuse := 10, size := 100,
                           type := PAGE_TYPE_READ }
      (by simp [toyDelivery]) (by simp) (by simp) (by decide) rfl
      toyDelivery 9 0
      { toyFreeRow 1 with hash := some 9, pageid := some 0, type := PAGE_TYPE_READ, size := 100 }
      (by decide) rfl
      toyDelivery (waiterhash_by_hash_and_pageid 7 5)
      { waiters := [0], hash := 7, pageid := 5, fileid := 3 }
      { toyFreePage 1 with hash := 7, pageid := 5, lastuse := 11, size := 100,
                           type := PAGE_TYPE_READ }
      0 { buff := 0, pageidx := 0, rsize := 0, size := 200, off := 50, error := 0, ready := 0 }
      rfl (by decide) rfl rfl rfl).2.1⟩

end DeliveryRun

section ReadaheadAlignment

/-- C20, refuted at a concrete input: a readahead of 128 KiB after a read of 4096 bytes at offset 8192
ends at 143360; the aligned readahead is 118784 bytes and ends at 131072, the multiple of 64 KiB
below the unaligned end, not at 196608, the one above it; the window of the readahead-only pass
has 29 pages instead of 32. -/
theorem readahead_alignment_shrinks :
    align_readahead 131072 8192 4096 = 118784 ∧
      8192 + 4096 + align_readahead 131072 8192 4096 = 2 * 65536 ∧
      2 * 65536 < 8192 + 4096 + 131072 ∧
      (readahead_window (toySettings true) 20 toyStreamingFile 8192 4096 false 4194304).2 =
        some (3, 29) := by
  refine ⟨by decide, by decide, by decide, by decide⟩

/-- C20, amended: in a readahead-only pass with a readahead of at least 128 KiB the
end of the window is aligned down to the boundary of the size class: the aligned end is the
largest multiple of the boundary that is not above the unaligned end, so the alignment never
grows the readahead and shrinks it by less than one boundary. -/
theorem readahead_aligned_down (readahead offset size : Nat) (hr : readahead ≥ 128 * 1024)
    (hbig : readahead + offset + size < 2 ^ 64) :
    offset + size + align_readahead readahead offset size =
        (offset + size + readahead) / readahead_boundary readahead *
          readahead_boundary readahead ∧
      offset + size + align_readahead readahead offset size ≤ offset + size + readahead ∧
      offset + size + readahead <
        offset + size + align_readahead readahead offset size + readahead_boundary readahead ∧
      align_readahead readahead offset size ≤ readahead ∧
      0 < align_readahead readahead offset size := by
  have e : readahead + offset + size = offset + size + readahead := by omega
  have h64 : (2 : Nat) ^ 64 = 18446744073709551616 := by norm_num
  unfold align_readahead readahead_boundary sub_u64
  rw [e, h64]
  rw [h64] at hbig
  split_ifs with h1 h2 h3 <;> omega

/-- C20, evaluated on a readahead of 128 KiB after a read of 4096 bytes at offset 8192. -/
theorem readahead_aligned_down_witness :
    8192 + 4096 + align_readahead 131072 8192 4096 =
      (8192 + 4096 + 131072) / readahead_boundary 131072 * readahead_boundary 131072 :=
  (readahead_aligned_down 131072 8192 4096 (by decide) (by decide)).1

end ReadaheadAlignment

section FlushOrder

theorem assign_flush_slots_eq_zipWith (pages : List psync_cache_page_t) (ids : List Nat) :
    assign_flush_slots pages ids =
      List.zipWith (fun page id => { page with flushpageid := id % 2 ^ 32 }) pages ids := by
  induction pages generalizing ids with
  | nil => cases ids <;> rfl
  | cons p rest ih =>
    cases ids with
    | nil => rfl
    | cons id ids => simp [assign_flush_slots, ih]

theorem zipWith_take_left {α β γ : Type} (f : α → β → γ) (l1 : List α) (l2 : List β) :
    List.zipWith f l1 (l2.take l1.length) = List.zipWith f l1 l2 := by
  induction l1 generalizing l2 with
  | nil => simp
  | cons a l1 ih =>
    cases l2 with
    | nil => simp
    | cons b l2 => simp [ih]

theorem zipWith_congr_right {α β γ : Type} (f g : α → β → γ) (l1 : List α) (l2 : List β)
    (h : ∀ a, ∀ b ∈ l2, f a b = g a b) : List.zipWith f l1 l2 = List.zipWith g l1 l2 := by
  induction l1 generalizing l2 with
  | nil => simp
  | cons a l1 ih =>
    cases l2 with
    | nil => simp
    | cons b l2 =>
      rw [List.zipWith_cons_cons, List.zipWith_cons_cons, h a b (List.mem_cons_self _ _),
        ih l2 (fun a b hb => h a b (List.mem_cons_of_mem _ hb))]

theorem mem_zipWith_elim {α β γ : Type} (f : α → β → γ) (l1 : List α) (l2 : List β) (x : γ)
    (hx : x ∈ List.zipWith f l1 l2) : ∃ a ∈ l1, ∃ b ∈ l2, x = f a b := by
  induction l1 generalizing l2 with
  | nil => simp at hx
  | cons a l1 ih =>
    cases l2 with
    | nil => simp at hx
    | cons b l2 =>
      simp only [List.zipWith_cons_cons, List.mem_cons] at hx
      rcases hx with rfl | hx
      · exact ⟨a, List.mem_cons_self _ _, b, List.mem_cons_self _ _, rfl⟩
      · obtain ⟨a', ha, b', hb, e⟩ := ih l2 hx
        exact ⟨a', List.mem_cons_of_mem _ ha, b', List.mem_cons_of_mem _ hb, e⟩

theorem pairwise_zipWith {α β γ : Type} (f : α → β → γ) (R : α → α → Prop)
    (S : β → β → Prop) (T : γ → γ → Prop) (l1 : List α) (l2 : List β) (h1 : l1.Pairwise R)
    (h2 : l2.Pairwise S) (h : ∀ a a' b b', R a a' → S b b' → T (f a b) (f a' b')) :
    (List.zipWith f l1 l2).Pairwise T := by
  induction l1 generalizing l2 with
  | nil => simp
  | cons a l1 ih =>
    cases l2 with
    | nil => simp
    | cons b l2 =>
      rw [List.zipWith_cons_cons, List.pairwise_cons]
      rw [List.pairwise_cons] at h1 h2
      refine ⟨?_, ih l2 h1.2 h2.2⟩
      intro x hx
      obtain ⟨a', ha, b', hb, e⟩ := mem_zipWith_elim f l1 l2 x hx
      rw [e]
      exact h a a' b b' (h1.1 a' ha) (h2.1 b' hb)

theorem cmp_flush_pages_le_iff (a b : psync_cache_page_t) :
    cmp_flush_pages a b ≤ 0 ↔ flush_le a b := by
  unfold cmp_flush_pages flush_le
  split_ifs <;> omega

theorem flush_le_total (a b : psync_cache_page_t) : flush_le a b ∨ flush_le b a := by
  unfold flush_le
  omega

theorem flush_le_trans (a b c : psync_cache_page_t) (h1 : flush_le a b) (h2 : flush_le b c) :
    flush_le a c := by
  unfold flush_le at *
  omega

/-- The flush list after `psync_list_sort` with `cmp_flush_pages`: the same pages in
non-decreasing order of `(hash, pageid)`. -/
theorem sort_flush_pages_spec (pages : List psync_cache_page_t) :
    (psync_list_sort cmp_flush_pages pages).Perm pages ∧
      (psync_list_sort cmp_flush_pages pages).Pairwise flush_le := by
  have e : psync_list_sort cmp_flush_pages pages =
      pages.insertionSort (fun a b => cmp_flush_pages a b ≤ 0) := rfl
  haveI : IsTotal psync_cache_page_t (fun a b => cmp_flush_pages a b ≤ 0) :=
    ⟨fun a b => by
      rw [cmp_flush_pages_le_iff, cmp_flush_pages_le_iff]; exact flush_le_total a b⟩
  haveI : IsTrans psync_cache_page_t (fun a b => cmp_flush_pages a b ≤ 0) :=
    ⟨fun a b c h1 h2 => by
      rw [cmp_flush_pages_le_iff] at h1 h2 ⊢; exact flush_le_trans a b c h1 h2⟩
  rw [e]
  refine ⟨List.perm_insertionSort _ _, ?_⟩
  have hs := List.sorted_insertionSort (fun a b => cmp_flush_pages a b ≤ 0) pages
  exact List.Pairwise.imp (fun {a b} h => (cmp_flush_pages_le_iff a b).1 h) hs

/-- The ids of the `FREE` rows in the order of the `SELECT`: each id once, in increasing
order. -/
theorem sorted_free_ids_spec (rows : List pagecache_row)
    (hids : (rows.map (fun r => r.id)).Nodup) :
    (((rows.filter (fun r => r.type == PAGE_TYPE_FREE)).map (fun r => r.id)).insertionSort
        (fun a b => a ≤ b)).Perm
        ((rows.filter (fun r => r.type == PAGE_TYPE_FREE)).map (fun r => r.id)) ∧
      (((rows.filter (fun r => r.type == PAGE_TYPE_FREE)).map (fun r => r.id)).insertionSort
        (fun a b => a ≤ b)).Pairwise (fun a b => a < b) := by
  have hperm := List.perm_insertionSort (fun a b : Nat => a ≤ b)
    ((rows.filter (fun r => r.type == PAGE_TYPE_FREE)).map (fun r => r.id))
  refine ⟨hperm, ?_⟩
  have hnd : ((rows.filter (fun r => r.type == PAGE_TYPE_FREE)).map (fun r => r.id)).Nodup :=
    List.Nodup.sublist (List.Sublist.map _ (List.filter_sublist _)) hids
  have hnd' := (hperm.nodup_iff).2 hnd
  have hs := List.sorted_insertionSort (fun a b : Nat => a ≤ b)
    ((rows.filter (fun r => r.type == PAGE_TYPE_FREE)).map (fun r => r.id))
  exact (List.Pairwise.and hs hnd').imp (fun {a b} h => lt_of_le_of_ne h.1 h.2)

/-- C21. `cmp_flush_pages` returns 0 only for pages with equal `(hash, pageid)`, and in a flush
cycle over the memory pages `pages` and a table whose ids are distinct and fit a `uint32_t`
(the type of `flushpageid`): the sorted list holds the same pages in non-decreasing order of
`(hash, pageid)`; the flush list after the slot assignment is that list cut to the number of
`FREE` rows, its k-th page holding the k-th smallest `FREE` id, so that the flush list is in
non-decreasing `(hash, pageid)` order with strictly increasing slot ids, and the pages for which
no `FREE` row was left are not in it. -/
theorem flush_list_sorted_slots (pages : List psync_cache_page_t) (rows : List pagecache_row)
    (hids : (rows.map (fun r => r.id)).Nodup) (hsmall : ∀ r ∈ rows, r.id < 2 ^ 32) :
    (∀ a b, cmp_flush_pages a b = 0 ↔ a.hash = b.hash ∧ a.pageid = b.pageid) ∧
      (psync_list_sort cmp_flush_pages pages).Perm pages ∧
      (psync_list_sort cmp_flush_pages pages).Pairwise flush_le ∧
      ∃ ids : List Nat,
        ids.Perm ((rows.filter (fun r => r.type == PAGE_TYPE_FREE)).map (fun r => r.id)) ∧
        ids.Pairwise (fun a b => a < b) ∧
        assign_flush_slots (psync_list_sort cmp_flush_pages pages)
            (select_free_ids rows pages.length) =
          List.zipWith (fun page id => { page with flushpageid := id })
            (psync_list_sort cmp_flush_pages pages) ids ∧
        (assign_flush_slots (psync_list_sort cmp_flush_pages pages)
            (select_free_ids rows pages.length)).length =
          min pages.length (pagecache_count_free rows) ∧
        (assign_flush_slots (psync_list_sort cmp_flush_pages pages)
            (select_free_ids rows pages.length)).Pairwise flush_le ∧
        (assign_flush_slots (psync_list_sort cmp_flush_pages pages)
            (select_free_ids rows pages.length)).Pairwise
          (fun a b => a.flushpageid < b.flushpageid) := by
  obtain ⟨hp, hs⟩ := sort_flush_pages_spec pages
  obtain ⟨ip, is⟩ := sorted_free_ids_spec rows hids
  refine ⟨?_, hp, hs, _, ip, is, ?_⟩
  · intro a b
    unfold cmp_flush_pages
    split_ifs <;> constructor <;> intro h <;> first | omega | (exfalso; revert h; decide)
  have hlen : (psync_list_sort cmp_flush_pages pages).length = pages.length := hp.length_eq
  have hz : assign_flush_slots (psync_list_sort cmp_flush_pages pages)
      (select_free_ids rows pages.length) =
      List.zipWith (fun page id => { page with flushpageid := id })
        (psync_list_sort cmp_flush_pages pages)
        (((rows.filter (fun r => r.type == PAGE_TYPE_FREE)).map (fun r => r.id)).insertionSort
          (fun a b => a ≤ b)) := by
    rw [assign_flush_slots_eq_zipWith]
    unfold select_free_ids
    rw [← hlen, zipWith_take_left]
    apply zipWith_congr_right
    intro a b hb
    have hb2 := ip.subset hb
    rw [List.mem_map] at hb2
    obtain ⟨r, hr, e⟩ := hb2
    have hlt := hsmall r (List.mem_of_mem_filter hr)
    rw [← e, Nat.mod_eq_of_lt hlt]
  refine ⟨hz, ?_, ?_, ?_⟩
  · rw [hz, List.length_zipWith, hlen, ip.length_eq]
    unfold pagecache_count_free
    rw [List.length_map]
  · rw [hz]
    exact pairwise_zipWith _ flush_le (fun _ _ => True) flush_le _ _ hs
      (List.pairwise_of_forall (fun _ _ => trivial)) (fun a a2 b b2 h _ => h)
  · rw [hz]
    exact pairwise_zipWith _ (fun _ _ => True) (fun a b => a < b) _ _ _
      (List.pairwise_of_forall (fun _ _ => trivial)) is (fun a a2 b b2 _ h => h)

/-- C21, evaluated on three memory pages and a table with the `FREE` rows 1 and 3: the pages
(5, 9) and (7, 0) take the slots 1 and 3, the page (7, 2) leaves the flush list. -/
theorem flush_list_sorted_slots_witness :
    (assign_flush_slots (psync_list_sort cmp_flush_pages toyReadPages)
        (select_free_ids toyMixedRows toyReadPages.length)).map
        (fun p => (p.hash, p.pageid, p.flushpageid)) = [(5, 9, 1), (7, 0, 3)] ∧
      (assign_flush_slots (psync_list_sort cmp_flush_pages toyReadPages)
        (select_free_ids toyMixedRows toyReadPages.length)).Pairwise
        (fun a b => a.flushpageid < b.flushpageid) := by
  obtain ⟨_, _, _, ids, _, _, _, _, _, h⟩ :=
    flush_list_sorted_slots toyReadPages toyMixedRows (by decide) (by decide)
  exact ⟨by decide, h⟩

end FlushOrder

section Narrowing

/-- C30, at the failing inputs: for the `lastuse` values `2^31` and 0 the comparator
`pagecache_entry_cmp_lastuse` returns `-2^31`, a negative value, although the first entry was
used later; for `2^32` and 0 it returns 0 although the values differ; for 0 and `2^31 + 1` it
returns a positive value although the first entry was used earlier. The comparator
`cmp_discard_pages`, which compares the `lastuse` of two pages with `<` and `>`, returns 1 for
`2^31` and 0. -/
theorem cmp_lastuse_narrowing_changes_sign :
    pagecache_entry_cmp_lastuse ⟨2 ^ 31, 1, 0⟩ ⟨0, 2, 0⟩ = - 2 ^ 31 ∧
      pagecache_entry_cmp_lastuse ⟨2 ^ 32, 1, 0⟩ ⟨0, 2, 0⟩ = 0 ∧
      pagecache_entry_cmp_lastuse ⟨0, 1, 0⟩ ⟨2 ^ 31 + 1, 2, 0⟩ = 2 ^ 31 - 1 ∧
      cmp_discard_pages { toyFreePage 0 with lastuse := 2 ^ 31 } (toyFreePage 1) = 1 := by
  refine ⟨by decide, by decide, by decide, by decide⟩

end Narrowing

section DiskFull

/-- C22. With a page size that is not 0, sizes below 2^63 (`int64_t`) and a `minlocal` below
2^64, `check_disk_full` returns 1 only if the size of the pagefile and the free space are
known, `filesize < max_id*PAGE_SIZE` and `minlocal + max_id*PAGE_SIZE - filesize > freespace`
(both formed in `uint64_t`; they are the plain inequalities when `minlocal + max_id*PAGE_SIZE`
is below 2^64), where `max_id` is the largest slot id of the table; the new
`db_cache_max_page` is then below `max_id` and at least `filesize/PAGE_SIZE`, it is
`filesize/PAGE_SIZE` when `minlocal >= freespace` and `(filesize+freespace-minlocal)/PAGE_SIZE`
otherwise, and no row with a larger id is left. -/
theorem check_disk_full_lowers_max_page (cfg : Settings) (env : FlushEnv) (s : PageCache)
    (hps : 0 < cfg.PSYNC_FS_PAGE_SIZE) (hmin : env.minlocal < 2 ^ 64)
    (hsize : ∀ f, env.filesize = some f → f < 2 ^ 63)
    (hspace : ∀ f, env.freespace = some f → f < 2 ^ 63)
    (hfull : (check_disk_full cfg env s).1 = 1) :
    ∃ filesize freespace, env.filesize = some filesize ∧ env.freespace = some freespace ∧
      filesize < mul_u64 (pagecache_max_id s.pagecache) cfg.PSYNC_FS_PAGE_SIZE ∧
      sub_u64 (add_u64 env.minlocal
        (mul_u64 (pagecache_max_id s.pagecache) cfg.PSYNC_FS_PAGE_SIZE)) filesize > freespace ∧
      (env.minlocal + pagecache_max_id s.pagecache * cfg.PSYNC_FS_PAGE_SIZE < 2 ^ 64 →
        filesize < pagecache_max_id s.pagecache * cfg.PSYNC_FS_PAGE_SIZE ∧
        env.minlocal + pagecache_max_id s.pagecache * cfg.PSYNC_FS_PAGE_SIZE - filesize >
          freespace) ∧
      (check_disk_full cfg env s).2.db_cache_max_page < pagecache_max_id s.pagecache ∧
      filesize / cfg.PSYNC_FS_PAGE_SIZE ≤ (check_disk_full cfg env s).2.db_cache_max_page ∧
      (check_disk_full cfg env s).2.db_cache_max_page =
        (if env.minlocal ≥ freespace then filesize / cfg.PSYNC_FS_PAGE_SIZE
         else (filesize + freespace - env.minlocal) / cfg.PSYNC_FS_PAGE_SIZE) ∧
      ∀ r ∈ (check_disk_full cfg env s).2.pagecache,
        r.id ≤ (check_disk_full cfg env s).2.db_cache_max_page := by
  have h64 : (2 : Nat) ^ 64 = 18446744073709551616 := by norm_num
  have h63 : (2 : Nat) ^ 63 = 9223372036854775808 := by norm_num
  unfold check_disk_full at hfull ⊢
  cases hfs : env.filesize with
  | none => rw [hfs] at hfull; simp at hfull
  | some filesize =>
    have hF := hsize filesize hfs
    rw [hfs] at hfull
    dsimp only at hfull ⊢
    by_cases h1 : filesize ≥ mul_u64 (pagecache_max_id s.pagecache) cfg.PSYNC_FS_PAGE_SIZE
    · rw [if_pos h1] at hfull; simp at hfull
    · rw [if_neg h1] at hfull ⊢
      cases hfr : env.freespace with
      | none => rw [hfr] at hfull; simp at hfull
      | some freespace =>
        have hS := hspace freespace hfr
        rw [hfr] at hfull
        dsimp only at hfull ⊢
        by_cases h2 : sub_u64 (add_u64 env.minlocal
            (mul_u64 (pagecache_max_id s.pagecache) cfg.PSYNC_FS_PAGE_SIZE)) filesize ≤ freespace
        · rw [if_pos h2] at hfull; simp at hfull
        · rw [if_neg h2]
          dsimp only
          have hsum : ¬ env.minlocal ≥ freespace →
              sub_u64 (add_u64 filesize freespace) env.minlocal =
                filesize + freespace - env.minlocal := by
            intro h3
            unfold sub_u64 add_u64
            rw [h64] at *
            rw [h63] at *
            omega
          have hlt : ¬ env.minlocal ≥ freespace →
              filesize + freespace - env.minlocal <
                pagecache_max_id s.pagecache * cfg.PSYNC_FS_PAGE_SIZE := by
            intro h3
            unfold sub_u64 add_u64 mul_u64 at h2
            unfold mul_u64 at h1
            generalize pagecache_max_id s.pagecache * cfg.PSYNC_FS_PAGE_SIZE = q at *
            rw [h64] at *
            rw [h63] at *
            omega
          have hnew : (if env.minlocal ≥ freespace then filesize / cfg.PSYNC_FS_PAGE_SIZE
              else sub_u64 (add_u64 filesize freespace) env.minlocal / cfg.PSYNC_FS_PAGE_SIZE) =
              (if env.minlocal ≥ freespace then filesize / cfg.PSYNC_FS_PAGE_SIZE
                else (filesize + freespace - env.minlocal) / cfg.PSYNC_FS_PAGE_SIZE) := by
            by_cases h3 : env.minlocal ≥ freespace
            · rw [if_pos h3, if_pos h3]
            · rw [if_neg h3, if_neg h3, hsum h3]
          rw [hnew]
          refine ⟨filesize, freespace, rfl, rfl, by omega, by omega, ?_, ?_, ?_, rfl, ?_⟩
          · intro hno
            unfold sub_u64 add_u64 mul_u64 at h2
            unfold mul_u64 at h1
            generalize pagecache_max_id s.pagecache * cfg.PSYNC_FS_PAGE_SIZE = q at *
            rw [h64] at *
            rw [h63] at *
            omega
          · by_cases h3 : env.minlocal ≥ freespace
            · rw [if_pos h3]
              apply (Nat.div_lt_iff_lt_mul hps).2
              unfold mul_u64 at h1
              have := Nat.mod_le (pagecache_max_id s.pagecache * cfg.PSYNC_FS_PAGE_SIZE) (2 ^ 64)
              omega
            · rw [if_neg h3]
              exact (Nat.div_lt_iff_lt_mul hps).2 (hlt h3)
          · by_cases h3 : env.minlocal ≥ freespace
            · rw [if_pos h3]
            · rw [if_neg h3]
              exact Nat.div_le_div_right (by omega)
          · intro r hr
            have := (List.mem_filter.1 hr).2
            simpa using this

/-- C22, evaluated on the table of `toyPageCache` (largest id 4) with a pagefile of one page and
1000 free bytes: the new maximum is 1. -/
theorem check_disk_full_lowers_max_page_witness :
    (check_disk_full (toySettings true) toyFullDisk toyPageCache).2.db_cache_max_page <
      pagecache_max_id toyPageCache.pagecache := by
  obtain ⟨_, _, _, _, _, _, _, h, _⟩ :=
    check_disk_full_lowers_max_page (toySettings true) toyFullDisk toyPageCache (by decide)
      (by decide) (by intro f h; cases h; decide) (by intro f h; cases h; decide) (by decide)
  exact h

end DiskFull

section FreeCount

theorem return_free_page_keeps_count (s : PageCache) (page : psync_cache_page_t)
    (h : free_count_ok s) (hlt : s.free_pages.length + 1 < 2 ^ 32) :
    free_count_ok (psync_pagecache_return_free_page_locked s page) := by
  unfold free_count_ok at *
  unfold psync_pagecache_return_free_page_locked add_u32
  simp only [List.length_cons]
  rw [h, Nat.mod_eq_of_lt hlt]

theorem wait_free_nil (cfg : Settings) (s : PageCache) :
    psync_pagecache_get_free_page.wait_free cfg [] s =
      match s.free_pages with
      | page :: rest =>
        some (page,
          { s with free_pages := rest, cache_pages_free := sub_u32 s.cache_pages_free 1 })
      | [] => none := by
  obtain ⟨_, _, _, fp, _, _, _, _, _, _, _, _⟩ := s
  cases fp <;> rfl

theorem get_free_page_keeps_count (cfg : Settings) (s s2 : PageCache)
    (page : psync_cache_page_t) (h : free_count_ok s) (hlt : s.free_pages.length < 2 ^ 32)
    (hget : psync_pagecache_get_free_page cfg [] s = some (page, s2)) :
    free_count_ok s2 := by
  unfold free_count_ok at *
  unfold psync_pagecache_get_free_page at hget
  rw [wait_free_nil] at hget
  have h64 : (2 : Nat) ^ 32 = 4294967296 := by norm_num
  split_ifs at hget
  all_goals
    cases hfp : s.free_pages with
    | nil => simp [hfp] at hget
    | cons p rest =>
      simp only [hfp, Option.some.injEq, Prod.mk.injEq] at hget
      obtain ⟨_, e⟩ := hget
      rw [← e]
      simp only [sub_u32]
      rw [hfp] at h hlt
      simp only [List.length_cons] at h hlt
      rw [h]
      omega

theorem add_page_keeps_count (cfg : Settings) (s : PageCache) (page : psync_cache_page_t)
    (hash pageid : Nat) (h : free_count_ok s) (hlt : s.free_pages.length + 1 < 2 ^ 32) :
    free_count_ok (psync_pagecache_add_page_if_not_exists cfg s page hash pageid) := by
  unfold psync_pagecache_add_page_if_not_exists
  dsimp only
  split_ifs
  · exact return_free_page_keeps_count s page h hlt
  · exact h

theorem flush_move_pages_keeps_count (cfg : Settings) (pages : List psync_cache_page_t)
    (s : PageCache) (updates pagecnt : Nat) (h : free_count_ok s)
    (hlt : s.free_pages.length + pages.length < 2 ^ 32) :
    free_count_ok (flush_move_pages cfg pages (s, updates, pagecnt)).1 := by
  induction pages generalizing s updates pagecnt with
  | nil => exact h
  | cons page rest ih =>
    unfold flush_move_pages
    dsimp only
    simp only [List.length_cons] at hlt
    have h64 : (2 : Nat) ^ 32 = 4294967296 := by norm_num
    unfold free_count_ok at h
    split_ifs
    all_goals
      apply ih
      · unfold free_count_ok cache_hash_del add_u32
        simp only [List.length_cons]
        rw [h]
        omega
      · simp only [cache_hash_del, List.length_cons]
        omega

/-- C28, at the failing input: with the memory tier full, no free row and the disk full, the
discard branch of `flush_pages` puts four pages on the free list and leaves `cache_pages_free`
at 0, although the counter matched the list before the cycle. -/
theorem flush_discard_breaks_free_count :
    free_count_ok toyFullMemory ∧
      (flush_pages (toySettings true) toyFullDisk toyFullMemory).1 = 0 ∧
      (flush_pages (toySettings true) toyFullDisk toyFullMemory).2.free_pages.length = 4 ∧
      (flush_pages (toySettings true) toyFullDisk toyFullMemory).2.cache_pages_free = 0 ∧
      ¬ free_count_ok (flush_pages (toySettings true) toyFullDisk toyFullMemory).2 := by
  unfold free_count_ok
  refine ⟨by decide, by decide, by decide, by decide, by decide⟩

end FreeCount

section AgeingLoad

theorem clean_cache_load_loop_stuck (fuel : Nat) :
    clean_cache_load_loop toyMixedRows 3 fuel [⟨0, 2, 0⟩, ⟨0, 2, 0⟩] = none := by
  induction fuel with
  | zero => rfl
  | succ n ih =>
    have e : clean_cache_load_rows 3 (select_rows_after toyMixedRows 2) [⟨0, 2, 0⟩, ⟨0, 2, 0⟩] =
        [⟨0, 2, 0⟩, ⟨0, 2, 0⟩] := by decide
    unfold clean_cache_load_loop
    rw [if_pos (by decide)]
    exact e ▸ ih

/-- C27, at the failing inputs: for the table with the `FREE` rows 1 and 3 and the `READ` row 2
the loading loop of `clean_cache` is still running after any number of queries (row 2 has been
loaded twice and no further `READ` row has an id above 2); for the table with the `FREE` row 1
and the `READ` rows 2 and 3 the loop ends with row 3 loaded twice. -/
theorem clean_cache_load_spins_or_repeats :
    (∀ fuel, clean_cache_load toyMixedRows fuel = none) ∧
      (∀ fuel, 3 ≤ fuel → (clean_cache_load toyLeadingFreeRows fuel).map
        (fun entries => entries.map (fun e => e.id)) = some [2, 3, 3]) := by
  constructor
  · intro fuel
    cases fuel with
    | zero => rfl
    | succ n =>
      cases n with
      | zero => rfl
      | succ n =>
        cases n with
        | zero => rfl
        | succ n => exact clean_cache_load_loop_stuck n
  · intro fuel h
    obtain ⟨k, rfl⟩ := Nat.exists_eq_add_of_le h
    rw [Nat.add_comm]
    rfl

end AgeingLoad

section RejectedKeys

theorem folder_encoder_heap_fst {B : Backend} (tc : TypeCodes) (s : Vault B) (folderid : Nat)
    (src : EncKeySource) :
    ((psync_crypto_get_folder_encoder_locked_heap tc s folderid src).1,
      (psync_crypto_get_folder_encoder_locked_heap tc s folderid src).2.1) =
      psync_crypto_get_folder_encoder_locked tc s folderid src := by
  unfold psync_crypto_get_folder_encoder_locked_heap psync_crypto_get_folder_encoder_locked
  rcases psync_crypto_get_folder_symkey_locked s folderid src with ⟨r | _ | symkey, s1⟩
  · rfl
  · rfl
  · dsimp only
    split_ifs <;> rfl

theorem folder_decoder_heap_fst {B : Backend} (tc : TypeCodes) (s : Vault B) (folderid : Nat)
    (src : EncKeySource) :
    ((psync_crypto_get_folder_decoder_locked_heap tc s folderid src).1,
      (psync_crypto_get_folder_decoder_locked_heap tc s folderid src).2.1) =
      psync_crypto_get_folder_decoder_locked tc s folderid src := by
  unfold psync_crypto_get_folder_decoder_locked_heap psync_crypto_get_folder_decoder_locked
  rcases psync_crypto_get_folder_symkey_locked s folderid src with ⟨r | _ | symkey, s1⟩
  · rfl
  · rfl
  · dsimp only
    split_ifs <;> rfl

theorem file_encoder_heap_fst {B : Backend} (tc : TypeCodes) (s : Vault B) (fileid : Nat)
    (nonetwork : Bool) (src : EncKeySource) :
    ((psync_crypto_get_file_encoder_locked_heap tc s fileid nonetwork src).1,
      (psync_crypto_get_file_encoder_locked_heap tc s fileid nonetwork src).2.1) =
      psync_crypto_get_file_encoder_locked tc s fileid nonetwork src := by
  unfold psync_crypto_get_file_encoder_locked_heap psync_crypto_get_file_encoder_locked
  rcases psync_crypto_get_file_symkey_locked s fileid nonetwork src with ⟨r | _ | symkey, s1⟩
  · rfl
  · rfl
  · dsimp only
    split_ifs <;> rfl

theorem cache_get_snd_eq_eraseP {α : Type} (c : List (Nat × α)) (id : Nat) :
    (psync_cache_get c id).2 = c.eraseP (fun e => e.1 == id) := by
  unfold psync_cache_get
  cases h : c.find? (fun e => e.1 == id) with
  | some e => rfl
  | none =>
    dsimp only
    rw [List.eraseP_of_forall_not]
    intro a ha
    have := List.find?_eq_none.1 h a ha
    simpa using this

theorem eraseP_eq_filter_of_single_holder {α : Type} (c : List (Nat × α)) (id : Nat)
    (h : single_holder c) :
    c.eraseP (fun e => e.1 == id) = c.filter (fun e => e.1 != id) := by
  induction c with
  | nil => rfl
  | cons a t ih =>
    unfold single_holder at h ih
    rw [List.map_cons, List.nodup_cons] at h
    by_cases ha : a.1 = id
    · rw [List.eraseP_cons_of_pos (by simpa using ha), List.filter_cons_of_neg (by simpa using ha)]
      symm
      rw [List.filter_eq_self]
      intro e he
      have hne : e.1 ≠ a.1 := fun heq => h.1 (heq ▸ List.mem_map_of_mem (fun e => e.1) he)
      rw [ha] at hne
      simpa using hne
    · rw [List.eraseP_cons_of_neg (by simpa using ha), List.filter_cons_of_pos (by simpa using ha),
        ih h.2]

/-- After `psync_cache_get` on a single-holder table no entry is left under the key. -/
theorem cache_get_leaves_no_entry {α : Type} (c : List (Nat × α)) (id : Nat)
    (h : single_holder c) :
    (psync_cache_get c id).2 = c.filter (fun e => e.1 != id) ∧
      ∀ e ∈ (psync_cache_get c id).2, e.1 ≠ id := by
  rw [cache_get_snd_eq_eraseP, eraseP_eq_filter_of_single_holder c id h]
  refine ⟨rfl, ?_⟩
  intro e he
  have := (List.mem_filter.1 he).2
  simpa using this

/-- The operations of the cache manager keep a table single-holder. -/
theorem single_holder_kept {α : Type} (c : List (Nat × α)) (id : Nat) (v : α)
    (h : single_holder c) :
    single_holder (psync_cache_get c id).2 ∧ single_holder (psync_cache_add c id v) := by
  unfold single_holder at *
  constructor
  · rw [cache_get_snd_eq_eraseP]
    exact List.Nodup.sublist (List.Sublist.map _ (List.eraseP_sublist c)) h
  · unfold psync_cache_add
    rw [List.map_cons, List.nodup_cons]
    constructor
    · intro hmem
      obtain ⟨e, he, heq⟩ := List.mem_map.1 hmem
      have := (List.mem_filter.1 he).2
      simp at this
      exact this heq
    · exact List.Nodup.sublist (List.Sublist.map _ (List.filter_sublist c)) h

theorem folder_symkey_locked_snd {B : Backend} (s : Vault B) (folderid : Nat)
    (src : EncKeySource) :
    (psync_crypto_get_folder_symkey_locked s folderid src).2 =
      { s with cache_FKEY := (psync_cache_get s.cache_FKEY folderid).2 } := by
  unfold psync_crypto_get_folder_symkey_locked
  rcases psync_cache_get s.cache_FKEY folderid with ⟨_ | symkey, c⟩
  · dsimp only
    cases psync_crypto_get_folder_enc_key src with
    | error code => rfl
    | unloaded => rfl
    | ptr enckey =>
      dsimp only
      cases B.psync_ssl_rsa_decrypt_symmetric_key s.crypto_privkey enckey <;> rfl
  · rfl

theorem file_symkey_locked_snd {B : Backend} (s : Vault B) (fileid : Nat) (nonetwork : Bool)
    (src : EncKeySource) :
    (psync_crypto_get_file_symkey_locked s fileid nonetwork src).2 =
      { s with cache_DKEY := (psync_cache_get s.cache_DKEY fileid).2 } := by
  unfold psync_crypto_get_file_symkey_locked
  rcases psync_cache_get s.cache_DKEY fileid with ⟨_ | symkey, c⟩
  · dsimp only
    cases psync_crypto_get_file_enc_key src nonetwork with
    | error code => rfl
    | unloaded => rfl
    | ptr enckey =>
      dsimp only
      cases B.psync_ssl_rsa_decrypt_symmetric_key s.crypto_privkey enckey <;> rfl
  · rfl

/-- C24. For a vault whose plaintext-key tables are single-holder and every id: when a getter
(`psync_crypto_get_folder_encoder_locked`, `psync_crypto_get_folder_decoder_locked`,
`psync_crypto_get_file_encoder_locked`) has obtained the plaintext key `symkey` and returns
`PSYNC_CRYPTO_INVALID_KEY`, the one block it frees is that key with all `symkey.length` bytes
zero, and the vault afterwards is the vault of before without the `FKEY` (for the file getter:
`DKEY`) entry of the id, so that no plaintext key is held for the id. -/
theorem rejected_key_zeroed_and_dropped {B : Backend} (tc : TypeCodes) (s : Vault B) (id : Nat)
    (nonetwork : Bool) (src : EncKeySource) (hF : single_holder s.cache_FKEY)
    (hD : single_holder s.cache_DKEY) :
    (∀ symkey, (psync_crypto_get_folder_symkey_locked s id src).1 = .ptr symkey →
        (psync_crypto_get_folder_encoder_locked_heap tc s id src).1 =
          .error PSYNC_CRYPTO_INVALID_KEY →
        (psync_crypto_get_folder_encoder_locked_heap tc s id src).2.2 =
            [List.replicate symkey.length 0] ∧
          (psync_crypto_get_folder_encoder_locked_heap tc s id src).2.1 =
            { s with cache_FKEY := s.cache_FKEY.filter (fun e => e.1 != id) } ∧
          ∀ e ∈ (psync_crypto_get_folder_encoder_locked_heap tc s id src).2.1.cache_FKEY,
            e.1 ≠ id) ∧
      (∀ symkey, (psync_crypto_get_folder_symkey_locked s id src).1 = .ptr symkey →
        (psync_crypto_get_folder_decoder_locked_heap tc s id src).1 =
          .error PSYNC_CRYPTO_INVALID_KEY →
        (psync_crypto_get_folder_decoder_locked_heap tc s id src).2.2 =
            [List.replicate symkey.length 0] ∧
          (psync_crypto_get_folder_decoder_locked_heap tc s id src).2.1 =
            { s with cache_FKEY := s.cache_FKEY.filter (fun e => e.1 != id) } ∧
          ∀ e ∈ (psync_crypto_get_folder_decoder_locked_heap tc s id src).2.1.cache_FKEY,
            e.1 ≠ id) ∧
      (∀ symkey, (psync_crypto_get_file_symkey_locked s id nonetwork src).1 = .ptr symkey →
        (psync_crypto_get_file_encoder_locked_heap tc s id nonetwork src).1 =
          .error PSYNC_CRYPTO_INVALID_KEY →
        (psync_crypto_get_file_encoder_locked_heap tc s id nonetwork src).2.2 =
            [List.replicate symkey.length 0] ∧
          (psync_crypto_get_file_encoder_locked_heap tc s id nonetwork src).2.1 =
            { s with cache_DKEY := s.cache_DKEY.filter (fun e => e.1 != id) } ∧
          ∀ e ∈ (psync_crypto_get_file_encoder_locked_heap tc s id nonetwork src).2.1.cache_DKEY,
            e.1 ≠ id) := by
  obtain ⟨eF, nF⟩ := cache_get_leaves_no_entry s.cache_FKEY id hF
  obtain ⟨eD, nD⟩ := cache_get_leaves_no_entry s.cache_DKEY id hD
  have hsF := folder_symkey_locked_snd s id src
  have hsD := file_symkey_locked_snd s id nonetwork src
  refine ⟨?_, ?_, ?_⟩
  · intro symkey hk hret
    unfold psync_crypto_get_folder_encoder_locked_heap at hret ⊢
    rcases hg : psync_crypto_get_folder_symkey_locked s id src with ⟨r, s1⟩
    rw [hg] at hk hsF hret
    dsimp only at hk hsF
    subst hk
    dsimp only at hret ⊢
    have hs1 : s1.cache_FKEY = (psync_cache_get s.cache_FKEY id).2 := by rw [hsF]
    split_ifs at hret ⊢
    all_goals
      refine ⟨rfl, ?_, ?_⟩
      · rw [hsF, eF]
      · rw [hs1]; exact nF
  · intro symkey hk hret
    unfold psync_crypto_get_folder_decoder_locked_heap at hret ⊢
    rcases hg : psync_crypto_get_folder_symkey_locked s id src with ⟨r, s1⟩
    rw [hg] at hk hsF hret
    dsimp only at hk hsF
    subst hk
    dsimp only at hret ⊢
    have hs1 : s1.cache_FKEY = (psync_cache_get s.cache_FKEY id).2 := by rw [hsF]
    split_ifs at hret ⊢
    all_goals
      refine ⟨rfl, ?_, ?_⟩
      · rw [hsF, eF]
      · rw [hs1]; exact nF
  · intro symkey hk hret
    unfold psync_crypto_get_file_encoder_locked_heap at hret ⊢
    rcases hg : psync_crypto_get_file_symkey_locked s id nonetwork src with ⟨r, s1⟩
    rw [hg] at hk hsD hret
    dsimp only at hk hsD
    subst hk
    dsimp only at hret ⊢
    have hs1 : s1.cache_DKEY = (psync_cache_get s.cache_DKEY id).2 := by rw [hsD]
    split_ifs at hret ⊢
    all_goals
      refine ⟨rfl, ?_, ?_⟩
      · rw [hsD, eD]
      · rw [hs1]; exact nD

/-- C24, evaluated on a started vault that holds a file key as the cached plaintext key of
folder 5: the folder encoder getter rejects the key, frees it as 104 zero bytes and leaves the
`FKEY` table empty. -/
theorem rejected_key_zeroed_and_dropped_witness :
    (psync_crypto_get_folder_encoder_locked_heap toyCodes toyVaultWithFileKey 5
        toyFileKeySource).1 = .error PSYNC_CRYPTO_INVALID_KEY ∧
      (psync_crypto_get_folder_encoder_locked_heap toyCodes toyVaultWithFileKey 5
        toyFileKeySource).2.2 = [List.replicate 104 0] ∧
      (psync_crypto_get_folder_encoder_locked_heap toyCodes toyVaultWithFileKey 5
        toyFileKeySource).2.1.cache_FKEY = [] := by
  have h := (rejected_key_zeroed_and_dropped toyCodes toyVaultWithFileKey 5 false
    toyFileKeySource (by unfold single_holder; decide) (by unfold single_holder; decide)).1
    toyFileKey rfl rfl
  refine ⟨rfl, h.1, ?_⟩
  rw [h.2.1]
  rfl

end RejectedKeys

section StartedFlag

/-- C26, at the failing inputs: a getter passes the test of `crypto_started_un` on the started
vault `toyVault`, another thread stops the vault before the getter holds the read lock, so
`crypto_started_l` is clear there; for the id 0 the three getters return
`PSYNC_CRYPTO_FOLDER_NOT_ENCRYPTED`, for the id 5 they return `PSYNC_CRYPTO_INVALID_KEY` (the
key row is decrypted with the invalid private key) and for a negative id whatever the getter of
temporary ids returns, here a handle. The sibling
`psync_cloud_crypto_get_file_encoder_from_binresult` returns `PSYNC_CRYPTO_NOT_STARTED` on the
stopped vault. -/
theorem getters_overwrite_not_started :
    (stopping_thread toyVault).crypto_started_l = 0 ∧
      (psync_cloud_crypto_get_folder_encoder toyCodes stopping_thread toyVault 0
        toyFileKeySource (.error PSYNC_CRYPTO_FOLDER_NOT_FOUND)).1 =
          .error PSYNC_CRYPTO_FOLDER_NOT_ENCRYPTED ∧
      (psync_cloud_crypto_get_folder_decoder toyCodes stopping_thread toyVault 0
        toyFileKeySource (.error PSYNC_CRYPTO_FOLDER_NOT_FOUND)).1 =
          .error PSYNC_CRYPTO_FOLDER_NOT_ENCRYPTED ∧
      (psync_cloud_crypto_get_file_encoder toyCodes stopping_thread toyVault 0 false
        toyFileKeySource (.error PSYNC_CRYPTO_FILE_NOT_FOUND)).1 =
          .error PSYNC_CRYPTO_FOLDER_NOT_ENCRYPTED ∧
      (psync_cloud_crypto_get_folder_encoder toyCodes stopping_thread toyVault 5
        toyFileKeySource (.error PSYNC_CRYPTO_FOLDER_NOT_FOUND)).1 =
          .error PSYNC_CRYPTO_INVALID_KEY ∧
      (psync_cloud_crypto_get_folder_decoder toyCodes stopping_thread toyVault 5
        toyFileKeySource (.error PSYNC_CRYPTO_FOLDER_NOT_FOUND)).1 =
          .error PSYNC_CRYPTO_INVALID_KEY ∧
      (psync_cloud_crypto_get_file_encoder toyCodes stopping_thread toyVault 5 false
        toyFileKeySource (.error PSYNC_CRYPTO_FILE_NOT_FOUND)).1 =
          .error PSYNC_CRYPTO_INVALID_KEY ∧
      (psync_cloud_crypto_get_file_encoder toyCodes stopping_thread toyVault (-3) false
        toyFileKeySource (.ptr [1, 2, 3])).1 = .ptr [1, 2, 3] ∧
      (psync_cloud_crypto_get_file_encoder_from_binresult toyCodes (stopping_thread toyVault) 5
        (some toyFileKeySource)).1 = .error PSYNC_CRYPTO_NOT_STARTED := by
  refine ⟨rfl, rfl, rfl, rfl, rfl, rfl, rfl, rfl, rfl⟩

end StartedFlag

section KeyGeneration

/-- When the encryption succeeds the three functions return with the buffer zeroed. -/
theorem new_key_cleaned_on_success {B : Backend} (tc : TypeCodes) (s : Vault B)
    (e : NewKeyEnv) (flags : Nat) (encsym : List Nat) (hun : s.crypto_started_un ≠ 0)
    (hl : s.crypto_started_l ≠ 0)
    (henc : e.psync_ssl_rsa_encrypt_data (sym_key_ver1_bytes
      tc.PSYNC_CRYPTO_SYM_AES256_1024BIT_HMAC flags e.aeskey e.hmackey) = some encsym) :
    (psync_cloud_crypto_get_new_encoded_key tc s e flags).sym =
        some (List.replicate (sym_key_ver1_bytes tc.PSYNC_CRYPTO_SYM_AES256_1024BIT_HMAC flags
          e.aeskey e.hmackey).length 0) ∧
      (psync_cloud_crypto_get_new_encoded_and_plain_key tc s e flags).sym =
        some (List.replicate (sym_key_ver1_bytes tc.PSYNC_CRYPTO_SYM_AES256_1024BIT_HMAC flags
          e.aeskey e.hmackey).length 0) := by
  unfold psync_cloud_crypto_get_new_encoded_key psync_cloud_crypto_get_new_encoded_and_plain_key
  rw [if_neg hun, if_neg hun]
  dsimp only
  rw [if_neg hl, if_neg hl, henc]
  exact ⟨rfl, rfl⟩

/-- C25, at the failing input: on the started vault `toyVault` with an RSA encryption that
fails, `psync_cloud_crypto_get_new_encoded_key` and
`psync_cloud_crypto_get_new_encoded_and_plain_key` return `PSYNC_CRYPTO_RSA_ERROR` while the
buffer `sym` still holds the generated AES key (32 bytes 9) and HMAC key (64 bytes 7);
`psync_cloud_crypto_mkdir` has zeroed its buffer at that point. -/
theorem rsa_failure_leaves_plaintext_key :
    psync_cloud_crypto_get_new_encoded_key toyCodes toyVault toyFailingRsa 0 =
        { ret := .error PSYNC_CRYPTO_RSA_ERROR, deckey := none,
          sym := some (store_u32 1 ++ store_u32 0 ++ List.replicate 32 9 ++
            List.replicate 64 7) } ∧
      psync_cloud_crypto_get_new_encoded_and_plain_key toyCodes toyVault toyFailingRsa 0 =
        { ret := .error PSYNC_CRYPTO_RSA_ERROR, deckey := none,
          sym := some (store_u32 1 ++ store_u32 0 ++ List.replicate 32 9 ++
            List.replicate 64 7) } ∧
      psync_cloud_crypto_mkdir_sym toyCodes toyVault toyFailingRsa =
        some (List.replicate 104 0) := by
  refine ⟨rfl, rfl, rfl⟩

end KeyGeneration

section Splice

theorem add_u64_of_lt (a b : Nat) (h : a + b < 2 ^ 64) : add_u64 a b = a + b := by
  unfold add_u64
  exact Nat.mod_eq_of_lt h

/-- The fragment that the splice loop computes for an interval that meets the page at `off` is
the part of the interval inside the page. -/
theorem splice_fragment_spec (cfg : Settings) (off : Nat) (i : psync_interval_tree_t)
    (hpos : 0 < cfg.PSYNC_FS_PAGE_SIZE) (hoff : off + cfg.PSYNC_FS_PAGE_SIZE < 2 ^ 64)
    (hto : off < i.to_)
    (hfrom : i.from_ < off + cfg.PSYNC_FS_PAGE_SIZE) (hne : i.from_ < i.to_)
    (hlt : i.to_ < 2 ^ 64) :
    (splice_fragment cfg off i).rdoff = max i.from_ off ∧
      (splice_fragment cfg off i).rdoff = off + (splice_fragment cfg off i).roff ∧
      (splice_fragment cfg off i).rdoff + (splice_fragment cfg off i).rdlen =
        min i.to_ (off + cfg.PSYNC_FS_PAGE_SIZE) ∧
      (splice_fragment cfg off i).roff + (splice_fragment cfg off i).rdlen ≤
        cfg.PSYNC_FS_PAGE_SIZE ∧
      0 < (splice_fragment cfg off i).rdlen := by
  have hps : cfg.PSYNC_FS_PAGE_SIZE < 2 ^ 64 := by omega
  unfold splice_fragment
  rw [add_u64_of_lt _ _ hoff, Nat.max_def, Nat.min_def]
  dsimp only
  by_cases h1 : i.from_ > off
  · have e1 : sub_u64 i.from_ off = i.from_ - off :=
      sub_u64_of_le _ _ (by omega) (by omega)
    have e2 : sub_u64 i.to_ i.from_ = i.to_ - i.from_ :=
      sub_u64_of_le _ _ (by omega) hlt
    have e3 : sub_u64 cfg.PSYNC_FS_PAGE_SIZE (i.from_ - off) =
        cfg.PSYNC_FS_PAGE_SIZE - (i.from_ - off) := sub_u64_of_le _ _ (by omega) hps
    rw [if_pos h1, if_pos h1, e1, e2, e3]
    split_ifs <;> omega
  · have e2 : sub_u64 i.to_ off = i.to_ - off := sub_u64_of_le _ _ (by omega) hlt
    have e3 : sub_u64 cfg.PSYNC_FS_PAGE_SIZE 0 = cfg.PSYNC_FS_PAGE_SIZE :=
      sub_u64_of_le _ _ (by omega) hps
    rw [if_neg h1, if_neg h1, e2, e3]
    split_ifs <;> omega

theorem skip_intervals_spec (off : Nat) (l : List psync_interval_tree_t) :
    ∃ d, l = d ++ skip_intervals off l ∧ (∀ j ∈ d, j.to_ ≤ off) ∧
      ∀ i rest, skip_intervals off l = i :: rest → off < i.to_ := by
  induction l with
  | nil => exact ⟨[], rfl, by simp, by simp [skip_intervals]⟩
  | cons a l ih =>
    obtain ⟨d, hd, hle, hhead⟩ := ih
    unfold skip_intervals
    by_cases h : a.to_ ≤ off
    · rw [if_pos h]
      refine ⟨a :: d, by rw [List.cons_append, ← hd], ?_, hhead⟩
      intro j hj
      rcases List.mem_cons.1 hj with e | hj2
      · rw [e]; exact h
      · exact hle j hj2
    · rw [if_neg h]
      refine ⟨[], rfl, by simp, ?_⟩
      intro i rest e
      have := (List.cons.inj e).1
      rw [← this]; omega

theorem tree_ok_suffix (a b : List psync_interval_tree_t) (h : tree_ok (a ++ b)) :
    tree_ok b :=
  ⟨(List.pairwise_append.1 h.1).2.1, fun i hi => h.2 i (List.mem_append_right _ hi)⟩

/-- The splice loop, entered at an interval that meets the page at `off`: no assertion fails,
every fragment read belongs to an interval that meets the page, the pointer moves only over
intervals that end inside the page, and no read fails when the staging file delivers the
written bytes. -/
theorem splice_loop_spec (cfg : Settings) (pread : Nat → Nat → Int) (off : Nat)
    (hpos : 0 < cfg.PSYNC_FS_PAGE_SIZE) (hoff : off + cfg.PSYNC_FS_PAGE_SIZE < 2 ^ 64)
    (rest : List psync_interval_tree_t) (i : psync_interval_tree_t)
    (htree : tree_ok (i :: rest)) (hto : off < i.to_)
    (hfrom : i.from_ < off + cfg.PSYNC_FS_PAGE_SIZE) (pdb : Nat) :
    ∃ r, splice_loop cfg pread off (i :: rest) pdb = .ok r ∧
      (∀ f ∈ r.frags, ∃ j ∈ i :: rest, f = splice_fragment cfg off j ∧ off < j.to_ ∧
        j.from_ < off + cfg.PSYNC_FS_PAGE_SIZE) ∧
      (∃ d, i :: rest = d ++ r.interval ∧ ∀ j ∈ d, j.to_ ≤ off + cfg.PSYNC_FS_PAGE_SIZE) ∧
      ((∀ j ∈ i :: rest, ∀ len o, j.from_ ≤ o → o + len ≤ j.to_ → pread len o = (len : Int)) →
        r.ret = 0) ∧
      (r.ret = 0 ∨ r.ret = -1) := by
  induction rest generalizing i pdb with
  | nil =>
    obtain ⟨g1, g2, g3, g4, g5⟩ := splice_fragment_spec cfg off i hpos hoff hto hfrom
      (htree.2 i (List.mem_cons_self _ _)).1 (htree.2 i (List.mem_cons_self _ _)).2
    have hadd : add_u64 (splice_fragment cfg off i).roff (splice_fragment cfg off i).rdlen =
        (splice_fragment cfg off i).roff + (splice_fragment cfg off i).rdlen :=
      add_u64_of_lt _ _ (by omega)
    have hfi : ∃ j ∈ [i], splice_fragment cfg off i = splice_fragment cfg off j ∧ off < j.to_ ∧
        j.from_ < off + cfg.PSYNC_FS_PAGE_SIZE :=
      ⟨i, List.mem_cons_self _ _, rfl, hto, hfrom⟩
    rw [splice_loop]
    dsimp only
    rw [hadd, add_u64_of_lt _ _ hoff, if_neg (not_not.2 g4)]
    by_cases hrd : pread (splice_fragment cfg off i).rdlen (splice_fragment cfg off i).rdoff %
        2 ^ 64 ≠ ((splice_fragment cfg off i).rdlen : Int)
    · rw [if_pos hrd]
      refine ⟨_, rfl, ?_, ⟨[], rfl, by simp⟩, ?_, Or.inr rfl⟩
      · intro f hf
        rw [List.mem_singleton] at hf
        rw [hf]; exact hfi
      · intro hread
        exfalso
        apply hrd
        rw [hread i (List.mem_cons_self _ _) _ _ (by omega) (by omega)]
        exact Int.emod_eq_of_lt (by omega) (by omega)
    · rw [if_neg hrd]
      by_cases hbig : i.to_ > off + cfg.PSYNC_FS_PAGE_SIZE
      · rw [if_pos hbig]
        refine ⟨_, rfl, ?_, ⟨[], rfl, by simp⟩, fun _ => rfl, Or.inl rfl⟩
        intro f hf
        rw [List.mem_singleton] at hf
        rw [hf]; exact hfi
      · rw [if_neg hbig]
        refine ⟨_, rfl, ?_, ⟨[i], rfl, ?_⟩, fun _ => rfl, Or.inl rfl⟩
        · intro f hf
          rw [List.mem_singleton] at hf
          rw [hf]; exact hfi
        · intro j hj
          rw [List.mem_singleton] at hj
          rw [hj]; omega
  | cons j rest ih =>
    obtain ⟨g1, g2, g3, g4, g5⟩ := splice_fragment_spec cfg off i hpos hoff hto hfrom
      (htree.2 i (List.mem_cons_self _ _)).1 (htree.2 i (List.mem_cons_self _ _)).2
    have hadd : add_u64 (splice_fragment cfg off i).roff (splice_fragment cfg off i).rdlen =
        (splice_fragment cfg off i).roff + (splice_fragment cfg off i).rdlen :=
      add_u64_of_lt _ _ (by omega)
    have hfi : ∃ k ∈ i :: j :: rest, splice_fragment cfg off i = splice_fragment cfg off k ∧
        off < k.to_ ∧ k.from_ < off + cfg.PSYNC_FS_PAGE_SIZE :=
      ⟨i, List.mem_cons_self _ _, rfl, hto, hfrom⟩
    have htree2 : tree_ok (j :: rest) :=
      ⟨(List.pairwise_cons.1 htree.1).2, fun k hk => htree.2 k (List.mem_cons_of_mem _ hk)⟩
    have hij : i.to_ ≤ j.from_ := (List.pairwise_cons.1 htree.1).1 j (List.mem_cons_self _ _)
    have hj := htree.2 j (List.mem_cons_of_mem _ (List.mem_cons_self _ _))
    rw [splice_loop]
    dsimp only
    rw [hadd, add_u64_of_lt _ _ hoff, if_neg (not_not.2 g4)]
    by_cases hrd : pread (splice_fragment cfg off i).rdlen (splice_fragment cfg off i).rdoff %
        2 ^ 64 ≠ ((splice_fragment cfg off i).rdlen : Int)
    · rw [if_pos hrd]
      refine ⟨_, rfl, ?_, ⟨[], rfl, by simp⟩, ?_, Or.inr rfl⟩
      · intro f hf
        rw [List.mem_singleton] at hf
        rw [hf]; exact hfi
      · intro hread
        exfalso
        apply hrd
        rw [hread i (List.mem_cons_self _ _) _ _ (by omega) (by omega)]
        exact Int.emod_eq_of_lt (by omega) (by omega)
    · rw [if_neg hrd]
      by_cases hbig : i.to_ > off + cfg.PSYNC_FS_PAGE_SIZE
      · rw [if_pos hbig]
        refine ⟨_, rfl, ?_, ⟨[], rfl, by simp⟩, fun _ => rfl, Or.inl rfl⟩
        intro f hf
        rw [List.mem_singleton] at hf
        rw [hf]; exact hfi
      · rw [if_neg hbig]
        by_cases hnext : j.from_ ≥ off + cfg.PSYNC_FS_PAGE_SIZE
        · rw [if_pos hnext]
          refine ⟨_, rfl, ?_, ⟨[i], rfl, ?_⟩, fun _ => rfl, Or.inl rfl⟩
          · intro f hf
            rw [List.mem_singleton] at hf
            rw [hf]; exact hfi
          · intro k hk
            rw [List.mem_singleton] at hk
            rw [hk]; omega
        · rw [if_neg hnext]
          obtain ⟨r, hr, hfr, ⟨d, hd, hdle⟩, hret, hret2⟩ :=
            ih j htree2 (by omega) (by omega)
              (if (splice_fragment cfg off i).roff + (splice_fragment cfg off i).rdlen > pdb
                then (splice_fragment cfg off i).roff + (splice_fragment cfg off i).rdlen
                else pdb)
          rw [hr]
          refine ⟨_, rfl, ?_, ⟨i :: d, ?_, ?_⟩, ?_, hret2⟩
          · intro f hf
            dsimp only at hf
            rcases List.mem_cons.1 hf with e | hf2
            · rw [e]; exact hfi
            · obtain ⟨k, hk, hk2⟩ := hfr f hf2
              exact ⟨k, List.mem_cons_of_mem _ hk, hk2⟩
          · dsimp only
            rw [List.cons_append, ← hd]
          · intro k hk
            rcases List.mem_cons.1 hk with e | hk2
            · rw [e]; omega
            · exact hdle k hk2
          · intro hread
            exact hret (fun k hk => hread k (List.mem_cons_of_mem _ hk))

/-- C29. For the page at `off` and every pointer into a tree of sorted, disjoint, non-empty
intervals: the body of the page loop never stops at one of its two assertions, and each
fragment that a splice reads from the staging file belongs to a write interval `i` of the tree,
satisfies `roff + rdlen <= PAGE_SIZE`, is read at the file offset `off + roff`, and
`[off+roff, off+roff+rdlen)` is the intersection of `[i.from, i.to)` with the page
`[off, off+PAGE_SIZE)`, which is not empty. -/
theorem splice_fragments_in_page (cfg : Settings) (e : StagingEnv) (hash oldhash off : Nat)
    (interval : List psync_interval_tree_t) (s : PageCache)
    (hpos : 0 < cfg.PSYNC_FS_PAGE_SIZE) (hoff : off + cfg.PSYNC_FS_PAGE_SIZE < 2 ^ 64)
    (htree : tree_ok interval) :
    modify_page cfg e hash oldhash off interval s ≠ .error .assert_failed ∧
      ∀ ptr s2 act frags, modify_page cfg e hash oldhash off interval s = .ok (ptr, s2, act) →
        (act = .splice_failed frags ∨ ∃ size, act = .spliced frags size) →
        ∀ f ∈ frags, ∃ i ∈ interval, f = splice_fragment cfg off i ∧
          f.roff + f.rdlen ≤ cfg.PSYNC_FS_PAGE_SIZE ∧ f.rdoff = off + f.roff ∧
          off + f.roff = max i.from_ off ∧
          off + f.roff + f.rdlen = min i.to_ (off + cfg.PSYNC_FS_PAGE_SIZE) ∧ 0 < f.rdlen := by
  obtain ⟨d1, h1, h1le, h1head⟩ := skip_intervals_spec off interval
  unfold modify_page
  dsimp only
  rw [add_u64_of_lt _ _ hoff]
  cases hsk : skip_intervals off interval with
  | nil =>
    refine ⟨fun h => (by cases h), ?_⟩
    intro ptr s2 act frags hok hact
    cases hok
    rcases hact with h | ⟨_, h⟩ <;> cases h
  | cons i rest =>
    rw [hsk] at h1
    have hito : off < i.to_ := h1head i rest hsk
    have htree2 : tree_ok (i :: rest) := tree_ok_suffix d1 _ (h1 ▸ htree)
    dsimp only
    by_cases hB : i.from_ ≥ off + cfg.PSYNC_FS_PAGE_SIZE
    · rw [if_pos hB]
      refine ⟨fun h => (by cases h), ?_⟩
      intro ptr s2 act frags hok hact
      cases hok
      rcases hact with h | ⟨_, h⟩ <;> cases h
    · rw [if_neg hB]
      by_cases hC : i.from_ ≤ off ∧ i.to_ ≥ off + cfg.PSYNC_FS_PAGE_SIZE
      · rw [if_pos hC]
        cases psync_pagecache_get_free_page cfg e.rounds s with
        | none =>
          refine ⟨fun h => (by cases h), ?_⟩
          intro ptr s2 act frags hok
          cases hok
        | some ps =>
          obtain ⟨p, s1⟩ := ps
          dsimp only
          split_ifs
          · refine ⟨fun h => (by cases h), ?_⟩
            intro ptr s2 act frags hok hact
            cases hok
            rcases hact with h | ⟨_, h⟩ <;> cases h
          · refine ⟨fun h => (by cases h), ?_⟩
            intro ptr s2 act frags hok hact
            cases hok
            rcases hact with h | ⟨_, h⟩ <;> cases h
      · rw [if_neg hC]
        have hassert : (i.to_ > off ∧ i.to_ ≤ off + cfg.PSYNC_FS_PAGE_SIZE) ∨
            (i.from_ ≥ off ∧ i.from_ < off + cfg.PSYNC_FS_PAGE_SIZE) := by
          by_cases hf : i.from_ ≥ off
          · exact Or.inr ⟨hf, by omega⟩
          · refine Or.inl ⟨hito, ?_⟩
            by_contra hcon
            exact hC ⟨by omega, by omega⟩
        rw [if_neg (not_not.2 hassert)]
        cases psync_pagecache_get_free_page cfg e.rounds s with
        | none =>
          refine ⟨fun h => (by cases h), ?_⟩
          intro ptr s2 act frags hok
          cases hok
        | some ps =>
          obtain ⟨p, s1⟩ := ps
          dsimp only
          rcases check_page_in_database_by_hash e.old_pread_ok s1 oldhash
            (off / cfg.PSYNC_FS_PAGE_SIZE) cfg.PSYNC_FS_PAGE_SIZE 0 with ⟨_ | pdb, s3⟩
          · dsimp only
            refine ⟨fun h => (by cases h), ?_⟩
            intro ptr s2 act frags hok hact
            cases hok
            rcases hact with h | ⟨_, h⟩ <;> cases h
          · dsimp only
            obtain ⟨r, hr, hfr, _, _, _⟩ :=
              splice_loop_spec cfg e.pread off hpos hoff rest i htree2 hito (by omega) pdb
            rw [hr]
            dsimp only
            have hgeo : ∀ f ∈ r.frags, ∃ i ∈ interval, f = splice_fragment cfg off i ∧
                f.roff + f.rdlen ≤ cfg.PSYNC_FS_PAGE_SIZE ∧ f.rdoff = off + f.roff ∧
                off + f.roff = max i.from_ off ∧
                off + f.roff + f.rdlen = min i.to_ (off + cfg.PSYNC_FS_PAGE_SIZE) ∧
                0 < f.rdlen := by
              intro f hf
              obtain ⟨j, hj, hfj, hjto, hjfrom⟩ := hfr f hf
              have hjmem : j ∈ interval := by
                rw [h1]; exact List.mem_append_right _ hj
              obtain ⟨g1, g2, g3, g4, g5⟩ := splice_fragment_spec cfg off j hpos hoff hjto
                hjfrom (htree.2 j hjmem).1 (htree.2 j hjmem).2
              rw [hfj]
              refine ⟨j, hjmem, rfl, g4, g2, ?_, ?_, g5⟩
              · rw [← g2, g1]
              · rw [← g2, g3]
            split_ifs
            · refine ⟨fun h => (by cases h), ?_⟩
              intro ptr s2 act frags hok hact
              cases hok
              rcases hact with h | ⟨_, h⟩
              · cases h; exact hgeo
              · cases h
            · refine ⟨fun h => (by cases h), ?_⟩
              intro ptr s2 act frags hok hact
              cases hok
              rcases hact with h | ⟨_, h⟩
              · cases h
              · cases h; exact hgeo

/-- C29, evaluated on page 2 of a file of 12388 bytes with the write intervals `[4000, 8192)`,
`[8292, 8392)` and `[8500, 12388)`: the splice reads the fragments `[100, 200)` and
`[308, 4096)` of the page, and no assertion stops the body. -/
theorem splice_fragments_in_page_witness :
    modify_page (toySettings true) toyManyEdits 7 5 8192 toyManyEdits.tree toyOldPagesOnDisk ≠
        .error .assert_failed ∧
      ∀ f ∈ [(⟨100, 8292, 100⟩ : Fragment), ⟨308, 8500, 3788⟩],
        ∃ i ∈ toyManyEdits.tree, f = splice_fragment (toySettings true) 8192 i ∧
          f.roff + f.rdlen ≤ 4096 ∧ f.rdoff = 8192 + f.roff ∧
          8192 + f.roff = max i.from_ 8192 ∧
          8192 + f.roff + f.rdlen = min i.to_ (8192 + 4096) ∧ 0 < f.rdlen :=
  ⟨(splice_fragments_in_page (toySettings true) toyManyEdits 7 5 8192 toyManyEdits.tree
      toyOldPagesOnDisk (by decide) (by decide) (by unfold tree_ok toyManyEdits toyStaging; decide)).1,
    (splice_fragments_in_page (toySettings true) toyManyEdits 7 5 8192 toyManyEdits.tree
      toyOldPagesOnDisk (by decide) (by decide)
      (by unfold tree_ok toyManyEdits toyStaging; decide)).2 _ _ _ _ rfl (Or.inr ⟨4096, rfl⟩)⟩

end Splice

section Promotion

theorem wait_free_cons (cfg : Settings) (rounds : List FlushEnv) (s : PageCache)
    (p : psync_cache_page_t) (rest : List psync_cache_page_t) (h : s.free_pages = p :: rest) :
    psync_pagecache_get_free_page.wait_free cfg rounds s =
      some (p, { s with free_pages := rest, cache_pages_free := sub_u32 s.cache_pages_free 1 }) := by
  obtain ⟨_, _, _, fp, _, _, _, _, _, _, _, _⟩ := s
  dsimp only at h
  subst h
  cases rounds <;> rfl

theorem get_free_page_of_cons (cfg : Settings) (rounds : List FlushEnv) (s : PageCache)
    (p : psync_cache_page_t) (rest : List psync_cache_page_t) (h : s.free_pages = p :: rest) :
    ∃ s2, psync_pagecache_get_free_page cfg rounds s = some (p, s2) ∧ s2.free_pages = rest ∧
      s2.pagecache = s.pagecache := by
  unfold psync_pagecache_get_free_page
  dsimp only
  split_ifs
  · rw [wait_free_cons cfg rounds { s with flushchacherun := 1 } p rest h]
    exact ⟨_, rfl, rfl, rfl⟩
  · rw [wait_free_cons cfg rounds s p rest h]
    exact ⟨_, rfl, rfl, rfl⟩

theorem add_page_free_pages (cfg : Settings) (s : PageCache) (page : psync_cache_page_t)
    (hash pageid : Nat) :
    s.free_pages.length ≤
      (psync_pagecache_add_page_if_not_exists cfg s page hash pageid).free_pages.length := by
  unfold psync_pagecache_add_page_if_not_exists psync_pagecache_return_free_page_locked
  dsimp only
  split_ifs
  · simp
  · exact le_refl _

theorem check_page_in_database_free_pages (ok : Bool) (s : PageCache)
    (hash pageid size off : Nat) :
    (check_page_in_database_by_hash ok s hash pageid size off).2.free_pages = s.free_pages := by
  unfold check_page_in_database_by_hash
  cases s.pagecache.find? (row_match hash pageid) with
  | none => rfl
  | some row =>
    dsimp only
    split_ifs <;> rfl

theorem pages_left_zero (fs off ps : Nat) (hpos : 0 < ps) (h : fs ≤ off) :
    (fs - off + ps - 1) / ps = 0 := by
  apply Nat.div_eq_of_lt
  omega

theorem pages_left_succ (fs off ps : Nat) (hpos : 0 < ps) (h : off < fs) :
    (fs - off + ps - 1) / ps = (fs - (off + ps) + ps - 1) / ps + 1 := by
  have e1 : fs - off + ps - 1 = (fs - off - 1) + ps := by omega
  rw [e1, Nat.add_div_right _ hpos]
  congr 1
  by_cases h2 : off + ps ≤ fs
  · congr 1
    omega
  · rw [Nat.div_eq_of_lt (by omega), Nat.div_eq_of_lt (by omega)]

/-- C23, refuted at a concrete input: a staging file of 100 bytes written as one interval
`[0, 100)` and a cache that does not hold page 0 of the old version. The interval meets page 0,
yet the page loop skips the page (`pdb==-1`): afterwards neither the memory tier nor the disk
tier holds page 0 of the new version. -/
theorem appended_page_not_promoted :
    tree_ok (toyStaging 100 [⟨0, 100⟩]).tree ∧
      intersects (toySettings true) 0 ⟨0, 100⟩ ∧
      (psync_pagecache_modify_to_cache (toySettings true) (toyStaging 100 [⟨0, 100⟩]) 7 5
        toyPageCache).map (fun r =>
          (r.2, has_page_in_memory_by_hash (toySettings true) r.1 7 0, has_page_in_db r.1 7 0)) =
        .ok ([.no_old_page], 0, 0) := by
  refine ⟨?_, ?_, rfl⟩
  · unfold tree_ok toyStaging
    decide
  · unfold intersects
    decide

end Promotion

section PromotionSteps

theorem filter_from_eq_nil (cfg : Settings) (off bound : Nat) (l : List psync_interval_tree_t)
    (h : ∀ j ∈ l, bound ≤ j.from_) (hb : off + cfg.PSYNC_FS_PAGE_SIZE ≤ bound) :
    l.filter (fun j => decide (j.from_ < off + cfg.PSYNC_FS_PAGE_SIZE)) = [] := by
  rw [List.filter_eq_nil_iff]
  intro j hj
  have := h j hj
  simp only [decide_eq_true_eq]
  omega

/-- The splice loop, entered at an interval that meets the page at `off`, when the staging file
delivers the written bytes: it reads one fragment for each interval from the pointer on that
starts before the end of the page, leaves `ret` at 0 and `pdb` at the size of the spliced
page. -/
theorem splice_loop_exact (cfg : Settings) (pread : Nat → Nat → Int) (off : Nat)
    (hpos : 0 < cfg.PSYNC_FS_PAGE_SIZE) (hoff : off + cfg.PSYNC_FS_PAGE_SIZE < 2 ^ 64)
    (rest : List psync_interval_tree_t) (i : psync_interval_tree_t)
    (htree : tree_ok (i :: rest)) (hto : off < i.to_)
    (hfrom : i.from_ < off + cfg.PSYNC_FS_PAGE_SIZE) (pdb : Nat)
    (hread : ∀ j ∈ i :: rest, ∀ len o, j.from_ ≤ o → o + len ≤ j.to_ →
      pread len o = (len : Int)) :
    ∃ r, splice_loop cfg pread off (i :: rest) pdb = .ok r ∧ r.ret = 0 ∧
      r.frags = ((i :: rest).filter
        (fun j => decide (j.from_ < off + cfg.PSYNC_FS_PAGE_SIZE))).map
          (splice_fragment cfg off) ∧
      r.pdb = spliced_size pdb r.frags ∧
      ∃ d, i :: rest = d ++ r.interval ∧ ∀ j ∈ d, j.to_ ≤ off + cfg.PSYNC_FS_PAGE_SIZE := by
  induction rest generalizing i pdb with
  | nil =>
    obtain ⟨g1, g2, g3, g4, g5⟩ := splice_fragment_spec cfg off i hpos hoff hto hfrom
      (htree.2 i (List.mem_cons_self _ _)).1 (htree.2 i (List.mem_cons_self _ _)).2
    have hadd : add_u64 (splice_fragment cfg off i).roff (splice_fragment cfg off i).rdlen =
        (splice_fragment cfg off i).roff + (splice_fragment cfg off i).rdlen :=
      add_u64_of_lt _ _ (by omega)
    have hrd : ¬ pread (splice_fragment cfg off i).rdlen (splice_fragment cfg off i).rdoff %
        2 ^ 64 ≠ ((splice_fragment cfg off i).rdlen : Int) := by
      rw [hread i (List.mem_cons_self _ _) _ _ (by omega) (by omega)]
      exact not_not.2 (Int.emod_eq_of_lt (by omega) (by omega))
    have hfil : [i].filter (fun j => decide (j.from_ < off + cfg.PSYNC_FS_PAGE_SIZE)) = [i] := by
      rw [List.filter_cons_of_pos (by simpa using hfrom), List.filter_nil]
    rw [splice_loop]
    dsimp only
    rw [hadd, add_u64_of_lt _ _ hoff, if_neg (not_not.2 g4), if_neg hrd, hfil]
    by_cases hbig : i.to_ > off + cfg.PSYNC_FS_PAGE_SIZE
    · rw [if_pos hbig]
      exact ⟨_, rfl, rfl, rfl, rfl, [], rfl, by simp⟩
    · rw [if_neg hbig]
      refine ⟨_, rfl, rfl, rfl, rfl, [i], rfl, ?_⟩
      intro j hj
      rw [List.mem_singleton] at hj
      rw [hj]; omega
  | cons j rest ih =>
    obtain ⟨g1, g2, g3, g4, g5⟩ := splice_fragment_spec cfg off i hpos hoff hto hfrom
      (htree.2 i (List.mem_cons_self _ _)).1 (htree.2 i (List.mem_cons_self _ _)).2
    have hadd : add_u64 (splice_fragment cfg off i).roff (splice_fragment cfg off i).rdlen =
        (splice_fragment cfg off i).roff + (splice_fragment cfg off i).rdlen :=
      add_u64_of_lt _ _ (by omega)
    have hrd : ¬ pread (splice_fragment cfg off i).rdlen (splice_fragment cfg off i).rdoff %
        2 ^ 64 ≠ ((splice_fragment cfg off i).rdlen : Int) := by
      rw [hread i (List.mem_cons_self _ _) _ _ (by omega) (by omega)]
      exact not_not.2 (Int.emod_eq_of_lt (by omega) (by omega))
    have htree2 : tree_ok (j :: rest) :=
      ⟨(List.pairwise_cons.1 htree.1).2, fun k hk => htree.2 k (List.mem_cons_of_mem _ hk)⟩
    have hij : ∀ k ∈ j :: rest, i.to_ ≤ k.from_ := (List.pairwise_cons.1 htree.1).1
    have hjk : ∀ k ∈ rest, j.to_ ≤ k.from_ := (List.pairwise_cons.1 htree2.1).1
    have hj := htree.2 j (List.mem_cons_of_mem _ (List.mem_cons_self _ _))
    rw [splice_loop]
    dsimp only
    rw [hadd, add_u64_of_lt _ _ hoff, if_neg (not_not.2 g4), if_neg hrd,
      List.filter_cons_of_pos (by simpa using hfrom)]
    by_cases hbig : i.to_ > off + cfg.PSYNC_FS_PAGE_SIZE
    · rw [if_pos hbig, filter_from_eq_nil cfg off i.to_ (j :: rest) hij (by omega)]
      exact ⟨_, rfl, rfl, rfl, rfl, [], rfl, by simp⟩
    · rw [if_neg hbig]
      by_cases hnext : j.from_ ≥ off + cfg.PSYNC_FS_PAGE_SIZE
      · rw [if_pos hnext, filter_from_eq_nil cfg off j.from_ (j :: rest) (by
          intro k hk
          rcases List.mem_cons.1 hk with e | hk2
          · rw [e]
          · have := hjk k hk2
            omega) hnext]
        refine ⟨_, rfl, rfl, rfl, rfl, [i], rfl, ?_⟩
        intro k hk
        rw [List.mem_singleton] at hk
        rw [hk]; omega
      · rw [if_neg hnext]
        obtain ⟨r, hr, hret, hfr, hpdb, d, hd, hdle⟩ :=
          ih j htree2 (by have := hij j (List.mem_cons_self _ _); omega) (by omega)
            (if (splice_fragment cfg off i).roff + (splice_fragment cfg off i).rdlen > pdb
              then (splice_fragment cfg off i).roff + (splice_fragment cfg off i).rdlen
              else pdb)
            (fun k hk => hread k (List.mem_cons_of_mem _ hk))
        rw [hr]
        refine ⟨_, rfl, hret, ?_, ?_, i :: d, ?_, ?_⟩
        · dsimp only
          rw [hfr, List.map_cons]
        · dsimp only
          rw [hpdb]
          rfl
        · dsimp only
          rw [List.cons_append, ← hd]
        · intro k hk
          rcases List.mem_cons.1 hk with e | hk2
          · rw [e]; omega
          · exact hdle k hk2

end PromotionSteps

section PromotionTiers

theorem toNat_emod32 (n : Nat) : ((n : Int) % 2 ^ 32).toNat = n % 2 ^ 32 := by
  have h : ((n : Int) % 2 ^ 32) = ((n % 2 ^ 32 : Nat) : Int) := by norm_cast
  rw [h, Int.toNat_natCast]

theorem get_free_page_length (cfg : Settings) (rounds : List FlushEnv) (s s1 : PageCache)
    (page : psync_cache_page_t)
    (h : psync_pagecache_get_free_page cfg rounds s = some (page, s1)) :
    s.free_pages.length ≤ s1.free_pages.length + 1 := by
  cases hfp : s.free_pages with
  | nil => simp
  | cons p fp =>
    obtain ⟨s0, hget, hs0, _⟩ := get_free_page_of_cons cfg rounds s p fp hfp
    rw [hget] at h
    have e := (Prod.mk.inj (Option.some.inj h)).2
    rw [← e, hs0, List.length_cons]

/-- After `psync_pagecache_add_page_if_not_exists` for a page that carries the key, the page is
in the memory hash or in the table, or a wait entry stands for it. -/
theorem add_page_resident (cfg : Settings) (s : PageCache) (page : psync_cache_page_t)
    (hash pageid : Nat) (hp : page_match hash pageid page = true) :
    resident_or_awaited cfg (psync_pagecache_add_page_if_not_exists cfg s page hash pageid)
      hash pageid := by
  unfold resident_or_awaited psync_pagecache_add_page_if_not_exists has_page_in_memory_by_hash
    has_page_in_db psync_pagecache_return_free_page_locked
  dsimp only
  by_cases h1 : (s.cache_hash (pagehash_by_hash_and_pageid cfg hash pageid)).any
      (page_match hash pageid) = true
  · left
    simp [h1]
  · by_cases h2 : (s.wait_page_hash (waiterhash_by_hash_and_pageid hash pageid)).any
        (wait_match hash pageid) = true
    · right; left
      simp [h1, h2]
    · by_cases h3 : s.pagecache.any (row_match hash pageid) = true
      · right; right
        simp [h1, h2, h3]
      · left
        simp only [Bool.not_eq_true] at h1 h2 h3
        simp [h1, h2, h3, hp]

theorem promoted_page_match (page : psync_cache_page_t) (hash pageid tm size : Nat) :
    page_match hash pageid (promoted_page page hash pageid tm size) = true := by
  simp [page_match, promoted_page]

theorem check_page_in_database_tiers (cfg : Settings) (ok : Bool) (s : PageCache)
    (oldhash pageid size off hash k : Nat) :
    has_page_in_memory_by_hash cfg
        (check_page_in_database_by_hash ok s oldhash pageid size off).2 hash k =
        has_page_in_memory_by_hash cfg s hash k ∧
      has_page_in_db (check_page_in_database_by_hash ok s oldhash pageid size off).2 hash k ≤
        has_page_in_db s hash k := by
  unfold check_page_in_database_by_hash
  cases s.pagecache.find? (row_match oldhash pageid) with
  | none => exact ⟨rfl, le_refl _⟩
  | some row =>
    dsimp only
    split_ifs
    · refine ⟨rfl, ?_⟩
      unfold has_page_in_db
      dsimp only
      by_cases h : s.pagecache.any (row_match hash k) = true
      · rw [if_pos h]
        split_ifs <;> omega
      · rw [if_neg h, if_neg]
        intro hc
        apply h
        rw [List.any_eq_true] at hc ⊢
        obtain ⟨r, hr, hm⟩ := hc
        obtain ⟨r0, hr0, e⟩ := List.mem_map.1 hr
        refine ⟨r0, hr0, ?_⟩
        by_cases hid : r0.id = row.id
        · rw [if_pos hid] at e
          rw [← e] at hm
          simp [row_match, PAGE_TYPE_FREE, PAGE_TYPE_READ] at hm
        · rw [if_neg hid] at e
          rw [e]; exact hm
    · exact ⟨rfl, le_refl _⟩

end PromotionTiers

section PromotionLoop

theorem meeting_eq (cfg : Settings) (k off : Nat) (D rest : List psync_interval_tree_t)
    (i : psync_interval_tree_t) (hoffeq : k * cfg.PSYNC_FS_PAGE_SIZE = off)
    (hD : ∀ j ∈ D, j.to_ ≤ off) (htree : tree_ok (i :: rest)) (hito : off < i.to_) :
    meeting cfg (D ++ i :: rest) k =
      (i :: rest).filter (fun j => decide (j.from_ < off + cfg.PSYNC_FS_PAGE_SIZE)) := by
  have hmul : (k + 1) * cfg.PSYNC_FS_PAGE_SIZE = off + cfg.PSYNC_FS_PAGE_SIZE := by
    rw [Nat.succ_mul, hoffeq]
  unfold meeting
  rw [hmul, hoffeq, List.filter_append]
  have h1 : D.filter (fun j =>
      decide (j.from_ < off + cfg.PSYNC_FS_PAGE_SIZE ∧ off < j.to_)) = [] := by
    rw [List.filter_eq_nil_iff]
    intro j hj
    have := hD j hj
    simp only [decide_eq_true_eq]
    omega
  rw [h1, List.nil_append]
  apply List.filter_congr
  intro j hj
  have hjto : off < j.to_ := by
    rcases List.mem_cons.1 hj with e | hj2
    · rw [e]; exact hito
    · have h2 := (List.pairwise_cons.1 htree.1).1 j hj2
      have h3 := (htree.2 j hj).1
      omega
  simp only [decide_eq_decide]
  constructor
  · intro h; exact h.1
  · intro h; exact ⟨h, hjto⟩

/-- The body of the page loop for page `k`, entered with a pointer that has only passed
intervals ending at or before the page, when the staging file delivers the written bytes: either
no free page comes, or the body ends, does with the page what `page_done` says, moves the
pointer only over intervals that end inside the page and takes at most one page from the free
list. -/
theorem modify_page_exact (cfg : Settings) (e : StagingEnv) (hash oldhash k : Nat)
    (d interval : List psync_interval_tree_t) (s : PageCache)
    (hpos : 0 < cfg.PSYNC_FS_PAGE_SIZE)
    (hoff : k * cfg.PSYNC_FS_PAGE_SIZE + cfg.PSYNC_FS_PAGE_SIZE < 2 ^ 64)
    (htree : tree_ok e.tree) (hd : e.tree = d ++ interval)
    (hdle : ∀ j ∈ d, j.to_ ≤ k * cfg.PSYNC_FS_PAGE_SIZE)
    (hread : ∀ j ∈ e.tree, ∀ len o, j.from_ ≤ o → o + len ≤ j.to_ →
      e.pread len o = (len : Int)) :
    (modify_page cfg e hash oldhash (k * cfg.PSYNC_FS_PAGE_SIZE) interval s =
        .error .no_free_page ∧
      psync_pagecache_get_free_page cfg e.rounds s = none ∧
      ∃ i ∈ e.tree, intersects cfg k i) ∨
    ∃ ptr s2 act,
      modify_page cfg e hash oldhash (k * cfg.PSYNC_FS_PAGE_SIZE) interval s =
        .ok (ptr, s2, act) ∧
      act ≠ .short_read ∧
      (∃ d2, e.tree = d2 ++ ptr ∧
        ∀ j ∈ d2, j.to_ ≤ k * cfg.PSYNC_FS_PAGE_SIZE + cfg.PSYNC_FS_PAGE_SIZE) ∧
      s.free_pages.length ≤ s2.free_pages.length + 1 ∧
      page_done cfg e hash oldhash k s act s2 := by
  obtain ⟨d1, h1, h1le, h1head⟩ := skip_intervals_spec (k * cfg.PSYNC_FS_PAGE_SIZE) interval
  have hmul : (k + 1) * cfg.PSYNC_FS_PAGE_SIZE =
      k * cfg.PSYNC_FS_PAGE_SIZE + cfg.PSYNC_FS_PAGE_SIZE := Nat.succ_mul _ _
  have hdiv : k * cfg.PSYNC_FS_PAGE_SIZE / cfg.PSYNC_FS_PAGE_SIZE = k :=
    Nat.mul_div_cancel k hpos
  have hD : ∀ j ∈ d ++ d1, j.to_ ≤ k * cfg.PSYNC_FS_PAGE_SIZE := by
    intro j hj
    rcases List.mem_append.1 hj with h | h
    · exact hdle j h
    · exact h1le j h
  have htr : e.tree = (d ++ d1) ++ skip_intervals (k * cfg.PSYNC_FS_PAGE_SIZE) interval := by
    rw [List.append_assoc, ← h1, hd]
  have hrename : s.free_pages.length ≤
      (rename_old_page cfg s hash oldhash k).free_pages.length + 1 := by
    unfold rename_old_page
    dsimp only
    split_ifs <;> simp
  unfold modify_page
  dsimp only
  rw [add_u64_of_lt _ _ hoff, hdiv]
  generalize hoffeq : k * cfg.PSYNC_FS_PAGE_SIZE = off at *
  cases hsk : skip_intervals off interval with
  | nil =>
    rw [hsk, List.append_nil] at htr
    have hni : ∀ j ∈ e.tree, ¬ intersects cfg k j := by
      intro j hj hx
      rw [htr] at hj
      have := hD j hj
      unfold intersects at hx
      omega
    right
    refine ⟨_, _, _, rfl, PageAction.noConfusion, ⟨d ++ d1, by rw [List.append_nil, htr], ?_⟩,
      hrename, ?_⟩
    · intro j hj
      have := hD j hj
      omega
    · exact ⟨fun _ => ⟨rfl, rfl⟩, fun ⟨j, hj, hx⟩ => absurd hx (hni j hj)⟩
  | cons i rest =>
    rw [hsk] at htr
    have hito : off < i.to_ := h1head i rest hsk
    have htree2 : tree_ok (i :: rest) := tree_ok_suffix (d ++ d1) _ (htr ▸ htree)
    have hi := htree2.2 i (List.mem_cons_self _ _)
    have hrest : ∀ j ∈ rest, i.to_ ≤ j.from_ := (List.pairwise_cons.1 htree2.1).1
    have himem : i ∈ e.tree := by
      rw [htr]; exact List.mem_append_right _ (List.mem_cons_self _ _)
    have hmem : ∀ j ∈ e.tree, j ∈ d ++ d1 ∨ j = i ∨ j ∈ rest := by
      intro j hj
      rw [htr] at hj
      rcases List.mem_append.1 hj with h | h
      · exact Or.inl h
      · exact Or.inr (List.mem_cons.1 h)
    have hptr : ∃ d2, e.tree = d2 ++ i :: rest ∧
        ∀ j ∈ d2, j.to_ ≤ off + cfg.PSYNC_FS_PAGE_SIZE :=
      ⟨d ++ d1, htr, fun j hj => by have := hD j hj; omega⟩
    dsimp only
    by_cases hB : i.from_ ≥ off + cfg.PSYNC_FS_PAGE_SIZE
    · rw [if_pos hB]
      have hni : ∀ j ∈ e.tree, ¬ intersects cfg k j := by
        intro j hj hx
        unfold intersects at hx
        rw [hmul, hoffeq] at hx
        rcases hmem j hj with h | h | h
        · have := hD j h
          omega
        · rw [h] at hx; omega
        · have := hrest j h
          omega
      right
      exact ⟨_, _, _, rfl, PageAction.noConfusion, hptr, hrename,
        fun _ => ⟨rfl, rfl⟩, fun ⟨j, hj, hx⟩ => absurd hx (hni j hj)⟩
    · rw [if_neg hB]
      have hiint : intersects cfg k i := by
        unfold intersects
        rw [hmul, hoffeq]
        omega
      have hint : ∃ j ∈ e.tree, intersects cfg k j := ⟨i, himem, hiint⟩
      have hnotni : ¬ ∀ j ∈ e.tree, ¬ intersects cfg k j := fun h => h i himem hiint
      by_cases hC : i.from_ ≤ off ∧ i.to_ ≥ off + cfg.PSYNC_FS_PAGE_SIZE
      · rw [if_pos hC]
        have hcov : ∃ c ∈ e.tree, covers cfg k c := by
          refine ⟨i, himem, ?_⟩
          unfold covers
          rw [hmul, hoffeq]
          exact hC
        cases hg : psync_pagecache_get_free_page cfg e.rounds s with
        | none => exact Or.inl ⟨rfl, rfl, hint⟩
        | some ps =>
          obtain ⟨page, s1⟩ := ps
          have hlen := get_free_page_length cfg e.rounds s s1 page hg
          dsimp only
          have hrd : e.pread cfg.PSYNC_FS_PAGE_SIZE off = (cfg.PSYNC_FS_PAGE_SIZE : Int) :=
            hread i himem _ _ hC.1 hC.2
          rw [hrd, if_neg (by omega), toNat_emod32]
          right
          refine ⟨_, _, _, rfl, PageAction.noConfusion, hptr, ?_, ?_⟩
          · have := add_page_free_pages cfg s1
              (promoted_page page hash k e.tm cfg.PSYNC_FS_PAGE_SIZE) hash k
            unfold promoted_page at this
            omega
          · refine ⟨fun h => absurd h hnotni, fun _ => ⟨PageAction.noConfusion, page, s1, hg,
              fun _ => ⟨rfl, rfl, ?_⟩, fun h => absurd hcov h⟩⟩
            exact add_page_resident cfg s1 _ hash k (promoted_page_match page hash k e.tm _)
      · rw [if_neg hC]
        have hassert : (i.to_ > off ∧ i.to_ ≤ off + cfg.PSYNC_FS_PAGE_SIZE) ∨
            (i.from_ ≥ off ∧ i.from_ < off + cfg.PSYNC_FS_PAGE_SIZE) := by
          by_cases hf : i.from_ ≥ off
          · exact Or.inr ⟨hf, by omega⟩
          · refine Or.inl ⟨hito, ?_⟩
            by_contra hcon
            exact hC ⟨by omega, by omega⟩
        rw [if_neg (not_not.2 hassert)]
        have hnc : ¬ ∃ c ∈ e.tree, covers cfg k c := by
          rintro ⟨c, hc, hcov⟩
          unfold covers at hcov
          rw [hmul, hoffeq] at hcov
          rcases hmem c hc with h | h | h
          · have := hD c h
            omega
          · rw [h] at hcov; exact hC ⟨hcov.1, hcov.2⟩
          · have := hrest c h
            omega
        cases hg : psync_pagecache_get_free_page cfg e.rounds s with
        | none => exact Or.inl ⟨rfl, rfl, hint⟩
        | some ps =>
          obtain ⟨page, s1⟩ := ps
          have hlen := get_free_page_length cfg e.rounds s s1 page hg
          dsimp only
          have hcfp := check_page_in_database_free_pages e.old_pread_ok s1 oldhash k
            cfg.PSYNC_FS_PAGE_SIZE 0
          have htiers := check_page_in_database_tiers cfg e.old_pread_ok s1 oldhash k
            cfg.PSYNC_FS_PAGE_SIZE 0 hash k
          rcases hc : check_page_in_database_by_hash e.old_pread_ok s1 oldhash k
            cfg.PSYNC_FS_PAGE_SIZE 0 with ⟨_ | pdb, s3⟩
          · rw [hc] at hcfp htiers
            dsimp only at hcfp htiers ⊢
            right
            refine ⟨_, _, _, rfl, PageAction.noConfusion, hptr, ?_, ?_⟩
            · unfold psync_pagecache_return_free_page psync_pagecache_return_free_page_locked
              dsimp only
              rw [hcfp]
              simp only [List.length_cons]
              omega
            · refine ⟨fun h => absurd h hnotni, fun _ => ⟨PageAction.noConfusion, page, s1, hg,
                fun h => absurd h hnc, fun _ => ?_⟩⟩
              rw [hc]
              exact ⟨fun _ => ⟨rfl, rfl, htiers.1, htiers.2⟩, fun pdb h => (by cases h)⟩
          · rw [hc] at hcfp htiers
            dsimp only at hcfp htiers ⊢
            obtain ⟨r, hr, hr0, hfr, hpdb, d2, hd2, hd2le⟩ :=
              splice_loop_exact cfg e.pread off hpos hoff rest i htree2 hito (by omega) pdb
                (fun j hj => hread j (by rw [htr]; exact List.mem_append_right _ hj))
            have hmeet : (meeting cfg e.tree k).map (splice_fragment cfg off) = r.frags := by
              rw [htr, meeting_eq cfg k off (d ++ d1) rest i hoffeq hD htree2 hito, hfr]
            rw [hr]
            dsimp only
            rw [if_neg (by rw [hr0]; decide)]
            right
            refine ⟨_, _, _, rfl, PageAction.noConfusion, ⟨(d ++ d1) ++ d2, ?_, ?_⟩, ?_, ?_⟩
            · rw [List.append_assoc, ← hd2, htr]
            · intro j hj
              rcases List.mem_append.1 hj with h | h
              · have := hD j h
                omega
              · exact hd2le j h
            · have := add_page_free_pages cfg s3 (promoted_page page hash k e.tm r.pdb) hash k
              unfold promoted_page at this
              rw [hcfp] at this
              omega
            · refine ⟨fun h => absurd h hnotni, fun _ => ⟨PageAction.noConfusion, page, s1, hg,
                fun h => absurd h hnc, fun _ => ?_⟩⟩
              rw [hc]
              refine ⟨fun h => (by cases h), fun pdb2 h => ?_⟩
              have e2 : pdb = pdb2 := Option.some.inj h
              subst e2
              rw [hoffeq, hmeet, ← hpdb]
              exact ⟨rfl, rfl,
                add_page_resident cfg s3 _ hash k (promoted_page_match page hash k e.tm _)⟩

end PromotionLoop

section PromotionRun

theorem get_free_page_ne_none (cfg : Settings) (rounds : List FlushEnv) (s : PageCache)
    (h : s.free_pages ≠ []) : psync_pagecache_get_free_page cfg rounds s ≠ none := by
  obtain ⟨p, fp, hfp⟩ := List.exists_cons_of_ne_nil h
  obtain ⟨s1, hget, _, _⟩ := get_free_page_of_cons cfg rounds s p fp hfp
  rw [hget]
  exact Option.some_ne_none _

/-- The page loop from page `k` on, with a pointer that has only passed intervals ending at or
before the page and enough fuel: the pages are handled one after the other as `page_done` says,
to the last page of the file or to a page for which no free page comes. -/
theorem modify_pages_exact (cfg : Settings) (e : StagingEnv) (hash oldhash : Nat)
    (hpos : 0 < cfg.PSYNC_FS_PAGE_SIZE) (hfs : e.fs + cfg.PSYNC_FS_PAGE_SIZE < 2 ^ 64)
    (htree : tree_ok e.tree)
    (hread : ∀ j ∈ e.tree, ∀ len o, j.from_ ≤ o → o + len ≤ j.to_ →
      e.pread len o = (len : Int))
    (fuel k : Nat) (d interval : List psync_interval_tree_t) (s : PageCache)
    (hd : e.tree = d ++ interval) (hdle : ∀ j ∈ d, j.to_ ≤ k * cfg.PSYNC_FS_PAGE_SIZE)
    (hfuel : e.fs ≤ fuel + k * cfg.PSYNC_FS_PAGE_SIZE) :
    ∃ (acts : List PageAction) (entry : Nat → PageCache),
      entry k = s ∧
      acts.length ≤ (e.fs - k * cfg.PSYNC_FS_PAGE_SIZE + cfg.PSYNC_FS_PAGE_SIZE - 1) /
        cfg.PSYNC_FS_PAGE_SIZE ∧
      (∀ m act, acts[m]? = some act →
        page_done cfg e hash oldhash (k + m) (entry (k + m)) act (entry (k + m + 1))) ∧
      ((acts.length = (e.fs - k * cfg.PSYNC_FS_PAGE_SIZE + cfg.PSYNC_FS_PAGE_SIZE - 1) /
            cfg.PSYNC_FS_PAGE_SIZE ∧
          modify_pages cfg e hash oldhash fuel (k * cfg.PSYNC_FS_PAGE_SIZE) interval s =
            .ok (entry (k + acts.length), acts)) ∨
        (acts.length < (e.fs - k * cfg.PSYNC_FS_PAGE_SIZE + cfg.PSYNC_FS_PAGE_SIZE - 1) /
            cfg.PSYNC_FS_PAGE_SIZE ∧
          modify_pages cfg e hash oldhash fuel (k * cfg.PSYNC_FS_PAGE_SIZE) interval s =
            .error .no_free_page ∧
          psync_pagecache_get_free_page cfg e.rounds (entry (k + acts.length)) = none ∧
          ∃ i ∈ e.tree, intersects cfg (k + acts.length) i)) ∧
      ((e.fs - k * cfg.PSYNC_FS_PAGE_SIZE + cfg.PSYNC_FS_PAGE_SIZE - 1) /
          cfg.PSYNC_FS_PAGE_SIZE ≤ s.free_pages.length →
        acts.length = (e.fs - k * cfg.PSYNC_FS_PAGE_SIZE + cfg.PSYNC_FS_PAGE_SIZE - 1) /
          cfg.PSYNC_FS_PAGE_SIZE) := by
  induction fuel generalizing k d interval s with
  | zero =>
    have hz := pages_left_zero e.fs (k * cfg.PSYNC_FS_PAGE_SIZE) _ hpos (by omega)
    rw [modify_pages, if_neg (by omega), hz]
    exact ⟨[], fun _ => s, rfl, le_refl _, by simp, Or.inl ⟨rfl, rfl⟩, fun _ => rfl⟩
  | succ fuel ih =>
    rw [modify_pages]
    by_cases hlt : k * cfg.PSYNC_FS_PAGE_SIZE < e.fs
    · rw [if_pos hlt]
      have hstep := pages_left_succ e.fs (k * cfg.PSYNC_FS_PAGE_SIZE) cfg.PSYNC_FS_PAGE_SIZE
        hpos hlt
      have hmul : (k + 1) * cfg.PSYNC_FS_PAGE_SIZE =
          k * cfg.PSYNC_FS_PAGE_SIZE + cfg.PSYNC_FS_PAGE_SIZE := Nat.succ_mul _ _
      rw [← hmul] at hstep
      rcases modify_page_exact cfg e hash oldhash k d interval s hpos (by omega) htree hd hdle
          hread with ⟨hmp, hnone, hint⟩ | ⟨ptr, s1, act, hmp, hact, ⟨d2, hd2, hd2le⟩, hfp, hdone⟩
      · rw [hmp, hstep]
        refine ⟨[], fun _ => s, rfl, Nat.zero_le _, by simp,
          Or.inr ⟨Nat.succ_pos _, rfl, hnone, hint⟩, ?_⟩
        intro hfree
        exfalso
        apply get_free_page_ne_none cfg e.rounds s _ hnone
        intro h0
        rw [h0] at hfree
        simp at hfree
      · obtain ⟨acts, entry, he, hlen, hall, hrun, hfree⟩ := ih (k + 1) d2 ptr s1 hd2
          (by rw [hmul]; exact hd2le) (by rw [hmul]; omega)
        have hent : ∀ n, k < n → (fun n => if n = k then s else entry n) n = entry n := by
          intro n hn
          dsimp only
          rw [if_neg (by omega)]
        rw [hmp, hstep]
        dsimp only
        rw [if_neg hact, add_u64_of_lt _ _ (by omega), ← hmul]
        refine ⟨act :: acts, fun n => if n = k then s else entry n, by simp, ?_, ?_, ?_, ?_⟩
        · rw [List.length_cons]
          omega
        · intro m a hm
          cases m with
          | zero =>
            simp only [List.getElem?_cons_zero, Option.some.injEq] at hm
            rw [← hm, Nat.add_zero, hent (k + 1) (by omega)]
            dsimp only
            rw [if_pos rfl, he]
            exact hdone
          | succ m =>
            simp only [List.getElem?_cons_succ] at hm
            have := hall m a hm
            rw [hent (k + (m + 1)) (by omega), hent (k + (m + 1) + 1) (by omega)]
            rw [show k + (m + 1) = k + 1 + m by omega]
            exact this
        · rw [List.length_cons, hent (k + (acts.length + 1)) (by omega),
            show k + (acts.length + 1) = k + 1 + acts.length by omega]
          rcases hrun with ⟨h1, h2⟩ | ⟨h1, h2, h3, h4⟩
          · left
            rw [h2]
            exact ⟨by omega, rfl⟩
          · right
            rw [h2]
            exact ⟨by omega, rfl, h3, h4⟩
        · intro hf
          rw [List.length_cons, hfree (by omega)]
    · rw [if_neg hlt]
      have hz := pages_left_zero e.fs (k * cfg.PSYNC_FS_PAGE_SIZE) _ hpos (by omega)
      rw [hz]
      exact ⟨[], fun _ => s, rfl, le_refl _, by simp, Or.inl ⟨rfl, rfl⟩, fun _ => rfl⟩

end PromotionRun

section PromotionClaim

/-- C23, amended: for every staging file size and every sorted list of disjoint, non-empty write
intervals whose bytes the staging file delivers, `psync_pagecache_modify_to_cache` handles the
pages in order (`entry k` is the state in which the body of the loop is entered for page `k`),
to the last page of the file or to a page where `psync_pagecache_get_free_page` obtains no free
page; it reaches the last page when the free list holds a page for each page of the file. Page
`k` is handled by the hash rename of the old disk-tier row exactly when no write interval meets
the page. For any other page a free page is taken: a page that an interval holds completely is
read whole from the staging file and handed to `psync_pagecache_add_page_if_not_exists`, after
which it is resident or awaited; for a page that intervals meet without holding it,
`check_page_in_database_by_hash` looks up the old page: when it returns -1 the page is skipped,
the free page goes back to the free list, the memory tier is as before and the disk tier gains
no row for the page; when it returns the size `pdb` the fragments of all intervals that meet the
page are read over the old bytes and the page, with the size `spliced_size pdb frags`, is
handed to `psync_pagecache_add_page_if_not_exists`, after which it is resident or awaited. -/
theorem modify_to_cache_promotes (cfg : Settings) (e : StagingEnv) (hash oldhash : Nat)
    (s : PageCache) (hpos : 0 < cfg.PSYNC_FS_PAGE_SIZE)
    (hfs : e.fs + cfg.PSYNC_FS_PAGE_SIZE < 2 ^ 64) (htree : tree_ok e.tree)
    (hread : ∀ j ∈ e.tree, ∀ len o, j.from_ ≤ o → o + len ≤ j.to_ →
      e.pread len o = (len : Int)) :
    ∃ (acts : List PageAction) (entry : Nat → PageCache),
      entry 0 = s ∧
      acts.length ≤ (e.fs + cfg.PSYNC_FS_PAGE_SIZE - 1) / cfg.PSYNC_FS_PAGE_SIZE ∧
      ((acts.length = (e.fs + cfg.PSYNC_FS_PAGE_SIZE - 1) / cfg.PSYNC_FS_PAGE_SIZE ∧
          psync_pagecache_modify_to_cache cfg e hash oldhash s =
            .ok (entry acts.length, acts)) ∨
        (acts.length < (e.fs + cfg.PSYNC_FS_PAGE_SIZE - 1) / cfg.PSYNC_FS_PAGE_SIZE ∧
          psync_pagecache_modify_to_cache cfg e hash oldhash s = .error .no_free_page ∧
          psync_pagecache_get_free_page cfg e.rounds (entry acts.length) = none ∧
          ∃ i ∈ e.tree, intersects cfg acts.length i)) ∧
      ((e.fs + cfg.PSYNC_FS_PAGE_SIZE - 1) / cfg.PSYNC_FS_PAGE_SIZE ≤ s.free_pages.length →
        acts.length = (e.fs + cfg.PSYNC_FS_PAGE_SIZE - 1) / cfg.PSYNC_FS_PAGE_SIZE) ∧
      ∀ k act, acts[k]? = some act →
      ((∀ i ∈ e.tree, ¬ intersects cfg k i) →
          act = .renamed ∧ (entry (k + 1)) = rename_old_page cfg (entry k) hash oldhash k) ∧
        ((∃ i ∈ e.tree, intersects cfg k i) → act ≠ .renamed ∧
          ∃ page s1, psync_pagecache_get_free_page cfg e.rounds (entry k) = some (page, s1) ∧
            ((∃ i ∈ e.tree, covers cfg k i) →
              act = .whole cfg.PSYNC_FS_PAGE_SIZE ∧
              (entry (k + 1)) = psync_pagecache_add_page_if_not_exists cfg s1
                (promoted_page page hash k e.tm cfg.PSYNC_FS_PAGE_SIZE) hash k ∧
              resident_or_awaited cfg (entry (k + 1)) hash k) ∧
            ((¬ ∃ i ∈ e.tree, covers cfg k i) →
              ((check_page_in_database_by_hash e.old_pread_ok s1 oldhash k
                  cfg.PSYNC_FS_PAGE_SIZE 0).1 = none →
                act = .no_old_page ∧
                (entry (k + 1)) = psync_pagecache_return_free_page
                  (check_page_in_database_by_hash e.old_pread_ok s1 oldhash k
                    cfg.PSYNC_FS_PAGE_SIZE 0).2 page ∧
                has_page_in_memory_by_hash cfg (entry (k + 1)) hash k =
                  has_page_in_memory_by_hash cfg s1 hash k ∧
                has_page_in_db (entry (k + 1)) hash k ≤ has_page_in_db s1 hash k) ∧
              (∀ pdb, (check_page_in_database_by_hash e.old_pread_ok s1 oldhash k
                  cfg.PSYNC_FS_PAGE_SIZE 0).1 = some pdb →
                act = .spliced
                  ((meeting cfg e.tree k).map (splice_fragment cfg (k * cfg.PSYNC_FS_PAGE_SIZE)))
                  (spliced_size pdb ((meeting cfg e.tree k).map
                    (splice_fragment cfg (k * cfg.PSYNC_FS_PAGE_SIZE)))) ∧
                (entry (k + 1)) = psync_pagecache_add_page_if_not_exists cfg
                  (check_page_in_database_by_hash e.old_pread_ok s1 oldhash k
                    cfg.PSYNC_FS_PAGE_SIZE 0).2
                  (promoted_page page hash k e.tm (spliced_size pdb ((meeting cfg e.tree k).map
                    (splice_fragment cfg (k * cfg.PSYNC_FS_PAGE_SIZE))))) hash k ∧
                resident_or_awaited cfg (entry (k + 1)) hash k))) := by
  obtain ⟨acts, entry, he, hlen, hall, hrun, hfree⟩ := modify_pages_exact cfg e hash oldhash
    hpos hfs htree hread e.fs 0 [] e.tree s rfl (by simp) (by omega)
  rw [Nat.zero_mul, Nat.sub_zero] at hlen hrun hfree
  simp only [Nat.zero_add] at hrun hall
  exact ⟨acts, entry, he, hlen, hrun, hfree, hall⟩

/-- C23 amended, evaluated on a file of three pages in which page 1 was written in full and 100
bytes of page 2 were written, with the pages 0 and 2 of the old version in the disk tier and
eight free pages: the run ends with three actions. -/
theorem modify_to_cache_promotes_witness :
    ∃ s2 acts,
      psync_pagecache_modify_to_cache (toySettings true)
        (toyStaging 12288 [⟨4096, 8192⟩, ⟨8292, 8392⟩]) 7 5 toyOldPagesOnDisk = .ok (s2, acts) ∧
      acts.length = 3 := by
  obtain ⟨acts, entry, _, _, hrun, hfree, _⟩ := modify_to_cache_promotes (toySettings true)
    (toyStaging 12288 [⟨4096, 8192⟩, ⟨8292, 8392⟩]) 7 5 toyOldPagesOnDisk (by decide)
    (by decide) (by unfold tree_ok toyStaging; decide)
    (by
      intro j hj len o h1 h2
      have hto : j.to_ ≤ 12288 := by
        simp only [toyStaging, List.mem_cons, List.mem_singleton, List.not_mem_nil,
          or_false] at hj
        rcases hj with h | h <;> rw [h] <;> decide
      simp only [toyStaging]
      rw [min_eq_left (by omega)])
  have hn : acts.length = 3 := hfree (by decide)
  rcases hrun with ⟨_, h⟩ | ⟨hlt, _⟩
  · exact ⟨_, acts, h, hn⟩
  · rw [hn] at hlt
    exact absurd hlt (by decide)

end PromotionClaim

end Pclsync
